import Mathlib

/-!
# Bit-banged I2C master (`bb_i2c_master`)

A shallow embedding of `bb_i2c_master.c` / `bb_i2c_master.h` and theorems about it.

* C `int` is modelled as `Int`; every arithmetic result that C stores in an `int`
  (`++`, `--`, `<< 1`) is brought back into the 32-bit two's complement range by `wrapInt`.
* `uint8_t` is `Fin 256`; the caller's buffer `uint8_t data[]` is the memory seen through the
  pointer, a function from the index to the byte stored there.
* The five callbacks are not executed; a call through one of them, and every access
  `data[i]`, is recorded as an `Event`. The value returned by `sda_read()` is an input of
  `bb_i2c_master_edge_processor`.
-/

set_option linter.unusedVariables false

namespace BbI2cMaster

/-! ## Machine integers -/

/-- C `uint8_t`. -/
abbrev uint8_t := Fin 256

/-- C `bb_i2c_master_mode` (`unsigned int`). -/
abbrev bb_i2c_master_mode := Nat

/-- Address of a callback function; only its identity matters. -/
abbrev callback_t := Nat

/-- Reduction of an integer to the 32-bit two's complement range of a C `int`. -/
@[irreducible] def wrapInt (x : Int) : Int := (x + 2147483648) % 4294967296 - 2147483648

/-- C `x << 1` on an `int`. -/
def shl1 (x : Int) : Int := wrapInt (x * 2)

/-- C conversion of an `int` to `uint8_t` on assignment: the low 8 bits. -/
def toU8 (x : Int) : uint8_t := ⟨(x % 256).toNat, by omega⟩

/-! ## Data model -/

/-- The anonymous `enum` of field `state`. -/
inductive State where
  | IDLE | START | WR_WORD | RD_WORD | RD_ACK | WR_ACK | WR_NACK | STOP
  deriving DecidableEq, Repr

/-- What a call of the driver does to the outside: a call through one of the five
callbacks of the instance, or an access to the caller's buffer at an index. -/
inductive Event where
  | sda_drive_low
  | sda_high_z
  | scl_drive_low
  | scl_high_z
  | sda_read
  | data_load (i : Int)
  | data_store (i : Int)
  deriving DecidableEq, Repr

/-- The C structure `bb_i2c_master_t`. -/
structure bb_i2c_master_t where
  sda_drive_low : callback_t
  sda_high_z : callback_t
  scl_drive_low : callback_t
  scl_high_z : callback_t
  sda_read : callback_t
  addr_rw : Int
  data : Int → uint8_t
  write_len : Int
  read_len : Int
  start_flag : Int
  busy_flag : Int
  state : State
  phase : Int
  current_byte : Int
  byte_cntr : Int
  bit_cntr : Int

/-! ## The driver functions -/

/-- `bb_i2c_master_init`: binds the callbacks, clears the two flags, sets `IDLE`, then calls
`scl_high_z()` and `sda_high_z()`. -/
def bb_i2c_master_init (inst : bb_i2c_master_t)
    (cb_sda_drive_low cb_sda_high_z cb_scl_drive_low cb_scl_high_z cb_sda_read : callback_t) :
    bb_i2c_master_t × List Event :=
  ({ inst with
      sda_drive_low := cb_sda_drive_low
      sda_high_z := cb_sda_high_z
      scl_drive_low := cb_scl_drive_low
      scl_high_z := cb_scl_high_z
      sda_read := cb_sda_read
      start_flag := 0
      busy_flag := 0
      state := State.IDLE },
   [Event.scl_high_z, Event.sda_high_z])

/-- The stores of `bb_i2c_master_write`, in the order of the source: `addr_rw`, `data`,
`write_len`, `read_len`, `start_flag`, `busy_flag`. They do not depend on `mode`; the wait
that follows them when `mode` asks for it is `wait_not_busy`, and the whole call is
`bb_i2c_master_write` below. -/
def write_stores (inst : bb_i2c_master_t) (addr : uint8_t) (data : Int → uint8_t)
    (len : Int) : bb_i2c_master_t :=
  { inst with
      addr_rw := Int.land (shl1 (addr.val : Int)) 0xFE
      data := data
      write_len := len
      read_len := 0
      start_flag := 1
      busy_flag := 1 }

/-- The stores of `bb_i2c_master_read`, in the order of the source. -/
def read_stores (inst : bb_i2c_master_t) (addr : uint8_t) (data : Int → uint8_t)
    (len : Int) : bb_i2c_master_t :=
  { inst with
      addr_rw := Int.lor (Int.land (shl1 (addr.val : Int)) 0xFE) 0x01
      data := data
      write_len := 0
      read_len := len
      start_flag := 1
      busy_flag := 1 }

/-- The stores of `bb_i2c_master_write` down to `instance->start_flag = 1;`: the structure as
a tick finds it when it runs before `instance->busy_flag = 1;`. -/
def write_request (inst : bb_i2c_master_t) (addr : uint8_t) (data : Int → uint8_t)
    (len : Int) : bb_i2c_master_t :=
  { inst with
      addr_rw := Int.land (shl1 (addr.val : Int)) 0xFE
      data := data
      write_len := len
      read_len := 0
      start_flag := 1 }

/-- The stores of `bb_i2c_master_read` down to `instance->start_flag = 1;`. -/
def read_request (inst : bb_i2c_master_t) (addr : uint8_t) (data : Int → uint8_t)
    (len : Int) : bb_i2c_master_t :=
  { inst with
      addr_rw := Int.lor (Int.land (shl1 (addr.val : Int)) 0xFE) 0x01
      data := data
      write_len := 0
      read_len := len
      start_flag := 1 }

/-- The last store of both calls: `instance->busy_flag = 1;`. -/
def busy_store (inst : bb_i2c_master_t) : bb_i2c_master_t :=
  { inst with busy_flag := 1 }

/-- `bb_i2c_master_is_busy`: `return instance->busy_flag;`. The result is the structure as
the call leaves it, the events of the call, and the value returned. -/
def bb_i2c_master_is_busy (inst : bb_i2c_master_t) : (bb_i2c_master_t × List Event) × Int :=
  ((inst, []), inst.busy_flag)

/-- The statements at the end of `bb_i2c_master_edge_processor`:
`instance->phase ++; instance->phase &= 0x03;`. -/
def phase_increment (inst : bb_i2c_master_t) : bb_i2c_master_t :=
  { inst with phase := Int.land (wrapInt (inst.phase + 1)) 0x03 }

/-- The `switch (instance->state)` of `bb_i2c_master_edge_processor`. `sda` is the value that
`instance->sda_read()` returns when this call makes it. -/
def edge_switch (inst : bb_i2c_master_t) (sda : Int) : bb_i2c_master_t × List Event :=
  match inst.state with
  | State.IDLE =>
    if inst.start_flag ≠ 0 then
      ({ inst with start_flag := 0, byte_cntr := 0, phase := 3, state := State.START }, [])
    else (inst, [])
  | State.START =>
    if inst.phase = 0 then (inst, [])
    else if inst.phase = 1 then (inst, [])
    else if inst.phase = 2 then (inst, [Event.sda_drive_low])
    else if inst.phase = 3 then
      ({ inst with bit_cntr := 8, current_byte := inst.addr_rw, state := State.WR_WORD },
       [Event.scl_drive_low])
    else (inst, [])
  | State.WR_WORD =>
    if inst.phase = 0 then
      ({ inst with current_byte := shl1 inst.current_byte
                   bit_cntr := wrapInt (inst.bit_cntr - 1) },
       [if Int.land inst.current_byte 0x80 ≠ 0 then Event.sda_high_z else Event.sda_drive_low])
    else if inst.phase = 1 then (inst, [Event.scl_high_z])
    else if inst.phase = 2 then (inst, [])
    else if inst.phase = 3 then
      (if inst.bit_cntr = 0 then { inst with state := State.RD_ACK } else inst,
       [Event.scl_drive_low])
    else (inst, [])
  | State.RD_ACK =>
    if inst.phase = 0 then (inst, [Event.sda_high_z])
    else if inst.phase = 1 then (inst, [Event.scl_high_z])
    else if inst.phase = 2 then (inst, [])
    else if inst.phase = 3 then
      if sda ≠ 0 then
        ({ inst with state := State.STOP }, [Event.sda_read, Event.scl_drive_low])
      else if inst.byte_cntr < inst.write_len then
        ({ inst with current_byte := ((inst.data inst.byte_cntr).val : Int)
                     byte_cntr := wrapInt (inst.byte_cntr + 1)
                     bit_cntr := 8
                     state := State.WR_WORD },
         [Event.sda_read, Event.data_load inst.byte_cntr, Event.scl_drive_low])
      else if inst.byte_cntr < inst.read_len then
        ({ inst with current_byte := 0, bit_cntr := 8, state := State.RD_WORD },
         [Event.sda_read, Event.scl_drive_low])
      else
        ({ inst with state := State.STOP }, [Event.sda_read, Event.scl_drive_low])
    else (inst, [])
  | State.RD_WORD =>
    if inst.phase = 0 then (inst, [Event.sda_high_z])
    else if inst.phase = 1 then (inst, [Event.scl_high_z])
    else if inst.phase = 2 then (inst, [])
    else if inst.phase = 3 then
      let byte := shl1 inst.current_byte
      let current_byte := if sda ≠ 0 then Int.lor byte 0x01 else byte
      let bit_cntr := wrapInt (inst.bit_cntr - 1)
      if bit_cntr = 0 then
        let byte_cntr := wrapInt (inst.byte_cntr + 1)
        ({ inst with current_byte := current_byte
                     bit_cntr := bit_cntr
                     data := Function.update inst.data inst.byte_cntr (toU8 current_byte)
                     byte_cntr := byte_cntr
                     state := if byte_cntr < inst.read_len then State.WR_ACK
                              else State.WR_NACK },
         [Event.sda_read, Event.scl_drive_low, Event.data_store inst.byte_cntr])
      else
        ({ inst with current_byte := current_byte, bit_cntr := bit_cntr },
         [Event.sda_read, Event.scl_drive_low])
    else (inst, [])
  | State.WR_ACK =>
    if inst.phase = 0 then (inst, [Event.sda_drive_low])
    else if inst.phase = 1 then (inst, [Event.scl_high_z])
    else if inst.phase = 2 then (inst, [])
    else if inst.phase = 3 then
      ({ inst with bit_cntr := 8, state := State.RD_WORD }, [Event.scl_drive_low])
    else (inst, [])
  | State.WR_NACK =>
    if inst.phase = 0 then (inst, [Event.sda_high_z])
    else if inst.phase = 1 then (inst, [Event.scl_high_z])
    else if inst.phase = 2 then (inst, [])
    else if inst.phase = 3 then ({ inst with state := State.STOP }, [Event.scl_drive_low])
    else (inst, [])
  | State.STOP =>
    if inst.phase = 0 then (inst, [Event.sda_drive_low])
    else if inst.phase = 1 then (inst, [Event.scl_high_z])
    else if inst.phase = 2 then (inst, [Event.sda_high_z])
    else if inst.phase = 3 then ({ inst with busy_flag := 0, state := State.IDLE }, [])
    else (inst, [])

/-- `bb_i2c_master_edge_processor`: the `switch` followed by the phase increment. -/
def bb_i2c_master_edge_processor (inst : bb_i2c_master_t) (sda : Int) :
    bb_i2c_master_t × List Event :=
  ((phase_increment (edge_switch inst sda).1), (edge_switch inst sda).2)

/-! ## The channel with its bus -/

/-- A channel together with what is outside the structure: how the master holds each of the
two lines (`true`: high-Z, released; `false`: driven low) and how many times `sda_read` has
been called. -/
structure Sys where
  inst : bb_i2c_master_t
  sda : Bool
  scl : Bool
  reads : Nat

/-- Effect of one event on the lines and on the count of samples. -/
def drive (y : Sys) : Event → Sys
  | Event.sda_drive_low => { y with sda := false }
  | Event.sda_high_z => { y with sda := true }
  | Event.scl_drive_low => { y with scl := false }
  | Event.scl_high_z => { y with scl := true }
  | Event.sda_read => { y with reads := y.reads + 1 }
  | Event.data_load _ => y
  | Event.data_store _ => y

/-- One call of `bb_i2c_master_edge_processor` against a slave given by the values that the
successive calls of `sda_read` return: the `k`-th call (from 0) returns `slave k`. -/
def tick (slave : Nat → Int) (y : Sys) : Sys × List Event :=
  let r := bb_i2c_master_edge_processor y.inst (slave y.reads)
  (r.2.foldl drive { y with inst := r.1 }, r.2)

/-- State after `k` ticks. -/
def ticks (slave : Nat → Int) : Nat → Sys → Sys
  | 0, y => y
  | k + 1, y => ticks slave k (tick slave y).1

/-- What is observed of one tick: the protocol state, the phase and the busy flag with which
the tick is entered, and the events of the tick in order. -/
structure Obs where
  state : State
  phase : Int
  busy : Int
  events : List Event
  deriving DecidableEq, Repr

/-- Observation of the tick made from `y`. -/
def observe (slave : Nat → Int) (y : Sys) : Obs :=
  ⟨y.inst.state, y.inst.phase, y.inst.busy_flag, (tick slave y).2⟩

/-- Observations of `k` successive ticks. -/
def trace (slave : Nat → Int) : Nat → Sys → List Obs
  | 0, _ => []
  | k + 1, y => observe slave y :: trace slave k (tick slave y).1

/-- The eight bits of a byte, most significant first. -/
def bitsMSB (b : Nat) : List Bool := (List.range 8).map (fun k => b.testBit (7 - k))

/-! ## Expected observations, block by block -/

/-- Observations of four successive ticks made in state `st` at phases 0, 1, 2, 3 with the
busy flag at `busy`, issuing the events `e0`, `e1`, `e2`, `e3`. -/
def cycleObs (st : State) (busy : Int) (e0 e1 e2 e3 : List Event) : List Obs :=
  [⟨st, 0, busy, e0⟩, ⟨st, 1, busy, e1⟩, ⟨st, 2, busy, e2⟩, ⟨st, 3, busy, e3⟩]

/-- The SDA operation of `WR_WORD` phase 0 when the shift register holds `c`. -/
def txEvent (c : Int) : Event :=
  if Int.land c 0x80 ≠ 0 then Event.sda_high_z else Event.sda_drive_low

/-- Observations of `n` bit cycles of `WR_WORD` starting with the shift register at `c`. -/
def wrWordObs (busy : Int) : Nat → Int → List Obs
  | 0, _ => []
  | n + 1, c =>
    cycleObs State.WR_WORD busy [txEvent c] [Event.scl_high_z] [] [Event.scl_drive_low] ++
      wrWordObs busy n (shl1 c)

/-- The shift register after `n` left shifts. -/
def shlN : Nat → Int → Int
  | 0, c => c
  | n + 1, c => shlN n (shl1 c)

/-- The statement of `RD_WORD` phase 3 on the shift register: shift left, then or the
sampled level in. -/
def rxBit (c : Int) (sda : Int) : Int :=
  if sda ≠ 0 then Int.lor (shl1 c) 0x01 else shl1 c

/-- The shift register after `n` samples taken from index `r` of the slave on. -/
def rxBits (slave : Nat → Int) : Nat → Nat → Int → Int
  | 0, _, c => c
  | n + 1, r, c => rxBits slave n (r + 1) (rxBit c (slave r))

/-- Observations of `n + 1` bit cycles of `RD_WORD`, the last of which stores at index `j`. -/
def rdWordObs (busy : Int) (j : Int) : Nat → List Obs
  | 0 =>
    cycleObs State.RD_WORD busy [Event.sda_high_z] [Event.scl_high_z] []
      [Event.sda_read, Event.scl_drive_low, Event.data_store j]
  | n + 1 =>
    cycleObs State.RD_WORD busy [Event.sda_high_z] [Event.scl_high_z] []
      [Event.sda_read, Event.scl_drive_low] ++ rdWordObs busy j n

/-! ## Reachable channels -/

/-- The channel after `bb_i2c_master_init`, whatever the structure and the lines were
before. -/
def initSys (y : Sys)
    (cb_sda_drive_low cb_sda_high_z cb_scl_drive_low cb_scl_high_z cb_sda_read : callback_t) :
    Sys :=
  (bb_i2c_master_init y.inst cb_sda_drive_low cb_sda_high_z cb_scl_drive_low cb_scl_high_z
      cb_sda_read).2.foldl drive
    { y with inst := (bb_i2c_master_init y.inst cb_sda_drive_low cb_sda_high_z cb_scl_drive_low
        cb_scl_high_z cb_sda_read).1 }

/-- The channel after the stores of `bb_i2c_master_write`, made with no tick between them:
the channel that a call in non-blocking mode returns, and the one on which the wait of a
call in blocking mode starts. `mode` has no part in the stores. -/
def armWrite (y : Sys) (addr : uint8_t) (data : Int → uint8_t) (len : Int)
    (mode : bb_i2c_master_mode) : Sys :=
  { y with inst := write_stores y.inst addr data len }

/-- The channel after the stores of `bb_i2c_master_read`, made with no tick between them. -/
def armRead (y : Sys) (addr : uint8_t) (data : Int → uint8_t) (len : Int)
    (mode : bb_i2c_master_mode) : Sys :=
  { y with inst := read_stores y.inst addr data len }

/-- Channels reachable from an initialisation by ticks, against any slave, and by calls of
`bb_i2c_master_write` and `bb_i2c_master_read` made while the channel is not busy. A call is
taken whole: its stores are made with no tick between them (the arming is not interrupted
by the tick handler). The ticks that a call in blocking mode waits for are ticks of this
relation. -/
inductive Reachable : Sys → Prop where
  | init (y : Sys) (c1 c2 c3 c4 c5 : callback_t) : Reachable (initSys y c1 c2 c3 c4 c5)
  | tick (slave : Nat → Int) (y : Sys) : Reachable y → Reachable (tick slave y).1
  | write (y : Sys) (addr : uint8_t) (data : Int → uint8_t) (len : Int)
      (mode : bb_i2c_master_mode) :
      Reachable y → y.inst.busy_flag = 0 → Reachable (armWrite y addr data len mode)
  | read (y : Sys) (addr : uint8_t) (data : Int → uint8_t) (len : Int)
      (mode : bb_i2c_master_mode) :
      Reachable y → y.inst.busy_flag = 0 → Reachable (armRead y addr data len mode)

/-- Invariant of the reachable channels: an idle channel has both lines released; outside
`IDLE` the channel is busy and no start is pending; a pending start means busy; `STOP` is
run at phases 0 to 3 with SCL released from phase 2 on and SDA released at phase 3. -/
def Inv (y : Sys) : Prop :=
  (y.inst.state = State.IDLE → y.sda = true ∧ y.scl = true) ∧
  (y.inst.state ≠ State.IDLE → y.inst.busy_flag ≠ 0 ∧ y.inst.start_flag = 0) ∧
  (y.inst.start_flag ≠ 0 → y.inst.busy_flag ≠ 0) ∧
  (y.inst.state = State.STOP →
    y.inst.phase = 0 ∨ y.inst.phase = 1 ∨ (y.inst.phase = 2 ∧ y.scl = true) ∨
      (y.inst.phase = 3 ∧ y.sda = true ∧ y.scl = true))

/-! ## Expected observations of whole transactions -/

/-- Observations of the four ticks of `RD_ACK` whose phase-3 tick issues `e3`. -/
def rdAckObs (busy : Int) (e3 : List Event) : List Obs :=
  cycleObs State.RD_ACK busy [Event.sda_high_z] [Event.scl_high_z] [] e3

/-- Observations of the transmission of the byte `c` and then of `m` bytes loaded from the
buffer at the indices `j`, `j + 1`, ..., each followed by an acknowledged `RD_ACK`. -/
def wrBytesObs (busy : Int) (data : Int → uint8_t) : Nat → Int → Int → List Obs
  | 0, _, c =>
    wrWordObs busy 8 c ++ rdAckObs busy [Event.sda_read, Event.scl_drive_low]
  | m + 1, j, c =>
    wrWordObs busy 8 c ++
      rdAckObs busy [Event.sda_read, Event.data_load j, Event.scl_drive_low] ++
      wrBytesObs busy data m (j + 1) ((data j).val : Int)

/-- Observations of the reception of `m + 1` bytes stored at the indices `j`, `j + 1`, ...:
each of the first `m` is followed by `WR_ACK`, the last one by `WR_NACK`. -/
def rdBytesObs (busy : Int) : Nat → Int → List Obs
  | 0, j =>
    rdWordObs busy j 7 ++
      cycleObs State.WR_NACK busy [Event.sda_high_z] [Event.scl_high_z] []
        [Event.scl_drive_low]
  | m + 1, j =>
    rdWordObs busy j 7 ++
      cycleObs State.WR_ACK busy [Event.sda_drive_low] [Event.scl_high_z] []
        [Event.scl_drive_low] ++
      rdBytesObs busy m (j + 1)

/-- The buffer after the reception of `n` bytes, sampled from index `r` of the slave on and
stored from index `j` on, the shift register holding `c` before. -/
def rdData (slave : Nat → Int) : Nat → Nat → Int → Int → (Int → uint8_t) → (Int → uint8_t)
  | 0, _, _, _, d => d
  | n + 1, r, j, c, d =>
    rdData slave n (r + 8) (j + 1) (rxBits slave 8 r c)
      (Function.update d j (toU8 (rxBits slave 8 r c)))

/-- Observations of the `IDLE` tick that consumes the request and of the four `START`
ticks. -/
def startObs (phase busy : Int) : List Obs :=
  ⟨State.IDLE, phase, busy, []⟩ ::
    cycleObs State.START busy [] [] [Event.sda_drive_low] [Event.scl_drive_low]

/-- Observations of the four `STOP` ticks. -/
def stopObs (busy : Int) : List Obs :=
  cycleObs State.STOP busy [Event.sda_drive_low] [Event.scl_high_z] [Event.sda_high_z] []

/-- The SDA level that a tick presents as a data bit: for a tick of `WR_WORD` at phase 0,
`true` when it releases SDA and `false` when it drives SDA low. -/
def dataBit? (o : Obs) : Option Bool :=
  if o.state = State.WR_WORD ∧ o.phase = 0 then
    if o.events = [Event.sda_high_z] then some true
    else if o.events = [Event.sda_drive_low] then some false
    else none
  else none

/-- The data bits put on SDA during a run, in order. -/
def wireBits (tr : List Obs) : List Bool := tr.filterMap dataBit?

/-- Whether a tick is a `WR_WORD` tick at phase 0. -/
def isBitSlot (o : Obs) : Bool := decide (o.state = State.WR_WORD ∧ o.phase = 0)

/-- The value that `sda_read` returns for a bit emitted by the slave. -/
def bitLevel (b : Bool) : Int := if b then 1 else 0

/-- The channel `y` with `phase` set to `p`: what `y` becomes when idle ticks are run or
skipped. -/
def withPhase (y : Sys) (p : Int) : Sys :=
  { y with inst := { y.inst with phase := p } }

/-- What is observed of a tick apart from the phase: the state, the busy flag and the
events. -/
def Obs.core (o : Obs) : State × Int × List Event := (o.state, o.busy, o.events)

/-! ## Histories of calls -/

/-- A call made on the channel after its initialisation: a tick against a slave, or one of
the two arming functions. -/
inductive Call where
  | tick (slave : Nat → Int)
  | write (addr : uint8_t) (data : Int → uint8_t) (len : Int) (mode : bb_i2c_master_mode)
  | read (addr : uint8_t) (data : Int → uint8_t) (len : Int) (mode : bb_i2c_master_mode)

/-- Effect of one call on the channel and on the list of all events issued so far (oldest
first). The arming functions are applied whether the channel is busy or not. -/
def call (p : Sys × List Event) : Call → Sys × List Event
  | Call.tick slave => ((tick slave p.1).1, p.2 ++ (tick slave p.1).2)
  | Call.write addr data len mode => (armWrite p.1 addr data len mode, p.2)
  | Call.read addr data len mode => (armRead p.1 addr data len mode, p.2)

/-- The channel and the events issued after `bb_i2c_master_init` on any structure followed
by the calls `cs` in order. -/
def run (y : Sys) (c1 c2 c3 c4 c5 : callback_t) (cs : List Call) : Sys × List Event :=
  cs.foldl call (initSys y c1 c2 c3 c4 c5, (bb_i2c_master_init y.inst c1 c2 c3 c4 c5).2)

/-- The last operation on SCL among the events `h`, if there is one. -/
def lastSclOp (h : List Event) : Option Event :=
  h.foldl (fun acc e =>
    if e = Event.scl_drive_low ∨ e = Event.scl_high_z then some e else acc) none

/-- The SCL operation that leaves the line as `b` says. -/
def sclOp (b : Bool) : Event := if b then Event.scl_high_z else Event.scl_drive_low

/-- Outside `IDLE` the phase is 0 to 3, and a phase-0 tick of a state other than `IDLE` and
`START` is entered with SCL driven low. -/
def Low (y : Sys) : Prop :=
  (y.inst.state ≠ State.IDLE → 0 ≤ y.inst.phase ∧ y.inst.phase ≤ 3) ∧
  (y.inst.state ≠ State.IDLE → y.inst.state ≠ State.START → y.inst.phase = 0 → y.scl = false)

/-- What a tick from `y` does to SDA: an operation on SDA made anywhere but at phase 2 of
`START` or `STOP` is the only event of its tick and is made with SCL driven low. -/
def SdaQuiet (slave : Nat → Int) (y : Sys) : Prop :=
  ∀ e ∈ (tick slave y).2, (e = Event.sda_drive_low ∨ e = Event.sda_high_z) →
    ¬ ((y.inst.state = State.START ∨ y.inst.state = State.STOP) ∧ y.inst.phase = 2) →
    y.scl = false ∧ (tick slave y).2 = [e]

/-! ## Buffer accesses and transmitted bytes of a run -/

/-- The buffer index of an event that is a buffer access. -/
def accessIndex? : Event → Option Int
  | Event.data_load i => some i
  | Event.data_store i => some i
  | _ => none

/-- The indices at which the buffer is read or written during a run, in order. -/
def accesses (tr : List Obs) : List Int :=
  tr.flatMap (fun o => o.events.filterMap accessIndex?)

/-- Whether a tick is made in `WR_WORD`. -/
def isTransmit (o : Obs) : Bool := decide (o.state = State.WR_WORD)

/-- The channel when the stores of `bb_i2c_master_write` down to `instance->start_flag = 1;`
are made and `instance->busy_flag = 1;` is not yet. -/
def halfArmWrite (y : Sys) (addr : uint8_t) (data : Int → uint8_t) (len : Int) : Sys :=
  { y with inst := write_request y.inst addr data len }

/-- The channel when the stores of `bb_i2c_master_read` down to `instance->start_flag = 1;`
are made and `instance->busy_flag = 1;` is not yet. -/
def halfArmRead (y : Sys) (addr : uint8_t) (data : Int → uint8_t) (len : Int) : Sys :=
  { y with inst := read_request y.inst addr data len }

/-- The channel after the last store of an arming call, `instance->busy_flag = 1;`. -/
def finishArm (y : Sys) : Sys := { y with inst := busy_store y.inst }

/-! ## Arithmetic of the machine integers -/

theorem wrapInt_of_range {x : Int} (h1 : -2147483648 ≤ x) (h2 : x < 2147483648) :
    wrapInt x = x := by
  unfold wrapInt; omega

@[simp] theorem next_phase_0 : Int.land (wrapInt 1) 3 = 1 := by
  rw [wrapInt]; decide
@[simp] theorem next_phase_1 : Int.land (wrapInt 2) 3 = 2 := by
  rw [wrapInt]; decide
@[simp] theorem next_phase_2 : Int.land (wrapInt 3) 3 = 3 := by
  rw [wrapInt]; decide
@[simp] theorem next_phase_3 : Int.land (wrapInt 4) 3 = 0 := by
  rw [wrapInt]; decide

/-! ## Composition of runs -/

theorem ticks_add (slave : Nat → Int) (a b : Nat) (y : Sys) :
    ticks slave (a + b) y = ticks slave b (ticks slave a y) := by
  induction a generalizing y with
  | zero => simp [ticks]
  | succ a ih => rw [Nat.succ_add]; simp [ticks, ih]

theorem trace_add (slave : Nat → Int) (a b : Nat) (y : Sys) :
    trace slave (a + b) y = trace slave a y ++ trace slave b (ticks slave a y) := by
  induction a generalizing y with
  | zero => simp [ticks, trace]
  | succ a ih => rw [Nat.succ_add]; simp [ticks, trace, ih]

theorem trace_length (slave : Nat → Int) (k : Nat) (y : Sys) :
    (trace slave k y).length = k := by
  induction k generalizing y with
  | zero => simp [trace]
  | succ k ih => simp [trace, ih]

/-! ## One block of four ticks in each state -/

theorem idle_start_tick (slave : Nat → Int) (y : Sys)
    (hs : y.inst.state = State.IDLE) (hf : y.inst.start_flag ≠ 0) :
    tick slave y =
      ({ y with inst := { y.inst with start_flag := 0, byte_cntr := 0, phase := 0,
                                      state := State.START } }, []) := by
  obtain ⟨⟨c1, c2, c3, c4, c5, a, d, wl, rl, sf, bf, st, ph, cb, bc, bitc⟩, sda, scl, r⟩ := y
  simp only at hs hf
  subst hs
  simp [tick, bb_i2c_master_edge_processor, edge_switch, phase_increment, drive, hf]

theorem idle_noop_tick (slave : Nat → Int) (y : Sys)
    (hs : y.inst.state = State.IDLE) (hf : y.inst.start_flag = 0) :
    tick slave y = ({ y with inst := phase_increment y.inst }, []) := by
  obtain ⟨⟨c1, c2, c3, c4, c5, a, d, wl, rl, sf, bf, st, ph, cb, bc, bitc⟩, sda, scl, r⟩ := y
  simp only at hs hf
  subst hs hf
  simp [tick, bb_i2c_master_edge_processor, edge_switch, phase_increment, drive]

theorem start_block (slave : Nat → Int) (y : Sys)
    (hs : y.inst.state = State.START) (hp : y.inst.phase = 0) :
    ticks slave 4 y =
      { y with inst := { y.inst with bit_cntr := 8, current_byte := y.inst.addr_rw,
                                     state := State.WR_WORD },
               sda := false, scl := false } ∧
    trace slave 4 y =
      cycleObs State.START y.inst.busy_flag [] [] [Event.sda_drive_low]
        [Event.scl_drive_low] := by
  obtain ⟨⟨c1, c2, c3, c4, c5, a, d, wl, rl, sf, bf, st, ph, cb, bc, bitc⟩, sda, scl, r⟩ := y
  simp only at hs hp
  subst hs hp
  simp [ticks, trace, observe, tick, bb_i2c_master_edge_processor, edge_switch, phase_increment, drive,
    cycleObs]

theorem wr_word_cycle (slave : Nat → Int) (y : Sys)
    (hs : y.inst.state = State.WR_WORD) (hp : y.inst.phase = 0) :
    ticks slave 4 y =
      { y with inst := { y.inst with
                           current_byte := shl1 y.inst.current_byte
                           bit_cntr := wrapInt (y.inst.bit_cntr - 1)
                           state := if wrapInt (y.inst.bit_cntr - 1) = 0 then State.RD_ACK
                                    else State.WR_WORD },
               sda := decide (Int.land y.inst.current_byte 0x80 ≠ 0), scl := false } ∧
    trace slave 4 y =
      cycleObs State.WR_WORD y.inst.busy_flag [txEvent y.inst.current_byte]
        [Event.scl_high_z] [] [Event.scl_drive_low] := by
  obtain ⟨⟨c1, c2, c3, c4, c5, a, d, wl, rl, sf, bf, st, ph, cb, bc, bitc⟩, sda, scl, r⟩ := y
  simp only at hs hp
  subst hs hp
  by_cases hb : wrapInt (bitc - 1) = 0 <;> by_cases hc : Int.land cb 128 = 0 <;>
    simp [ticks, trace, observe, tick, bb_i2c_master_edge_processor, edge_switch, phase_increment, drive,
      cycleObs, txEvent, hb, hc]

theorem rd_word_cycle (slave : Nat → Int) (y : Sys)
    (hs : y.inst.state = State.RD_WORD) (hp : y.inst.phase = 0)
    (hb : wrapInt (y.inst.bit_cntr - 1) ≠ 0) :
    ticks slave 4 y =
      { y with inst := { y.inst with
                           current_byte := rxBit y.inst.current_byte (slave y.reads)
                           bit_cntr := wrapInt (y.inst.bit_cntr - 1) },
               sda := true, scl := false, reads := y.reads + 1 } ∧
    trace slave 4 y =
      cycleObs State.RD_WORD y.inst.busy_flag [Event.sda_high_z] [Event.scl_high_z] []
        [Event.sda_read, Event.scl_drive_low] := by
  obtain ⟨⟨c1, c2, c3, c4, c5, a, d, wl, rl, sf, bf, st, ph, cb, bc, bitc⟩, sda, scl, r⟩ := y
  simp only at hs hp hb
  subst hs hp
  simp [ticks, trace, observe, tick, bb_i2c_master_edge_processor, edge_switch, phase_increment, drive,
    cycleObs, rxBit, hb]

theorem rd_word_last (slave : Nat → Int) (y : Sys)
    (hs : y.inst.state = State.RD_WORD) (hp : y.inst.phase = 0)
    (hb : wrapInt (y.inst.bit_cntr - 1) = 0) :
    ticks slave 4 y =
      { y with inst := { y.inst with
                           current_byte := rxBit y.inst.current_byte (slave y.reads)
                           bit_cntr := 0
                           data := Function.update y.inst.data y.inst.byte_cntr
                                     (toU8 (rxBit y.inst.current_byte (slave y.reads)))
                           byte_cntr := wrapInt (y.inst.byte_cntr + 1)
                           state := if wrapInt (y.inst.byte_cntr + 1) < y.inst.read_len
                                    then State.WR_ACK else State.WR_NACK },
               sda := true, scl := false, reads := y.reads + 1 } ∧
    trace slave 4 y =
      cycleObs State.RD_WORD y.inst.busy_flag [Event.sda_high_z] [Event.scl_high_z] []
        [Event.sda_read, Event.scl_drive_low, Event.data_store y.inst.byte_cntr] := by
  obtain ⟨⟨c1, c2, c3, c4, c5, a, d, wl, rl, sf, bf, st, ph, cb, bc, bitc⟩, sda, scl, r⟩ := y
  simp only at hs hp hb
  subst hs hp
  by_cases hl : wrapInt (bc + 1) < rl <;>
    simp [ticks, trace, observe, tick, bb_i2c_master_edge_processor, edge_switch, phase_increment, drive,
      cycleObs, rxBit, hb, hl]

theorem rd_ack_nack (slave : Nat → Int) (y : Sys)
    (hs : y.inst.state = State.RD_ACK) (hp : y.inst.phase = 0)
    (hn : slave y.reads ≠ 0) :
    ticks slave 4 y =
      { y with inst := { y.inst with state := State.STOP },
               sda := true, scl := false, reads := y.reads + 1 } ∧
    trace slave 4 y =
      cycleObs State.RD_ACK y.inst.busy_flag [Event.sda_high_z] [Event.scl_high_z] []
        [Event.sda_read, Event.scl_drive_low] := by
  obtain ⟨⟨c1, c2, c3, c4, c5, a, d, wl, rl, sf, bf, st, ph, cb, bc, bitc⟩, sda, scl, r⟩ := y
  simp only at hs hp hn
  subst hs hp
  simp [ticks, trace, observe, tick, bb_i2c_master_edge_processor, edge_switch, phase_increment, drive,
    cycleObs, hn]

theorem rd_ack_load (slave : Nat → Int) (y : Sys)
    (hs : y.inst.state = State.RD_ACK) (hp : y.inst.phase = 0)
    (ha : slave y.reads = 0) (hw : y.inst.byte_cntr < y.inst.write_len) :
    ticks slave 4 y =
      { y with inst := { y.inst with
                           current_byte := ((y.inst.data y.inst.byte_cntr).val : Int)
                           byte_cntr := wrapInt (y.inst.byte_cntr + 1)
                           bit_cntr := 8
                           state := State.WR_WORD },
               sda := true, scl := false, reads := y.reads + 1 } ∧
    trace slave 4 y =
      cycleObs State.RD_ACK y.inst.busy_flag [Event.sda_high_z] [Event.scl_high_z] []
        [Event.sda_read, Event.data_load y.inst.byte_cntr, Event.scl_drive_low] := by
  obtain ⟨⟨c1, c2, c3, c4, c5, a, d, wl, rl, sf, bf, st, ph, cb, bc, bitc⟩, sda, scl, r⟩ := y
  simp only at hs hp ha hw
  subst hs hp
  simp [ticks, trace, observe, tick, bb_i2c_master_edge_processor, edge_switch, phase_increment, drive,
    cycleObs, ha, hw]

theorem rd_ack_receive (slave : Nat → Int) (y : Sys)
    (hs : y.inst.state = State.RD_ACK) (hp : y.inst.phase = 0)
    (ha : slave y.reads = 0) (hw : ¬ y.inst.byte_cntr < y.inst.write_len)
    (hr : y.inst.byte_cntr < y.inst.read_len) :
    ticks slave 4 y =
      { y with inst := { y.inst with current_byte := 0, bit_cntr := 8,
                                     state := State.RD_WORD },
               sda := true, scl := false, reads := y.reads + 1 } ∧
    trace slave 4 y =
      cycleObs State.RD_ACK y.inst.busy_flag [Event.sda_high_z] [Event.scl_high_z] []
        [Event.sda_read, Event.scl_drive_low] := by
  obtain ⟨⟨c1, c2, c3, c4, c5, a, d, wl, rl, sf, bf, st, ph, cb, bc, bitc⟩, sda, scl, r⟩ := y
  simp only at hs hp ha hw hr
  subst hs hp
  simp [ticks, trace, observe, tick, bb_i2c_master_edge_processor, edge_switch, phase_increment, drive,
    cycleObs, ha, hw, hr]

theorem rd_ack_done (slave : Nat → Int) (y : Sys)
    (hs : y.inst.state = State.RD_ACK) (hp : y.inst.phase = 0)
    (ha : slave y.reads = 0) (hw : ¬ y.inst.byte_cntr < y.inst.write_len)
    (hr : ¬ y.inst.byte_cntr < y.inst.read_len) :
    ticks slave 4 y =
      { y with inst := { y.inst with state := State.STOP },
               sda := true, scl := false, reads := y.reads + 1 } ∧
    trace slave 4 y =
      cycleObs State.RD_ACK y.inst.busy_flag [Event.sda_high_z] [Event.scl_high_z] []
        [Event.sda_read, Event.scl_drive_low] := by
  obtain ⟨⟨c1, c2, c3, c4, c5, a, d, wl, rl, sf, bf, st, ph, cb, bc, bitc⟩, sda, scl, r⟩ := y
  simp only at hs hp ha hw hr
  subst hs hp
  simp [ticks, trace, observe, tick, bb_i2c_master_edge_processor, edge_switch, phase_increment, drive,
    cycleObs, ha, hw, hr]

theorem wr_ack_block (slave : Nat → Int) (y : Sys)
    (hs : y.inst.state = State.WR_ACK) (hp : y.inst.phase = 0) :
    ticks slave 4 y =
      { y with inst := { y.inst with bit_cntr := 8, state := State.RD_WORD },
               sda := false, scl := false } ∧
    trace slave 4 y =
      cycleObs State.WR_ACK y.inst.busy_flag [Event.sda_drive_low] [Event.scl_high_z] []
        [Event.scl_drive_low] := by
  obtain ⟨⟨c1, c2, c3, c4, c5, a, d, wl, rl, sf, bf, st, ph, cb, bc, bitc⟩, sda, scl, r⟩ := y
  simp only at hs hp
  subst hs hp
  simp [ticks, trace, observe, tick, bb_i2c_master_edge_processor, edge_switch, phase_increment, drive,
    cycleObs]

theorem wr_nack_block (slave : Nat → Int) (y : Sys)
    (hs : y.inst.state = State.WR_NACK) (hp : y.inst.phase = 0) :
    ticks slave 4 y =
      { y with inst := { y.inst with state := State.STOP }, sda := true, scl := false } ∧
    trace slave 4 y =
      cycleObs State.WR_NACK y.inst.busy_flag [Event.sda_high_z] [Event.scl_high_z] []
        [Event.scl_drive_low] := by
  obtain ⟨⟨c1, c2, c3, c4, c5, a, d, wl, rl, sf, bf, st, ph, cb, bc, bitc⟩, sda, scl, r⟩ := y
  simp only at hs hp
  subst hs hp
  simp [ticks, trace, observe, tick, bb_i2c_master_edge_processor, edge_switch, phase_increment, drive,
    cycleObs]

theorem stop_block (slave : Nat → Int) (y : Sys)
    (hs : y.inst.state = State.STOP) (hp : y.inst.phase = 0) :
    ticks slave 4 y =
      { y with inst := { y.inst with busy_flag := 0, state := State.IDLE },
               sda := true, scl := true } ∧
    trace slave 4 y =
      cycleObs State.STOP y.inst.busy_flag [Event.sda_drive_low] [Event.scl_high_z]
        [Event.sda_high_z] [] := by
  obtain ⟨⟨c1, c2, c3, c4, c5, a, d, wl, rl, sf, bf, st, ph, cb, bc, bitc⟩, sda, scl, r⟩ := y
  simp only at hs hp
  subst hs hp
  simp [ticks, trace, observe, tick, bb_i2c_master_edge_processor, edge_switch, phase_increment, drive,
    cycleObs]

/-! ## One byte -/

theorem wr_word_byte (slave : Nat → Int) (n : Nat) (hn : (n : Int) + 1 < 2147483648) (y : Sys)
    (hs : y.inst.state = State.WR_WORD) (hp : y.inst.phase = 0)
    (hb : y.inst.bit_cntr = (n : Int) + 1) :
    ticks slave (4 * (n + 1)) y =
      { y with inst := { y.inst with current_byte := shlN (n + 1) y.inst.current_byte
                                     bit_cntr := 0
                                     state := State.RD_ACK },
               sda := decide (Int.land (shlN n y.inst.current_byte) 0x80 ≠ 0),
               scl := false } ∧
    trace slave (4 * (n + 1)) y = wrWordObs y.inst.busy_flag (n + 1) y.inst.current_byte := by
  induction n generalizing y with
  | zero =>
    obtain ⟨h1, h2⟩ := wr_word_cycle slave y hs hp
    have hw : wrapInt (y.inst.bit_cntr - 1) = 0 := by rw [hb, wrapInt]; decide
    simp only [hw, if_true] at h1
    refine ⟨?_, ?_⟩
    · simpa [shlN] using h1
    · simpa [wrWordObs] using h2
  | succ n ih =>
    obtain ⟨h1, h2⟩ := wr_word_cycle slave y hs hp
    have hw : wrapInt (y.inst.bit_cntr - 1) = (n : Int) + 1 := by
      rw [hb]; push_cast; unfold wrapInt; omega
    have hne : ¬ ((n : Int) + 1 = 0) := by omega
    simp only [hw, hne, if_false] at h1
    have e : 4 * (n + 1 + 1) = 4 + 4 * (n + 1) := by ring
    have hn' : (n : Int) + 1 < 2147483648 := by push_cast at hn; omega
    obtain ⟨k1, k2⟩ := ih hn' (ticks slave 4 y) (by rw [h1]) (by rw [h1]; exact hp)
      (by rw [h1])
    rw [e, ticks_add, trace_add, k1, k2, h2]
    refine ⟨?_, ?_⟩
    · rw [h1]; simp [shlN]
    · rw [h1]; simp [wrWordObs]

theorem rd_word_byte (slave : Nat → Int) (n : Nat) (hn : (n : Int) + 1 < 2147483648) (y : Sys)
    (hs : y.inst.state = State.RD_WORD) (hp : y.inst.phase = 0)
    (hb : y.inst.bit_cntr = (n : Int) + 1) :
    ticks slave (4 * (n + 1)) y =
      { y with inst := { y.inst with
                           current_byte := rxBits slave (n + 1) y.reads y.inst.current_byte
                           bit_cntr := 0
                           data := Function.update y.inst.data y.inst.byte_cntr
                                     (toU8 (rxBits slave (n + 1) y.reads y.inst.current_byte))
                           byte_cntr := wrapInt (y.inst.byte_cntr + 1)
                           state := if wrapInt (y.inst.byte_cntr + 1) < y.inst.read_len
                                    then State.WR_ACK else State.WR_NACK },
               sda := true, scl := false, reads := y.reads + (n + 1) } ∧
    trace slave (4 * (n + 1)) y = rdWordObs y.inst.busy_flag y.inst.byte_cntr n := by
  induction n generalizing y with
  | zero =>
    have hw : wrapInt (y.inst.bit_cntr - 1) = 0 := by rw [hb, wrapInt]; decide
    obtain ⟨h1, h2⟩ := rd_word_last slave y hs hp hw
    refine ⟨?_, ?_⟩
    · simpa [rxBits] using h1
    · simpa [rdWordObs] using h2
  | succ n ih =>
    have hw : wrapInt (y.inst.bit_cntr - 1) = (n : Int) + 1 := by
      rw [hb]; push_cast; unfold wrapInt; omega
    have hne : wrapInt (y.inst.bit_cntr - 1) ≠ 0 := by rw [hw]; omega
    obtain ⟨h1, h2⟩ := rd_word_cycle slave y hs hp hne
    rw [hw] at h1
    have e : 4 * (n + 1 + 1) = 4 + 4 * (n + 1) := by ring
    have hn' : (n : Int) + 1 < 2147483648 := by push_cast at hn; omega
    obtain ⟨k1, k2⟩ := ih hn' (ticks slave 4 y) (by rw [h1]; exact hs) (by rw [h1]; exact hp)
      (by rw [h1])
    rw [e, ticks_add, trace_add, k1, k2, h2]
    refine ⟨?_, ?_⟩
    · rw [h1]; simp [rxBits, Nat.add_assoc, Nat.add_comm 1]
    · rw [h1]; simp [rdWordObs]

theorem observe_mem_trace (slave : Nat → Int) (n k : Nat) (hk : k < n) (y : Sys) :
    observe slave (ticks slave k y) ∈ trace slave n y := by
  induction n generalizing y k with
  | zero => omega
  | succ n ih =>
    cases k with
    | zero => simp [trace, ticks]
    | succ k =>
      have := ih k (by omega) (tick slave y).1
      simp [trace, ticks, this]

/-! ## Bits of a byte in the shift register -/

theorem shl1_ofNat (m : Nat) (h : 2 * m < 2147483648) :
    shl1 (m : Int) = ((2 * m : Nat) : Int) := by
  unfold shl1 wrapInt; push_cast; omega

theorem shlN_ofNat (k : Nat) (m : Nat) (h : 2 ^ k * m < 2147483648) :
    shlN k (m : Int) = ((2 ^ k * m : Nat) : Int) := by
  induction k generalizing m with
  | zero => simp [shlN]
  | succ k ih =>
    have e2 : 2 ^ (k + 1) * m = 2 ^ k * (2 * m) := by
      rw [Nat.pow_succ, Nat.mul_assoc]
    have hm : 2 * m < 2147483648 := by
      have h1 : 1 ≤ 2 ^ k := Nat.one_le_two_pow
      have h3 : 1 * (2 * m) ≤ 2 ^ k * (2 * m) := Nat.mul_le_mul_right _ h1
      omega
    have h2 : 2 ^ k * (2 * m) < 2147483648 := by rw [← e2]; exact h
    rw [shlN, shl1_ofNat m hm, ih (2 * m) h2, e2]

theorem txEvent_ofNat (m : Nat) :
    txEvent (m : Int) = if m.testBit 7 then Event.sda_high_z else Event.sda_drive_low := by
  unfold txEvent
  have h : Int.land (m : Int) 0x80 = ((m &&& 2 ^ 7 : Nat) : Int) := rfl
  rw [h, Nat.and_two_pow]
  cases m.testBit 7 <;> simp

theorem txEvent_shlN (b : uint8_t) (k : Nat) (hk : k ≤ 7) :
    txEvent (shlN k (b.val : Int)) =
      if b.val.testBit (7 - k) then Event.sda_high_z else Event.sda_drive_low := by
  have hb := b.isLt
  have h2 : 2 ^ k ≤ 2 ^ 7 := Nat.pow_le_pow_right (by decide) hk
  have h : 2 ^ k * b.val < 2147483648 := by
    have : 2 ^ k * b.val ≤ 2 ^ 7 * 255 := Nat.mul_le_mul h2 (by omega)
    omega
  rw [shlN_ofNat k b.val h, txEvent_ofNat, Nat.testBit_mul_pow_two]
  simp [hk]

/-- Observations of the eight bit cycles that transmit the byte `b`, in terms of its bits. -/
theorem wrWordObs_byte (busy : Int) (b : uint8_t) :
    wrWordObs busy 8 (b.val : Int) =
      (bitsMSB b.val).flatMap (fun bit =>
        cycleObs State.WR_WORD busy [if bit then Event.sda_high_z else Event.sda_drive_low]
          [Event.scl_high_z] [] [Event.scl_drive_low]) := by
  have e : bitsMSB b.val = [b.val.testBit 7, b.val.testBit 6, b.val.testBit 5, b.val.testBit 4,
      b.val.testBit 3, b.val.testBit 2, b.val.testBit 1, b.val.testBit 0] := rfl
  have h0 := txEvent_shlN b 0 (by omega)
  have h1 := txEvent_shlN b 1 (by omega)
  have h2 := txEvent_shlN b 2 (by omega)
  have h3 := txEvent_shlN b 3 (by omega)
  have h4 := txEvent_shlN b 4 (by omega)
  have h5 := txEvent_shlN b 5 (by omega)
  have h6 := txEvent_shlN b 6 (by omega)
  have h7 := txEvent_shlN b 7 (by omega)
  simp only [shlN] at h0 h1 h2 h3 h4 h5 h6 h7
  rw [e]
  simp only [wrWordObs, h0, h1, h2, h3, h4, h5, h6, h7, List.flatMap_cons, List.flatMap_nil,
    List.append_nil, Nat.sub_zero]

/-! ## Arming -/

set_option maxRecDepth 100000 in
theorem addr_bits : ∀ a : uint8_t,
    Int.land ((2 * a.val : Nat) : Int) 0xFE = 2 * ((a.val % 128 : Nat) : Int) ∧
    Int.land ((2 * a.val : Nat) : Int) 0xFE = Int.lor ((2 * (a.val % 128) : Nat) : Int) 0 ∧
    Int.lor (Int.land ((2 * a.val : Nat) : Int) 0xFE) 0x01 =
      2 * ((a.val % 128 : Nat) : Int) + 1 ∧
    Int.lor (Int.land ((2 * a.val : Nat) : Int) 0xFE) 0x01 =
      Int.lor ((2 * (a.val % 128) : Nat) : Int) 0x01 := by
  decide

/-- C7. From `WR_WORD` at phase 0 with the shift register holding the byte `b` and
`bit_cntr = 8`, the next 32 ticks are 8 bit cycles of 4 ticks: in cycle `k` the phase-0 tick
releases SDA when bit `7 - k` of `b` is 1 and drives it low otherwise, the phase-1 tick
releases SCL, the phase-2 tick does nothing and the phase-3 tick drives SCL low. The state is
`WR_WORD` at each of these 32 ticks and `RD_ACK` at phase 0 after them. -/
theorem C7_transmit_byte_msb_first (slave : Nat → Int) (y : Sys) (b : uint8_t)
    (hs : y.inst.state = State.WR_WORD) (hp : y.inst.phase = 0)
    (hc : y.inst.current_byte = (b.val : Int)) (hb : y.inst.bit_cntr = 8) :
    (trace slave 32 y).map (fun o => (o.state, o.phase, o.events)) =
      (bitsMSB b.val).flatMap (fun bit =>
        [(State.WR_WORD, 0, [if bit then Event.sda_high_z else Event.sda_drive_low]),
         (State.WR_WORD, 1, [Event.scl_high_z]),
         (State.WR_WORD, 2, []),
         (State.WR_WORD, 3, [Event.scl_drive_low])]) ∧
    (∀ k, k < 32 → (ticks slave k y).inst.state = State.WR_WORD) ∧
    (ticks slave 32 y).inst.state = State.RD_ACK ∧
    (ticks slave 32 y).inst.phase = 0 := by
  obtain ⟨h1, h2⟩ := wr_word_byte slave 7 (by norm_num) y hs hp (by rw [hb]; norm_num)
  have e32 : 4 * (7 + 1) = 32 := rfl
  rw [e32] at h1 h2
  rw [hc, wrWordObs_byte] at h2
  have e : bitsMSB b.val = [b.val.testBit 7, b.val.testBit 6, b.val.testBit 5, b.val.testBit 4,
      b.val.testBit 3, b.val.testBit 2, b.val.testBit 1, b.val.testBit 0] := rfl
  refine ⟨?_, ?_, ?_, ?_⟩
  · rw [h2, e]
    simp [cycleObs, List.flatMap_cons]
  · intro k hk
    have hm := observe_mem_trace slave 32 k hk y
    rw [h2] at hm
    obtain ⟨bit, _, hbit⟩ := List.mem_flatMap.1 hm
    have hst : (observe slave (ticks slave k y)).state = State.WR_WORD := by
      simp only [cycleObs, List.mem_cons, List.mem_singleton, List.not_mem_nil, or_false] at hbit
      rcases hbit with h | h | h | h <;> rw [h]
    exact hst
  · rw [h1]
  · rw [h1]; exact hp

/-- C7, witness: the byte `0xA5` in a channel at `WR_WORD` phase 0. -/
theorem C7_transmit_byte_msb_first_witness :
    (trace (fun _ => 0) 32
        ⟨⟨0, 0, 0, 0, 0, 0, fun _ => 0, 0, 0, 0, 1, State.WR_WORD, 0, 0xA5, 0, 8⟩,
          true, false, 0⟩).map (fun o => (o.state, o.phase, o.events)) =
      (bitsMSB 0xA5).flatMap (fun bit =>
        [(State.WR_WORD, 0, [if bit then Event.sda_high_z else Event.sda_drive_low]),
         (State.WR_WORD, 1, [Event.scl_high_z]),
         (State.WR_WORD, 2, []),
         (State.WR_WORD, 3, [Event.scl_drive_low])]) :=
  (C7_transmit_byte_msb_first (fun _ => 0)
    ⟨⟨0, 0, 0, 0, 0, 0, fun _ => 0, 0, 0, 0, 1, State.WR_WORD, 0, 0xA5, 0, 8⟩, true, false, 0⟩
    (0xA5 : uint8_t) rfl rfl rfl rfl).1

/-! ## NACK and STOP -/

theorem cycleObs_mem {st : State} {busy : Int} {e0 e1 e2 e3 : List Event} {o : Obs}
    (h : o ∈ cycleObs st busy e0 e1 e2 e3) : o.state = st ∧ o.busy = busy := by
  simp only [cycleObs, List.mem_cons, List.mem_singleton, List.not_mem_nil, or_false] at h
  rcases h with h | h | h | h <;> rw [h] <;> exact ⟨rfl, rfl⟩

theorem rd_ack_nack_tick (slave : Nat → Int) (y : Sys)
    (hs : y.inst.state = State.RD_ACK) (hp : y.inst.phase = 3) (hn : slave y.reads ≠ 0) :
    tick slave y =
      ({ y with inst := { y.inst with state := State.STOP, phase := 0 },
                scl := false, reads := y.reads + 1 },
       [Event.sda_read, Event.scl_drive_low]) := by
  obtain ⟨⟨c1, c2, c3, c4, c5, a, d, wl, rl, sf, bf, st, ph, cb, bc, bitc⟩, sda, scl, r⟩ := y
  simp only at hs hp hn
  subst hs hp
  simp [tick, bb_i2c_master_edge_processor, edge_switch, phase_increment, drive, hn]

theorem stop_steps (slave : Nat → Int) (y : Sys)
    (hs : y.inst.state = State.STOP) (hp : y.inst.phase = 0) :
    ticks slave 1 y = { y with inst := { y.inst with phase := 1 }, sda := false } ∧
    ticks slave 2 y = { y with inst := { y.inst with phase := 2 }, sda := false, scl := true } ∧
    ticks slave 3 y = { y with inst := { y.inst with phase := 3 }, sda := true, scl := true } := by
  obtain ⟨⟨c1, c2, c3, c4, c5, a, d, wl, rl, sf, bf, st, ph, cb, bc, bitc⟩, sda, scl, r⟩ := y
  simp only at hs hp
  subst hs hp
  simp [ticks, tick, bb_i2c_master_edge_processor, edge_switch, phase_increment, drive]

/-- C4. In `RD_ACK` at phase 3, whatever `write_len`, `read_len` and `byte_cntr` are, a
non-zero sample takes the channel to `STOP`; the busy flag, set before, is still set (and
unchanged) after that tick and after each of the next 3 ticks, and after exactly 4 further
ticks it is cleared and the state is `IDLE`. The five ticks issue no buffer access and leave
the buffer as it was. -/
theorem C4_nack_truncation (slave : Nat → Int) (y : Sys)
    (hs : y.inst.state = State.RD_ACK) (hp : y.inst.phase = 3)
    (hbusy : y.inst.busy_flag ≠ 0) (hn : slave y.reads ≠ 0) :
    (ticks slave 1 y).inst.state = State.STOP ∧
    (∀ k, 1 ≤ k → k ≤ 4 →
      (ticks slave k y).inst.state = State.STOP ∧
      (ticks slave k y).inst.busy_flag = y.inst.busy_flag ∧
      (ticks slave k y).inst.busy_flag ≠ 0) ∧
    (ticks slave 5 y).inst.busy_flag = 0 ∧
    (ticks slave 5 y).inst.state = State.IDLE ∧
    (trace slave 5 y).map Obs.events =
      [[Event.sda_read, Event.scl_drive_low], [Event.sda_drive_low], [Event.scl_high_z],
       [Event.sda_high_z], []] ∧
    (ticks slave 5 y).inst.data = y.inst.data := by
  have h1 := rd_ack_nack_tick slave y hs hp hn
  have t1 : ticks slave 1 y = (tick slave y).1 := rfl
  have hst : (ticks slave 1 y).inst.state = State.STOP := by rw [t1, h1]
  have hph : (ticks slave 1 y).inst.phase = 0 := by rw [t1, h1]
  have hbf : (ticks slave 1 y).inst.busy_flag = y.inst.busy_flag := by rw [t1, h1]
  have hdt : (ticks slave 1 y).inst.data = y.inst.data := by rw [t1, h1]
  obtain ⟨s1, s2⟩ := stop_block slave (ticks slave 1 y) hst hph
  have e5 : ticks slave 5 y = ticks slave 4 (ticks slave 1 y) := ticks_add slave 1 4 y
  have tr5 : trace slave 5 y = trace slave 1 y ++ trace slave 4 (ticks slave 1 y) :=
    trace_add slave 1 4 y
  have tr1 : trace slave 1 y = [observe slave y] := rfl
  refine ⟨hst, ?_, ?_, ?_, ?_, ?_⟩
  · intro k hk1 hk4
    obtain ⟨j, rfl⟩ : ∃ j, k = 1 + j := ⟨k - 1, by omega⟩
    have hm := observe_mem_trace slave 4 j (by omega) (ticks slave 1 y)
    rw [s2] at hm
    obtain ⟨m1, m2⟩ := cycleObs_mem hm
    rw [ticks_add]
    have m1' : (ticks slave j (ticks slave 1 y)).inst.state = State.STOP := m1
    have m2' : (ticks slave j (ticks slave 1 y)).inst.busy_flag =
        (ticks slave 1 y).inst.busy_flag := m2
    refine ⟨m1', m2'.trans hbf, ?_⟩
    rw [m2', hbf]; exact hbusy
  · rw [e5, s1]
  · rw [e5, s1]
  · rw [tr5, tr1, s2]
    simp [observe, h1, cycleObs]
  · rw [e5, s1]; exact hdt

/-- C4, witness: a channel in `RD_ACK` at phase 3 with bytes still to write, NACKed. -/
theorem C4_nack_truncation_witness :
    (ticks (fun _ => 1) 5
      ⟨⟨0, 0, 0, 0, 0, 0xA0, fun _ => 0, 3, 0, 0, 1, State.RD_ACK, 3, 0, 1, 0⟩,
        true, true, 0⟩).inst.state = State.IDLE :=
  (C4_nack_truncation (fun _ => 1)
    ⟨⟨0, 0, 0, 0, 0, 0xA0, fun _ => 0, 3, 0, 0, 1, State.RD_ACK, 3, 0, 1, 0⟩, true, true, 0⟩
    rfl rfl (by decide) (by decide)).2.2.2.1

theorem enter_stop (slave : Nat → Int) (y : Sys)
    (hfrom : y.inst.state = State.RD_ACK ∨ y.inst.state = State.WR_NACK)
    (hto : (tick slave y).1.inst.state = State.STOP) :
    y.inst.phase = 3 ∧ (tick slave y).1.inst.phase = 0 ∧ (tick slave y).1.scl = false ∧
    (tick slave y).2.getLast? = some Event.scl_drive_low := by
  obtain ⟨⟨c1, c2, c3, c4, c5, a, d, wl, rl, sf, bf, st, ph, cb, bc, bitc⟩, sda, scl, r⟩ := y
  simp only at hfrom
  by_cases h3 : ph = 3
  · subst h3
    rcases hfrom with h | h <;> subst h
    · by_cases hn : slave r = 0 <;> by_cases hw : bc < wl <;> by_cases hr : bc < rl <;>
        simp [tick, bb_i2c_master_edge_processor, edge_switch, phase_increment, drive, hn, hw,
          hr] at hto ⊢
    · simp [tick, bb_i2c_master_edge_processor, edge_switch, phase_increment, drive]
  · exfalso
    by_cases h0 : ph = 0 <;> by_cases h1 : ph = 1 <;> by_cases h2 : ph = 2 <;>
      rcases hfrom with h | h <;> subst h <;>
      simp [tick, bb_i2c_master_edge_processor, edge_switch, phase_increment, drive, h0, h1, h2,
        h3] at hto

/-- C10. Whenever a tick takes the channel from `RD_ACK` or `WR_NACK` to `STOP`, that tick is
a phase-3 tick whose last line operation is `scl_drive_low`, so `STOP` is entered at phase 0
with SCL driven low. The four `STOP` ticks then issue exactly `sda_drive_low` (phase 0, SCL
still low), `scl_high_z` (phase 1), `sda_high_z` (phase 2, SCL released) and nothing at
phase 3; after them both lines are released and the state is `IDLE`. -/
theorem C10_stop_condition (slave : Nat → Int) (y : Sys)
    (hfrom : y.inst.state = State.RD_ACK ∨ y.inst.state = State.WR_NACK)
    (hto : (tick slave y).1.inst.state = State.STOP) :
    y.inst.phase = 3 ∧
    (tick slave y).2.getLast? = some Event.scl_drive_low ∧
    (tick slave y).1.scl = false ∧
    (tick slave y).1.inst.phase = 0 ∧
    (trace slave 4 (tick slave y).1).map (fun o => (o.state, o.phase, o.events)) =
      [(State.STOP, 0, [Event.sda_drive_low]), (State.STOP, 1, [Event.scl_high_z]),
       (State.STOP, 2, [Event.sda_high_z]), (State.STOP, 3, [])] ∧
    ((ticks slave 1 (tick slave y).1).sda = false ∧
      (ticks slave 1 (tick slave y).1).scl = false) ∧
    ((ticks slave 2 (tick slave y).1).sda = false ∧
      (ticks slave 2 (tick slave y).1).scl = true) ∧
    ((ticks slave 3 (tick slave y).1).sda = true ∧
      (ticks slave 3 (tick slave y).1).scl = true) ∧
    ((ticks slave 4 (tick slave y).1).sda = true ∧
      (ticks slave 4 (tick slave y).1).scl = true ∧
      (ticks slave 4 (tick slave y).1).inst.state = State.IDLE) := by
  obtain ⟨h3, hph, hscl, hlast⟩ := enter_stop slave y hfrom hto
  obtain ⟨s1, s2⟩ := stop_block slave (tick slave y).1 hto hph
  obtain ⟨p1, p2, p3⟩ := stop_steps slave (tick slave y).1 hto hph
  refine ⟨h3, hlast, hscl, hph, ?_, ⟨?_, ?_⟩, ⟨?_, ?_⟩, ⟨?_, ?_⟩, ⟨?_, ?_, ?_⟩⟩
  · rw [s2]; simp [cycleObs]
  · rw [p1]
  · rw [p1]; exact hscl
  · rw [p2]
  · rw [p2]
  · rw [p3]
  · rw [p3]
  · rw [s1]
  · rw [s1]
  · rw [s1]

/-- C10, witness: the last tick of `WR_NACK`. -/
theorem C10_stop_condition_witness :
    (ticks (fun _ => 0) 4 (tick (fun _ => 0)
      ⟨⟨0, 0, 0, 0, 0, 0xA1, fun _ => 0, 0, 1, 0, 1, State.WR_NACK, 3, 0x12, 1, 0⟩,
        true, true, 9⟩).1).inst.state = State.IDLE :=
  (C10_stop_condition (fun _ => 0)
    ⟨⟨0, 0, 0, 0, 0, 0xA1, fun _ => 0, 0, 1, 0, 1, State.WR_NACK, 3, 0x12, 1, 0⟩, true, true, 9⟩
    (Or.inr rfl)
    (by simp [tick, bb_i2c_master_edge_processor, edge_switch, phase_increment,
      drive])).2.2.2.2.2.2.2.2.2.2

/-! ## Invariant of the reachable channels -/

theorem inv_init (y : Sys) (c1 c2 c3 c4 c5 : callback_t) : Inv (initSys y c1 c2 c3 c4 c5) := by
  obtain ⟨⟨k1, k2, k3, k4, k5, a, d, wl, rl, sf, bf, st, ph, cb, bc, bitc⟩, sda, scl, r⟩ := y
  simp [Inv, initSys, bb_i2c_master_init, drive]

theorem inv_tick_idle (slave : Nat → Int) (y : Sys) (hs : y.inst.state = State.IDLE)
    (h : Inv y) : Inv (tick slave y).1 := by
  obtain ⟨⟨k1, k2, k3, k4, k5, a, d, wl, rl, sf, bf, st, ph, cb, bc, bitc⟩, sda, scl, r⟩ := y
  simp only at hs
  subst hs
  simp only [Inv] at h
  obtain ⟨i1, i2, i3, i4⟩ := h
  by_cases hf : sf = 0
  · simp_all [Inv, tick, bb_i2c_master_edge_processor, edge_switch, phase_increment, drive]
  · simp_all [Inv, tick, bb_i2c_master_edge_processor, edge_switch, phase_increment, drive]

theorem inv_tick_stop (slave : Nat → Int) (y : Sys) (hs : y.inst.state = State.STOP)
    (h : Inv y) : Inv (tick slave y).1 := by
  obtain ⟨⟨k1, k2, k3, k4, k5, a, d, wl, rl, sf, bf, st, ph, cb, bc, bitc⟩, sda, scl, r⟩ := y
  simp only at hs
  subst hs
  simp only [Inv] at h
  obtain ⟨i1, i2, i3, i4⟩ := h
  simp only [forall_const] at i4
  rcases i4 with p | p | ⟨p, q⟩ | ⟨p, q1, q2⟩ <;> subst p <;>
    simp_all [Inv, tick, bb_i2c_master_edge_processor, edge_switch, phase_increment, drive]

theorem inv_tick_start (slave : Nat → Int) (y : Sys) (hs : y.inst.state = State.START)
    (h : Inv y) : Inv (tick slave y).1 := by
  obtain ⟨⟨k1, k2, k3, k4, k5, a, d, wl, rl, sf, bf, st, ph, cb, bc, bitc⟩, sda, scl, r⟩ := y
  simp only at hs
  subst hs
  simp only [Inv] at h
  obtain ⟨i1, i2, i3, i4⟩ := h
  by_cases h0 : ph = 0
  · subst h0
    simp_all [Inv, tick, bb_i2c_master_edge_processor, edge_switch, phase_increment, drive]
  by_cases h1 : ph = 1
  · subst h1
    simp_all [Inv, tick, bb_i2c_master_edge_processor, edge_switch, phase_increment, drive]
  by_cases h2 : ph = 2
  · subst h2
    simp_all [Inv, tick, bb_i2c_master_edge_processor, edge_switch, phase_increment, drive]
  by_cases h3 : ph = 3
  · subst h3
    simp_all [Inv, tick, bb_i2c_master_edge_processor, edge_switch, phase_increment, drive]
  simp_all [Inv, tick, bb_i2c_master_edge_processor, edge_switch, phase_increment, drive]

theorem inv_tick_wr_word (slave : Nat → Int) (y : Sys) (hs : y.inst.state = State.WR_WORD)
    (h : Inv y) : Inv (tick slave y).1 := by
  obtain ⟨⟨k1, k2, k3, k4, k5, a, d, wl, rl, sf, bf, st, ph, cb, bc, bitc⟩, sda, scl, r⟩ := y
  simp only at hs
  subst hs
  simp only [Inv] at h
  obtain ⟨i1, i2, i3, i4⟩ := h
  by_cases h0 : ph = 0
  · subst h0
    by_cases hc : Int.land cb 128 = 0 <;>
      simp_all [Inv, tick, bb_i2c_master_edge_processor, edge_switch, phase_increment, drive]
  by_cases h1 : ph = 1
  · subst h1
    simp_all [Inv, tick, bb_i2c_master_edge_processor, edge_switch, phase_increment, drive]
  by_cases h2 : ph = 2
  · subst h2
    simp_all [Inv, tick, bb_i2c_master_edge_processor, edge_switch, phase_increment, drive]
  by_cases h3 : ph = 3
  · subst h3
    by_cases hb : bitc = 0 <;>
      simp_all [Inv, tick, bb_i2c_master_edge_processor, edge_switch, phase_increment, drive]
  simp_all [Inv, tick, bb_i2c_master_edge_processor, edge_switch, phase_increment, drive]

theorem inv_tick_rd_ack (slave : Nat → Int) (y : Sys) (hs : y.inst.state = State.RD_ACK)
    (h : Inv y) : Inv (tick slave y).1 := by
  obtain ⟨⟨k1, k2, k3, k4, k5, a, d, wl, rl, sf, bf, st, ph, cb, bc, bitc⟩, sda, scl, r⟩ := y
  simp only at hs
  subst hs
  simp only [Inv] at h
  obtain ⟨i1, i2, i3, i4⟩ := h
  by_cases h0 : ph = 0
  · subst h0
    simp_all [Inv, tick, bb_i2c_master_edge_processor, edge_switch, phase_increment, drive]
  by_cases h1 : ph = 1
  · subst h1
    simp_all [Inv, tick, bb_i2c_master_edge_processor, edge_switch, phase_increment, drive]
  by_cases h2 : ph = 2
  · subst h2
    simp_all [Inv, tick, bb_i2c_master_edge_processor, edge_switch, phase_increment, drive]
  by_cases h3 : ph = 3
  · subst h3
    by_cases hn : slave r = 0 <;> by_cases hw : bc < wl <;> by_cases hr : bc < rl <;>
      simp [Inv, tick, bb_i2c_master_edge_processor, edge_switch, phase_increment, drive, hn, hw,
        hr] <;> simp_all
  simp_all [Inv, tick, bb_i2c_master_edge_processor, edge_switch, phase_increment, drive]

theorem inv_tick_rd_word (slave : Nat → Int) (y : Sys) (hs : y.inst.state = State.RD_WORD)
    (h : Inv y) : Inv (tick slave y).1 := by
  obtain ⟨⟨k1, k2, k3, k4, k5, a, d, wl, rl, sf, bf, st, ph, cb, bc, bitc⟩, sda, scl, r⟩ := y
  simp only at hs
  subst hs
  simp only [Inv] at h
  obtain ⟨i1, i2, i3, i4⟩ := h
  by_cases h0 : ph = 0
  · subst h0
    simp_all [Inv, tick, bb_i2c_master_edge_processor, edge_switch, phase_increment, drive]
  by_cases h1 : ph = 1
  · subst h1
    simp_all [Inv, tick, bb_i2c_master_edge_processor, edge_switch, phase_increment, drive]
  by_cases h2 : ph = 2
  · subst h2
    simp_all [Inv, tick, bb_i2c_master_edge_processor, edge_switch, phase_increment, drive]
  by_cases h3 : ph = 3
  · subst h3
    by_cases hb : wrapInt (bitc - 1) = 0 <;> by_cases hr : wrapInt (bc + 1) < rl <;>
      simp [Inv, tick, bb_i2c_master_edge_processor, edge_switch, phase_increment, drive, hb,
        hr] <;> simp_all
  simp_all [Inv, tick, bb_i2c_master_edge_processor, edge_switch, phase_increment, drive]

theorem inv_tick_wr_ack (slave : Nat → Int) (y : Sys) (hs : y.inst.state = State.WR_ACK)
    (h : Inv y) : Inv (tick slave y).1 := by
  obtain ⟨⟨k1, k2, k3, k4, k5, a, d, wl, rl, sf, bf, st, ph, cb, bc, bitc⟩, sda, scl, r⟩ := y
  simp only at hs
  subst hs
  simp only [Inv] at h
  obtain ⟨i1, i2, i3, i4⟩ := h
  by_cases h0 : ph = 0
  · subst h0
    simp_all [Inv, tick, bb_i2c_master_edge_processor, edge_switch, phase_increment, drive]
  by_cases h1 : ph = 1
  · subst h1
    simp_all [Inv, tick, bb_i2c_master_edge_processor, edge_switch, phase_increment, drive]
  by_cases h2 : ph = 2
  · subst h2
    simp_all [Inv, tick, bb_i2c_master_edge_processor, edge_switch, phase_increment, drive]
  by_cases h3 : ph = 3
  · subst h3
    simp_all [Inv, tick, bb_i2c_master_edge_processor, edge_switch, phase_increment, drive]
  simp_all [Inv, tick, bb_i2c_master_edge_processor, edge_switch, phase_increment, drive]

theorem inv_tick_wr_nack (slave : Nat → Int) (y : Sys) (hs : y.inst.state = State.WR_NACK)
    (h : Inv y) : Inv (tick slave y).1 := by
  obtain ⟨⟨k1, k2, k3, k4, k5, a, d, wl, rl, sf, bf, st, ph, cb, bc, bitc⟩, sda, scl, r⟩ := y
  simp only at hs
  subst hs
  simp only [Inv] at h
  obtain ⟨i1, i2, i3, i4⟩ := h
  by_cases h0 : ph = 0
  · subst h0
    simp_all [Inv, tick, bb_i2c_master_edge_processor, edge_switch, phase_increment, drive]
  by_cases h1 : ph = 1
  · subst h1
    simp_all [Inv, tick, bb_i2c_master_edge_processor, edge_switch, phase_increment, drive]
  by_cases h2 : ph = 2
  · subst h2
    simp_all [Inv, tick, bb_i2c_master_edge_processor, edge_switch, phase_increment, drive]
  by_cases h3 : ph = 3
  · subst h3
    simp_all [Inv, tick, bb_i2c_master_edge_processor, edge_switch, phase_increment, drive]
  simp_all [Inv, tick, bb_i2c_master_edge_processor, edge_switch, phase_increment, drive]

theorem inv_tick (slave : Nat → Int) (y : Sys) (h : Inv y) : Inv (tick slave y).1 := by
  cases hs : y.inst.state
  · exact inv_tick_idle slave y hs h
  · exact inv_tick_start slave y hs h
  · exact inv_tick_wr_word slave y hs h
  · exact inv_tick_rd_word slave y hs h
  · exact inv_tick_rd_ack slave y hs h
  · exact inv_tick_wr_ack slave y hs h
  · exact inv_tick_wr_nack slave y hs h
  · exact inv_tick_stop slave y hs h

theorem armWrite_facts (y : Sys) (addr : uint8_t) (data : Int → uint8_t) (len : Int)
    (mode : bb_i2c_master_mode) :
    (armWrite y addr data len mode).inst.state = y.inst.state ∧
    (armWrite y addr data len mode).inst.start_flag = 1 ∧
    (armWrite y addr data len mode).inst.busy_flag = 1 ∧
    (armWrite y addr data len mode).inst.phase = y.inst.phase ∧
    (armWrite y addr data len mode).sda = y.sda ∧
    (armWrite y addr data len mode).scl = y.scl := by
  obtain ⟨⟨k1, k2, k3, k4, k5, a, d, wl, rl, sf, bf, st, ph, cb, bc, bitc⟩, sda, scl, r⟩ := y
  exact ⟨(rfl : st = st), (rfl : (1 : Int) = 1), (rfl : (1 : Int) = 1), (rfl : ph = ph),
    (rfl : sda = sda), (rfl : scl = scl)⟩

theorem armRead_facts (y : Sys) (addr : uint8_t) (data : Int → uint8_t) (len : Int)
    (mode : bb_i2c_master_mode) :
    (armRead y addr data len mode).inst.state = y.inst.state ∧
    (armRead y addr data len mode).inst.start_flag = 1 ∧
    (armRead y addr data len mode).inst.busy_flag = 1 ∧
    (armRead y addr data len mode).inst.phase = y.inst.phase ∧
    (armRead y addr data len mode).sda = y.sda ∧
    (armRead y addr data len mode).scl = y.scl := by
  obtain ⟨⟨k1, k2, k3, k4, k5, a, d, wl, rl, sf, bf, st, ph, cb, bc, bitc⟩, sda, scl, r⟩ := y
  exact ⟨(rfl : st = st), (rfl : (1 : Int) = 1), (rfl : (1 : Int) = 1), (rfl : ph = ph),
    (rfl : sda = sda), (rfl : scl = scl)⟩

theorem inv_idle_of_not_busy (y : Sys) (h : Inv y) (hb : y.inst.busy_flag = 0) :
    y.inst.state = State.IDLE ∧ y.inst.start_flag = 0 ∧ y.sda = true ∧ y.scl = true := by
  obtain ⟨i1, i2, i3, _⟩ := h
  have hs : y.inst.state = State.IDLE := by
    by_contra hne
    exact (i2 hne).1 hb
  have hf : y.inst.start_flag = 0 := by
    by_contra hne
    exact i3 hne hb
  exact ⟨hs, hf, i1 hs⟩

theorem inv_armed (y y0 : Sys) (h : Inv y) (hb : y.inst.busy_flag = 0)
    (hst : y0.inst.state = y.inst.state) (hbf : y0.inst.busy_flag = 1)
    (hsda : y0.sda = y.sda) (hscl : y0.scl = y.scl) : Inv y0 := by
  obtain ⟨s, _, p1, p2⟩ := inv_idle_of_not_busy y h hb
  have hs0 : y0.inst.state = State.IDLE := hst.trans s
  refine ⟨fun _ => ⟨hsda.trans p1, hscl.trans p2⟩, fun hne => absurd hs0 hne, fun _ => ?_,
    fun hstop => ?_⟩
  · rw [hbf]; decide
  · rw [hs0] at hstop; cases hstop

theorem reachable_inv (y : Sys) (h : Reachable y) : Inv y := by
  induction h with
  | init y c1 c2 c3 c4 c5 => exact inv_init y c1 c2 c3 c4 c5
  | tick slave y _ ih => exact inv_tick slave y ih
  | write y addr data len mode _ hb ih =>
    obtain ⟨f1, _, f3, _, f5, f6⟩ := armWrite_facts y addr data len mode
    exact inv_armed y _ ih hb f1 f3 f5 f6
  | read y addr data len mode _ hb ih =>
    obtain ⟨f1, _, f3, _, f5, f6⟩ := armRead_facts y addr data len mode
    exact inv_armed y _ ih hb f1 f3 f5 f6

theorem start_steps (slave : Nat → Int) (y : Sys)
    (hs : y.inst.state = State.START) (hp : y.inst.phase = 0) :
    ticks slave 1 y = { y with inst := { y.inst with phase := 1 } } ∧
    ticks slave 2 y = { y with inst := { y.inst with phase := 2 } } ∧
    ticks slave 3 y = { y with inst := { y.inst with phase := 3 }, sda := false } := by
  obtain ⟨⟨c1, c2, c3, c4, c5, a, d, wl, rl, sf, bf, st, ph, cb, bc, bitc⟩, sda, scl, r⟩ := y
  simp only at hs hp
  subst hs hp
  simp [ticks, tick, bb_i2c_master_edge_processor, edge_switch, phase_increment, drive]

/-! ## START condition -/

/-- C9. When a transaction is armed by `bb_i2c_master_write` or `bb_i2c_master_read` on a
reachable channel that is not busy, the channel is in `IDLE` with SDA and SCL released; the
next tick consumes the request without any line operation and enters `START`. Of the four
`START` ticks the first two issue nothing, the third issues `sda_drive_low` while SCL is
still released, and the fourth, one tick later, issues `scl_drive_low`. -/
theorem C9_start_condition (slave : Nat → Int) (y y0 : Sys) (hr : Reachable y)
    (hbusy : y.inst.busy_flag = 0)
    (harm : (∃ addr data len mode, y0 = armWrite y addr data len mode) ∨
      (∃ addr data len mode, y0 = armRead y addr data len mode)) :
    (y0.inst.state = State.IDLE ∧ y0.inst.start_flag ≠ 0 ∧ y0.sda = true ∧ y0.scl = true) ∧
    ((tick slave y0).2 = [] ∧ (tick slave y0).1.inst.state = State.START ∧
      (tick slave y0).1.inst.start_flag = 0 ∧
      (tick slave y0).1.sda = true ∧ (tick slave y0).1.scl = true) ∧
    (trace slave 4 (tick slave y0).1).map (fun o => (o.state, o.phase, o.events)) =
      [(State.START, 0, []), (State.START, 1, []), (State.START, 2, [Event.sda_drive_low]),
       (State.START, 3, [Event.scl_drive_low])] ∧
    ((ticks slave 2 (tick slave y0).1).sda = true ∧
      (ticks slave 2 (tick slave y0).1).scl = true) ∧
    ((ticks slave 3 (tick slave y0).1).sda = false ∧
      (ticks slave 3 (tick slave y0).1).scl = true) ∧
    ((ticks slave 4 (tick slave y0).1).sda = false ∧
      (ticks slave 4 (tick slave y0).1).scl = false) := by
  obtain ⟨s, _, p1, p2⟩ := inv_idle_of_not_busy y (reachable_inv y hr) hbusy
  have hy0 : y0.inst.state = State.IDLE ∧ y0.inst.start_flag = 1 ∧ y0.sda = true ∧
      y0.scl = true := by
    rcases harm with ⟨addr, data, len, mode, rfl⟩ | ⟨addr, data, len, mode, rfl⟩
    · obtain ⟨f1, f2, _, _, f5, f6⟩ := armWrite_facts y addr data len mode
      exact ⟨f1.trans s, f2, f5.trans p1, f6.trans p2⟩
    · obtain ⟨f1, f2, _, _, f5, f6⟩ := armRead_facts y addr data len mode
      exact ⟨f1.trans s, f2, f5.trans p1, f6.trans p2⟩
  obtain ⟨a1, a2, a3, a4⟩ := hy0
  have hne : y0.inst.start_flag ≠ 0 := by rw [a2]; decide
  have ht := idle_start_tick slave y0 a1 hne
  have hst : (tick slave y0).1.inst.state = State.START := by rw [ht]
  have hph : (tick slave y0).1.inst.phase = 0 := by rw [ht]
  have hsda : (tick slave y0).1.sda = true := by rw [ht]; exact a3
  have hscl : (tick slave y0).1.scl = true := by rw [ht]; exact a4
  obtain ⟨b1, b2⟩ := start_block slave (tick slave y0).1 hst hph
  obtain ⟨_, q2, q3⟩ := start_steps slave (tick slave y0).1 hst hph
  refine ⟨⟨a1, hne, a3, a4⟩, ⟨?_, hst, ?_, hsda, hscl⟩, ?_, ⟨?_, ?_⟩, ⟨?_, ?_⟩, ⟨?_, ?_⟩⟩
  · rw [ht]
  · rw [ht]
  · rw [b2]; simp [cycleObs]
  · rw [q2]; exact hsda
  · rw [q2]; exact hscl
  · rw [q3]
  · rw [q3]; exact hscl
  · rw [b1]
  · rw [b1]

/-- C9, witness: a write armed right after initialisation. -/
theorem C9_start_condition_witness :
    (ticks (fun _ => 0) 4 (tick (fun _ => 0)
      (armWrite (initSys
        ⟨⟨0, 0, 0, 0, 0, 0, fun _ => 0, 0, 0, 0, 0, State.STOP, 7, 0, 0, 0⟩, false, false, 0⟩
        1 2 3 4 5) 0x50 (fun _ => 0xAA) 1 0)).1).scl = false :=
  (C9_start_condition (fun _ => 0)
    (initSys ⟨⟨0, 0, 0, 0, 0, 0, fun _ => 0, 0, 0, 0, 0, State.STOP, 7, 0, 0, 0⟩, false, false, 0⟩
      1 2 3 4 5)
    (armWrite (initSys
        ⟨⟨0, 0, 0, 0, 0, 0, fun _ => 0, 0, 0, 0, 0, State.STOP, 7, 0, 0, 0⟩, false, false, 0⟩
        1 2 3 4 5) 0x50 (fun _ => 0xAA) 1 0)
    (Reachable.init _ 1 2 3 4 5) rfl
    (Or.inl ⟨0x50, fun _ => 0xAA, 1, 0, rfl⟩)).2.2.2.2.2.2

/-! ## Whole transactions -/

theorem ticks_one (slave : Nat → Int) (y : Sys) : ticks slave 1 y = (tick slave y).1 := rfl

theorem trace_one (slave : Nat → Int) (y : Sys) : trace slave 1 y = [observe slave y] := rfl

attribute [irreducible] ticks trace

theorem wr_loop (slave : Nat → Int) (hack : ∀ k, slave k = 0) (m : Nat) :
    ∀ (y : Sys) (j : Int), y.inst.state = State.WR_WORD → y.inst.phase = 0 →
      y.inst.bit_cntr = 8 → y.inst.byte_cntr = j → y.inst.write_len = j + (m : Int) →
      y.inst.read_len ≤ j → 0 ≤ j → j + (m : Int) < 2147483648 →
      (ticks slave (36 * (m + 1)) y).inst.state = State.STOP ∧
      (ticks slave (36 * (m + 1)) y).inst.phase = 0 ∧
      (ticks slave (36 * (m + 1)) y).inst.busy_flag = y.inst.busy_flag ∧
      (ticks slave (36 * (m + 1)) y).inst.data = y.inst.data ∧
      trace slave (36 * (m + 1)) y =
        wrBytesObs y.inst.busy_flag y.inst.data m j y.inst.current_byte := by
  induction m with
  | zero =>
    intro y j hs hp hb hj hw hr h0 hlt
    obtain ⟨h1, h2⟩ := wr_word_byte slave 7 (by norm_num) y hs hp (by rw [hb]; norm_num)
    have e32 : 4 * (7 + 1) = 32 := rfl
    rw [e32] at h1 h2
    have hw' : ¬ (ticks slave 32 y).inst.byte_cntr < (ticks slave 32 y).inst.write_len := by
      rw [h1]; show ¬ y.inst.byte_cntr < y.inst.write_len
      rw [hj, hw]; simp
    have hr' : ¬ (ticks slave 32 y).inst.byte_cntr < (ticks slave 32 y).inst.read_len := by
      rw [h1]; show ¬ y.inst.byte_cntr < y.inst.read_len
      rw [hj]; omega
    obtain ⟨k1, k2⟩ := rd_ack_done slave (ticks slave 32 y) (by rw [h1]) (by rw [h1]; exact hp)
      (hack _) hw' hr'
    have e36 : 36 * (0 + 1) = 32 + 4 := rfl
    rw [e36, ticks_add, trace_add, k1, k2, h2]
    refine ⟨rfl, ?_, ?_, ?_, ?_⟩
    · rw [h1]; exact hp
    · rw [h1]
    · rw [h1]
    · rw [h1]; rfl
  | succ m ih =>
    intro y j hs hp hb hj hw hr h0 hlt
    obtain ⟨h1, h2⟩ := wr_word_byte slave 7 (by norm_num) y hs hp (by rw [hb]; norm_num)
    have e32 : 4 * (7 + 1) = 32 := rfl
    rw [e32] at h1 h2
    have hw' : (ticks slave 32 y).inst.byte_cntr < (ticks slave 32 y).inst.write_len := by
      rw [h1]; show y.inst.byte_cntr < y.inst.write_len
      rw [hj, hw]; push_cast; omega
    obtain ⟨k1, k2⟩ := rd_ack_load slave (ticks slave 32 y) (by rw [h1]) (by rw [h1]; exact hp)
      (hack _) hw'
    have hbc : (ticks slave 32 y).inst.byte_cntr = j := by rw [h1]; exact hj
    have hwrap : wrapInt (j + 1) = j + 1 :=
      wrapInt_of_range (by omega) (by push_cast at hlt; omega)
    have hdata : (ticks slave 32 y).inst.data = y.inst.data := by rw [h1]
    have hbusy : (ticks slave 32 y).inst.busy_flag = y.inst.busy_flag := by rw [h1]
    have hwl : (ticks slave 32 y).inst.write_len = y.inst.write_len := by rw [h1]
    have hrl : (ticks slave 32 y).inst.read_len = y.inst.read_len := by rw [h1]
    have hph : (ticks slave 32 y).inst.phase = 0 := by rw [h1]; exact hp
    rw [hbc, hwrap, hdata] at k1
    rw [hbc, hbusy] at k2
    obtain ⟨r1, r2, r3, r4, r5⟩ := ih (ticks slave 4 (ticks slave 32 y)) (j + 1)
      (by rw [k1]) (by rw [k1]; exact hph) (by rw [k1]) (by rw [k1])
      (by rw [k1]; show (ticks slave 32 y).inst.write_len = _
          rw [hwl, hw]; push_cast; ring)
      (by rw [k1]; show (ticks slave 32 y).inst.read_len ≤ _
          rw [hrl]; omega)
      (by omega) (by push_cast at hlt; omega)
    have e36 : 36 * (m + 1 + 1) = 32 + (4 + 36 * (m + 1)) := by ring
    have q3 : (ticks slave 4 (ticks slave 32 y)).inst.busy_flag = y.inst.busy_flag := by
      rw [k1]; exact hbusy
    have q4 : (ticks slave 4 (ticks slave 32 y)).inst.data = y.inst.data := by
      rw [k1]; exact hdata
    have q5 : (ticks slave 4 (ticks slave 32 y)).inst.current_byte =
        ((y.inst.data j).val : Int) := by rw [k1]
    rw [e36, ticks_add, ticks_add, trace_add, trace_add]
    refine ⟨r1, r2, r3.trans q3, r4.trans q4, ?_⟩
    rw [r5, q3, q4, q5, h2, k2]
    simp [wrBytesObs, rdAckObs]

theorem write_transaction (slave : Nat → Int) (hack : ∀ k, slave k = 0) (n : Nat)
    (hn : (n : Int) < 2147483648) (y : Sys)
    (hs : y.inst.state = State.IDLE) (hf : y.inst.start_flag ≠ 0)
    (hw : y.inst.write_len = (n : Int)) (hr : y.inst.read_len ≤ 0) :
    (ticks slave (45 + 36 * n) y).inst.state = State.IDLE ∧
    (ticks slave (45 + 36 * n) y).inst.busy_flag = 0 ∧
    (ticks slave (45 + 36 * n) y).inst.data = y.inst.data ∧
    (ticks slave (45 + 36 * n) y).sda = true ∧
    (ticks slave (45 + 36 * n) y).scl = true ∧
    trace slave (45 + 36 * n) y =
      startObs y.inst.phase y.inst.busy_flag ++
        (wrBytesObs y.inst.busy_flag y.inst.data n 0 y.inst.addr_rw ++
          stopObs y.inst.busy_flag) := by
  have ht := idle_start_tick slave y hs hf
  have o1 : observe slave y = ⟨State.IDLE, y.inst.phase, y.inst.busy_flag, []⟩ := by
    simp [observe, hs, ht]
  have a1 : (ticks slave 1 y).inst.state = State.START := by rw [ticks_one, ht]
  have a2 : (ticks slave 1 y).inst.phase = 0 := by rw [ticks_one, ht]
  have a3 : (ticks slave 1 y).inst.busy_flag = y.inst.busy_flag := by rw [ticks_one, ht]
  have a4 : (ticks slave 1 y).inst.data = y.inst.data := by rw [ticks_one, ht]
  have a5 : (ticks slave 1 y).inst.write_len = y.inst.write_len := by rw [ticks_one, ht]
  have a6 : (ticks slave 1 y).inst.read_len = y.inst.read_len := by rw [ticks_one, ht]
  have a7 : (ticks slave 1 y).inst.addr_rw = y.inst.addr_rw := by rw [ticks_one, ht]
  have a8 : (ticks slave 1 y).inst.byte_cntr = 0 := by rw [ticks_one, ht]
  obtain ⟨b1, b2⟩ := start_block slave (ticks slave 1 y) a1 a2
  have c1 : (ticks slave 4 (ticks slave 1 y)).inst.state = State.WR_WORD := by rw [b1]
  have c2 : (ticks slave 4 (ticks slave 1 y)).inst.phase = 0 := by rw [b1]; exact a2
  have c3 : (ticks slave 4 (ticks slave 1 y)).inst.busy_flag = y.inst.busy_flag := by
    rw [b1]; exact a3
  have c4 : (ticks slave 4 (ticks slave 1 y)).inst.data = y.inst.data := by rw [b1]; exact a4
  have c5 : (ticks slave 4 (ticks slave 1 y)).inst.write_len = (0 : Int) + (n : Int) := by
    rw [b1]; show (ticks slave 1 y).inst.write_len = _
    rw [a5, hw]; ring
  have c6 : (ticks slave 4 (ticks slave 1 y)).inst.read_len ≤ 0 := by
    rw [b1]; show (ticks slave 1 y).inst.read_len ≤ 0
    rw [a6]; exact hr
  have c7 : (ticks slave 4 (ticks slave 1 y)).inst.current_byte = y.inst.addr_rw := by
    rw [b1]; exact a7
  have c8 : (ticks slave 4 (ticks slave 1 y)).inst.byte_cntr = 0 := by rw [b1]; exact a8
  have c9 : (ticks slave 4 (ticks slave 1 y)).inst.bit_cntr = 8 := by rw [b1]
  obtain ⟨d1, d2, d3, d4, d5⟩ := wr_loop slave hack n (ticks slave 4 (ticks slave 1 y)) 0
    c1 c2 c9 c8 c5 c6 (le_refl 0) (by omega)
  rw [c3, c4, c7] at d5
  obtain ⟨s1, s2⟩ := stop_block slave _ d1 d2
  have e : 45 + 36 * n = 1 + (4 + (36 * (n + 1) + 4)) := by ring
  rw [e, ticks_add, ticks_add, ticks_add, trace_add, trace_add, trace_add, s1, s2, d5, b2,
    trace_one, o1, d3, c3, a3]
  refine ⟨rfl, rfl, ?_, rfl, rfl, ?_⟩
  · exact d4.trans c4
  · simp [startObs, stopObs]

/-! ## Projections of the expected observations -/

theorem cycleObs_states (st : State) (busy : Int) (e0 e1 e2 e3 : List Event) :
    (cycleObs st busy e0 e1 e2 e3).map Obs.state = List.replicate 4 st := rfl

theorem wrWordObs_states (busy : Int) (k : Nat) (c : Int) :
    (wrWordObs busy k c).map Obs.state = List.replicate (4 * k) State.WR_WORD := by
  induction k generalizing c with
  | zero => rfl
  | succ k ih =>
    have e : 4 * (k + 1) = 4 + 4 * k := by ring
    rw [wrWordObs, List.map_append, ih, cycleObs_states, e, List.replicate_add]

theorem wrWordObs_busy (busy : Int) (k : Nat) (c : Int) :
    ∀ o ∈ wrWordObs busy k c, o.busy = busy := by
  induction k generalizing c with
  | zero => intro o ho; simp [wrWordObs] at ho
  | succ k ih =>
    intro o ho
    rw [wrWordObs, List.mem_append] at ho
    rcases ho with h | h
    · exact (cycleObs_mem h).2
    · exact ih _ o h

theorem flatten_replicate_succ {α : Type} (m : Nat) (l : List α) :
    (List.replicate (m + 1) l).flatten = l ++ (List.replicate m l).flatten := by
  rw [List.replicate_succ, List.flatten_cons]

theorem wrBytesObs_states (busy : Int) (data : Int → uint8_t) (m : Nat) (j c : Int) :
    (wrBytesObs busy data m j c).map Obs.state =
      (List.replicate (m + 1)
        (List.replicate 32 State.WR_WORD ++ List.replicate 4 State.RD_ACK)).flatten := by
  induction m generalizing j c with
  | zero =>
    rw [wrBytesObs, List.map_append, wrWordObs_states, rdAckObs, cycleObs_states]
    simp
  | succ m ih =>
    rw [wrBytesObs, List.map_append, List.map_append, wrWordObs_states, rdAckObs,
      cycleObs_states, ih, flatten_replicate_succ (m + 1) _]

theorem wrBytesObs_busy (busy : Int) (data : Int → uint8_t) (m : Nat) (j c : Int) :
    ∀ o ∈ wrBytesObs busy data m j c, o.busy = busy := by
  induction m generalizing j c with
  | zero =>
    intro o ho
    rw [wrBytesObs, List.mem_append] at ho
    rcases ho with h | h
    · exact wrWordObs_busy _ _ _ o h
    · exact (cycleObs_mem h).2
  | succ m ih =>
    intro o ho
    rw [wrBytesObs, List.mem_append, List.mem_append] at ho
    rcases ho with (h | h) | h
    · exact wrWordObs_busy _ _ _ o h
    · exact (cycleObs_mem h).2
    · exact ih _ _ o h

theorem startObs_busy (phase busy : Int) : ∀ o ∈ startObs phase busy, o.busy = busy := by
  intro o ho
  rw [startObs, List.mem_cons] at ho
  rcases ho with h | h
  · rw [h]
  · exact (cycleObs_mem h).2

theorem armWrite_params (y : Sys) (addr : uint8_t) (data : Int → uint8_t) (len : Int)
    (mode : bb_i2c_master_mode) :
    (armWrite y addr data len mode).inst.write_len = len ∧
    (armWrite y addr data len mode).inst.read_len = 0 ∧
    (armWrite y addr data len mode).inst.data = data ∧
    (armWrite y addr data len mode).inst.addr_rw = ((2 * (addr.val % 128) : Nat) : Int) := by
  have ha := addr.isLt
  have s1 : shl1 (addr.val : Int) = ((2 * addr.val : Nat) : Int) :=
    shl1_ofNat addr.val (by omega)
  have b1 := (addr_bits addr).1
  have e : (armWrite y addr data len mode).inst.addr_rw =
      Int.land (shl1 (addr.val : Int)) 0xFE := by
    simp only [armWrite, write_stores]
  refine ⟨?_, ?_, ?_, ?_⟩
  · simp only [armWrite, write_stores]
  · simp only [armWrite, write_stores]
  · simp only [armWrite, write_stores]
  · rw [e, s1, b1]; push_cast; rfl

/-! ## Write transactions -/

/-- C3. A write of `n` bytes armed on an idle channel, against a slave that always
acknowledges, runs through the `IDLE` tick that consumes the request, 4 ticks of `START`,
`n + 1` times 32 ticks of `WR_WORD` followed by 4 ticks of `RD_ACK`, and 4 ticks of `STOP`;
the last of these `45 + 36 n` ticks is the `STOP` tick of phase 3. The busy flag is set
before each of them, hence after each of the first `44 + 36 n` ticks, and it is clear, with
the state `IDLE`, after tick `45 + 36 n`. -/
theorem C3_write_state_sequence (slave : Nat → Int) (hack : ∀ k, slave k = 0) (n : Nat)
    (hn : (n : Int) < 2147483648) (y : Sys) (hs : y.inst.state = State.IDLE)
    (addr : uint8_t) (data : Int → uint8_t) (mode : bb_i2c_master_mode) :
    (trace slave (45 + 36 * n) (armWrite y addr data (n : Int) mode)).map Obs.state =
      State.IDLE :: List.replicate 4 State.START ++
        (List.replicate (n + 1)
          (List.replicate 32 State.WR_WORD ++ List.replicate 4 State.RD_ACK)).flatten ++
        List.replicate 4 State.STOP ∧
    (trace slave (45 + 36 * n) (armWrite y addr data (n : Int) mode)).getLast? =
      some ⟨State.STOP, 3, 1, []⟩ ∧
    (∀ k, k < 45 + 36 * n →
      (ticks slave k (armWrite y addr data (n : Int) mode)).inst.busy_flag ≠ 0) ∧
    (ticks slave (45 + 36 * n) (armWrite y addr data (n : Int) mode)).inst.busy_flag = 0 ∧
    (ticks slave (45 + 36 * n) (armWrite y addr data (n : Int) mode)).inst.state =
      State.IDLE := by
  obtain ⟨f1, f2, f3, _, _, _⟩ := armWrite_facts y addr data (n : Int) mode
  obtain ⟨g1, g2, _, _⟩ := armWrite_params y addr data (n : Int) mode
  obtain ⟨t1, t2, _, _, _, t6⟩ := write_transaction slave hack n hn
    (armWrite y addr data (n : Int) mode) (f1.trans hs) (by rw [f2]; decide) g1 (by rw [g2])
  rw [f3] at t6
  refine ⟨?_, ?_, ?_, t2, t1⟩
  · rw [t6, List.map_append, List.map_append, wrBytesObs_states]
    simp [startObs, stopObs, cycleObs]
  · rw [t6, ← List.append_assoc]
    simp [stopObs, cycleObs]
  · intro k hk
    have hm := observe_mem_trace slave (45 + 36 * n) k hk (armWrite y addr data (n : Int) mode)
    rw [t6, List.mem_append, List.mem_append] at hm
    have hb : (observe slave (ticks slave k (armWrite y addr data (n : Int) mode))).busy = 1 := by
      rcases hm with h | h | h
      · exact startObs_busy _ _ _ h
      · exact wrBytesObs_busy _ _ _ _ _ _ h
      · exact (cycleObs_mem h).2
    have hb' : (ticks slave k (armWrite y addr data (n : Int) mode)).inst.busy_flag = 1 := hb
    rw [hb']; decide

/-- C3, witness: `n = 1` gives 81 ticks. -/
theorem C3_write_state_sequence_witness :
    (ticks (fun _ => 0) 81
      (armWrite ⟨⟨0, 0, 0, 0, 0, 0, fun _ => 0, 0, 0, 0, 0, State.IDLE, 2, 0, 0, 0⟩,
        true, true, 0⟩ 0x50 (fun _ => 0xAA) 1 0)).inst.state = State.IDLE :=
  (C3_write_state_sequence (fun _ => 0) (fun _ => rfl) 1 (by decide)
    ⟨⟨0, 0, 0, 0, 0, 0, fun _ => 0, 0, 0, 0, 0, State.IDLE, 2, 0, 0, 0⟩, true, true, 0⟩ rfl
    0x50 (fun _ => 0xAA) 0).2.2.2.2

/-! ## Data bits on the wire -/

theorem wireBits_append (a b : List Obs) : wireBits (a ++ b) = wireBits a ++ wireBits b := by
  simp [wireBits, List.filterMap_append]

theorem wireBits_bit_cycle (busy : Int) (bit : Bool) :
    wireBits (cycleObs State.WR_WORD busy
      [if bit then Event.sda_high_z else Event.sda_drive_low]
      [Event.scl_high_z] [] [Event.scl_drive_low]) = [bit] := by
  cases bit <;> simp [wireBits, cycleObs, dataBit?]

theorem wireBits_other_cycle (st : State) (hst : st ≠ State.WR_WORD) (busy : Int)
    (e0 e1 e2 e3 : List Event) : wireBits (cycleObs st busy e0 e1 e2 e3) = [] := by
  simp [wireBits, cycleObs, dataBit?, hst]

theorem wireBits_flatMap_bits (busy : Int) (l : List Bool) :
    wireBits (l.flatMap (fun bit =>
      cycleObs State.WR_WORD busy [if bit then Event.sda_high_z else Event.sda_drive_low]
        [Event.scl_high_z] [] [Event.scl_drive_low])) = l := by
  induction l with
  | nil => rfl
  | cons b l ih => rw [List.flatMap_cons, wireBits_append, ih, wireBits_bit_cycle]; rfl

theorem wireBits_wrWordObs_byte (busy : Int) (b : uint8_t) :
    wireBits (wrWordObs busy 8 (b.val : Int)) = bitsMSB b.val := by
  rw [wrWordObs_byte, wireBits_flatMap_bits]

theorem wireBits_wrBytesObs (busy : Int) (data : Int → uint8_t) (m : Nat) (j : Int)
    (b : uint8_t) :
    wireBits (wrBytesObs busy data m j (b.val : Int)) =
      bitsMSB b.val ++ (List.range m).flatMap (fun i => bitsMSB (data (j + (i : Int))).val) := by
  induction m generalizing j b with
  | zero =>
    rw [wrBytesObs, wireBits_append, wireBits_wrWordObs_byte, rdAckObs,
      wireBits_other_cycle _ (by decide)]
    simp
  | succ m ih =>
    rw [wrBytesObs, wireBits_append, wireBits_append, wireBits_wrWordObs_byte, rdAckObs,
      wireBits_other_cycle _ (by decide), ih, List.range_succ_eq_map, List.flatMap_cons,
      List.flatMap_map]
    have e : ∀ i : Nat, j + 1 + (i : Int) = j + ((i + 1 : Nat) : Int) := by
      intro i; push_cast; ring
    simp [e]

theorem bitsMSB_length (b : Nat) : (bitsMSB b).length = 8 := by
  simp [bitsMSB]

theorem flatMap_bits_length (f : Nat → Nat) (m : Nat) :
    ((List.range m).flatMap (fun i => bitsMSB (f i))).length = 8 * m := by
  induction m with
  | zero => rfl
  | succ m ih =>
    rw [List.range_succ, List.flatMap_append, List.length_append, ih]
    simp [bitsMSB_length]
    ring

theorem countP_bit_cycle (busy : Int) (e0 e1 e2 e3 : List Event) :
    List.countP isBitSlot (cycleObs State.WR_WORD busy e0 e1 e2 e3) = 1 := by
  simp [cycleObs, isBitSlot, List.countP_cons]

theorem countP_other_cycle (st : State) (hst : st ≠ State.WR_WORD) (busy : Int)
    (e0 e1 e2 e3 : List Event) :
    List.countP isBitSlot (cycleObs st busy e0 e1 e2 e3) = 0 := by
  simp [cycleObs, isBitSlot, hst]

theorem countP_wrWordObs (busy : Int) (k : Nat) (c : Int) :
    List.countP isBitSlot (wrWordObs busy k c) = k := by
  induction k generalizing c with
  | zero => rfl
  | succ k ih => rw [wrWordObs, List.countP_append, ih, countP_bit_cycle]; omega

theorem countP_wrBytesObs (busy : Int) (data : Int → uint8_t) (m : Nat) (j c : Int) :
    List.countP isBitSlot (wrBytesObs busy data m j c) = 8 * (m + 1) := by
  induction m generalizing j c with
  | zero =>
    rw [wrBytesObs, List.countP_append, countP_wrWordObs, rdAckObs,
      countP_other_cycle _ (by decide)]
  | succ m ih =>
    rw [wrBytesObs, List.countP_append, List.countP_append, countP_wrWordObs, rdAckObs,
      countP_other_cycle _ (by decide), ih]
    omega

/-- C2. In a write of the `n` bytes `data 0`, ..., `data (n - 1)` to the 7-bit address
`addr`, armed on an idle channel against a slave that always acknowledges, the data bits
presented on SDA at phase 0 of the successive `WR_WORD` bit cycles, up to the return to
`IDLE` after `STOP`, are the 8 bits of `2 * addr` followed by the 8 bits of each data byte in
order, each byte most significant bit first: `8 (n + 1)` bits, one for each of the
`8 (n + 1)` bit slots of the transaction. -/
theorem C2_write_wire_content (slave : Nat → Int) (hack : ∀ k, slave k = 0) (n : Nat)
    (hn : (n : Int) < 2147483648) (y : Sys) (hs : y.inst.state = State.IDLE)
    (addr : uint8_t) (ha : addr.val < 128) (data : Int → uint8_t)
    (mode : bb_i2c_master_mode) :
    wireBits (trace slave (45 + 36 * n) (armWrite y addr data (n : Int) mode)) =
      bitsMSB (2 * addr.val) ++
        (List.range n).flatMap (fun i => bitsMSB (data (i : Int)).val) ∧
    (wireBits (trace slave (45 + 36 * n) (armWrite y addr data (n : Int) mode))).length =
      8 * (n + 1) ∧
    List.countP isBitSlot (trace slave (45 + 36 * n) (armWrite y addr data (n : Int) mode)) =
      8 * (n + 1) ∧
    (ticks slave (45 + 36 * n) (armWrite y addr data (n : Int) mode)).inst.state =
      State.IDLE := by
  obtain ⟨f1, f2, f3, _, _, _⟩ := armWrite_facts y addr data (n : Int) mode
  obtain ⟨g1, g2, g3, g4⟩ := armWrite_params y addr data (n : Int) mode
  obtain ⟨t1, _, _, _, _, t6⟩ := write_transaction slave hack n hn
    (armWrite y addr data (n : Int) mode) (f1.trans hs) (by rw [f2]; decide) g1 (by rw [g2])
  have hmod : addr.val % 128 = addr.val := Nat.mod_eq_of_lt ha
  rw [g3, g4, hmod] at t6
  have hb : 2 * addr.val < 256 := by omega
  have hcast : ((2 * addr.val : Nat) : Int) = (((⟨2 * addr.val, hb⟩ : uint8_t)).val : Int) := rfl
  have hbits : wireBits (trace slave (45 + 36 * n) (armWrite y addr data (n : Int) mode)) =
      bitsMSB (2 * addr.val) ++
        (List.range n).flatMap (fun i => bitsMSB (data (i : Int)).val) := by
    rw [t6, wireBits_append, wireBits_append, hcast, wireBits_wrBytesObs, startObs, stopObs,
      wireBits_other_cycle _ (by decide)]
    have e0 : wireBits (⟨State.IDLE, (armWrite y addr data (n : Int) mode).inst.phase,
        (armWrite y addr data (n : Int) mode).inst.busy_flag, []⟩ ::
        cycleObs State.START (armWrite y addr data (n : Int) mode).inst.busy_flag [] []
          [Event.sda_drive_low] [Event.scl_drive_low]) = [] := by
      simp [wireBits, cycleObs, dataBit?]
    rw [e0]
    simp
  refine ⟨hbits, ?_, ?_, t1⟩
  · rw [hbits, List.length_append, bitsMSB_length,
      flatMap_bits_length (fun i => (data (i : Int)).val) n]
    ring
  · rw [t6, List.countP_append, List.countP_append, countP_wrBytesObs, startObs, stopObs,
      countP_other_cycle _ (by decide), List.countP_cons, countP_other_cycle _ (by decide)]
    simp [isBitSlot]

/-- C2, witness: `write(0x50, [0xAA], 1)` puts `0xA0` then `0xAA` on the wire. -/
theorem C2_write_wire_content_witness :
    wireBits (trace (fun _ => 0) (45 + 36 * 1)
      (armWrite ⟨⟨0, 0, 0, 0, 0, 0, fun _ => 0, 0, 0, 0, 0, State.IDLE, 2, 0, 0, 0⟩,
        true, true, 0⟩ 0x50 (fun _ => 0xAA) ((1 : Nat) : Int) 0)) =
      [true, false, true, false, false, false, false, false,
       true, false, true, false, true, false, true, false] :=
  (C2_write_wire_content (fun _ => 0) (fun _ => rfl) 1 (by decide)
    ⟨⟨0, 0, 0, 0, 0, 0, fun _ => 0, 0, 0, 0, 0, State.IDLE, 2, 0, 0, 0⟩, true, true, 0⟩ rfl
    0x50 (by decide) (fun _ => 0xAA) 0).1.trans (by decide)

/-! ## Reception of one byte: arithmetic -/

theorem int_lor_zero (k : Int) : Int.lor k 0 = k := by
  cases k with
  | ofNat m =>
    show ((m ||| 0 : Nat) : Int) = (m : Int)
    rw [Nat.or_zero]
  | negSucc m =>
    show Int.negSucc (Nat.ldiff m 0) = Int.negSucc m
    have h : Nat.ldiff m 0 = m := by
      apply Nat.eq_of_testBit_eq
      intro i
      rw [Nat.testBit_ldiff]
      simp
    rw [h]

theorem int_lor_one_of_even (x : Int) (h : x % 2 = 0) : Int.lor x 1 = x + 1 := by
  have hx : x = Int.bit false (x / 2) := by rw [Int.bit_val]; simp; omega
  have h1 : (1 : Int) = Int.bit true 0 := by rw [Int.bit_val]; simp
  rw [hx, h1, Int.lor_bit, int_lor_zero, Int.bit_val, Int.bit_val, Int.bit_val]
  simp

theorem shl1_mod (c : Int) : shl1 c % 256 = (2 * c) % 256 ∧ shl1 c % 2 = 0 := by
  unfold shl1 wrapInt
  omega

theorem rxBit_mod (c s : Int) :
    rxBit c s % 256 = (2 * c + (if s ≠ 0 then 1 else 0)) % 256 := by
  obtain ⟨h1, h2⟩ := shl1_mod c
  unfold rxBit
  by_cases hs : s = 0
  · simp only [hs, ne_eq, not_true_eq_false, if_false]
    rw [h1]; simp
  · simp only [hs, ne_eq, not_false_eq_true, if_true]
    rw [int_lor_one_of_even _ h2]
    omega

theorem bitLevel_cases (b : Bool) :
    (0 ≤ bitLevel b ∧ bitLevel b ≤ 1) ∧
    (if bitLevel b ≠ 0 then (1 : Int) else 0) = bitLevel b := by
  cases b <;> simp [bitLevel]

set_option maxRecDepth 100000 in
theorem byte_of_bits : ∀ b : uint8_t,
    (b.val : Int) = 128 * bitLevel (b.val.testBit 7) + 64 * bitLevel (b.val.testBit 6) +
      32 * bitLevel (b.val.testBit 5) + 16 * bitLevel (b.val.testBit 4) +
      8 * bitLevel (b.val.testBit 3) + 4 * bitLevel (b.val.testBit 2) +
      2 * bitLevel (b.val.testBit 1) + bitLevel (b.val.testBit 0) := by
  decide

theorem horner_mod (c x1 x2 x3 x4 x5 x6 x7 x8 t0 t1 t2 t3 t4 t5 t6 t7 v : Int)
    (m1 : x1 % 256 = (2 * c + t0) % 256) (m2 : x2 % 256 = (2 * x1 + t1) % 256)
    (m3 : x3 % 256 = (2 * x2 + t2) % 256) (m4 : x4 % 256 = (2 * x3 + t3) % 256)
    (m5 : x5 % 256 = (2 * x4 + t4) % 256) (m6 : x6 % 256 = (2 * x5 + t5) % 256)
    (m7 : x7 % 256 = (2 * x6 + t6) % 256) (m8 : x8 % 256 = (2 * x7 + t7) % 256)
    (hv : v = 128 * t0 + 64 * t1 + 32 * t2 + 16 * t3 + 8 * t4 + 4 * t5 + 2 * t6 + t7)
    (h0 : 0 ≤ v) (h1 : v < 256) : x8 % 256 = v := by
  omega

theorem toU8_rxBits8 (slave : Nat → Int) (r : Nat) (c : Int) (b : uint8_t)
    (h : ∀ k, k < 8 → slave (r + k) = bitLevel (b.val.testBit (7 - k))) :
    toU8 (rxBits slave 8 r c) = b := by
  have h0 : slave r = bitLevel (b.val.testBit 7) := h 0 (by omega)
  have h1 : slave (r + 1) = bitLevel (b.val.testBit 6) := h 1 (by omega)
  have h2 : slave (r + 1 + 1) = bitLevel (b.val.testBit 5) := h 2 (by omega)
  have h3 : slave (r + 1 + 1 + 1) = bitLevel (b.val.testBit 4) := h 3 (by omega)
  have h4 : slave (r + 1 + 1 + 1 + 1) = bitLevel (b.val.testBit 3) := h 4 (by omega)
  have h5 : slave (r + 1 + 1 + 1 + 1 + 1) = bitLevel (b.val.testBit 2) := h 5 (by omega)
  have h6 : slave (r + 1 + 1 + 1 + 1 + 1 + 1) = bitLevel (b.val.testBit 1) := h 6 (by omega)
  have h7 : slave (r + 1 + 1 + 1 + 1 + 1 + 1 + 1) = bitLevel (b.val.testBit 0) :=
    h 7 (by omega)
  have hx : rxBits slave 8 r c % 256 = (b.val : Int) := by
    simp only [rxBits, h0, h1, h2, h3, h4, h5, h6, h7]
    have m1 := rxBit_mod c (bitLevel (b.val.testBit 7))
    generalize rxBit c (bitLevel (b.val.testBit 7)) = x1 at *
    have m2 := rxBit_mod x1 (bitLevel (b.val.testBit 6))
    generalize rxBit x1 (bitLevel (b.val.testBit 6)) = x2 at *
    have m3 := rxBit_mod x2 (bitLevel (b.val.testBit 5))
    generalize rxBit x2 (bitLevel (b.val.testBit 5)) = x3 at *
    have m4 := rxBit_mod x3 (bitLevel (b.val.testBit 4))
    generalize rxBit x3 (bitLevel (b.val.testBit 4)) = x4 at *
    have m5 := rxBit_mod x4 (bitLevel (b.val.testBit 3))
    generalize rxBit x4 (bitLevel (b.val.testBit 3)) = x5 at *
    have m6 := rxBit_mod x5 (bitLevel (b.val.testBit 2))
    generalize rxBit x5 (bitLevel (b.val.testBit 2)) = x6 at *
    have m7 := rxBit_mod x6 (bitLevel (b.val.testBit 1))
    generalize rxBit x6 (bitLevel (b.val.testBit 1)) = x7 at *
    have m8 := rxBit_mod x7 (bitLevel (b.val.testBit 0))
    generalize rxBit x7 (bitLevel (b.val.testBit 0)) = x8 at *
    rw [(bitLevel_cases _).2] at m1 m2 m3 m4 m5 m6 m7 m8
    have hb := b.isLt
    exact horner_mod c x1 x2 x3 x4 x5 x6 x7 x8 _ _ _ _ _ _ _ _ _ m1 m2 m3 m4 m5 m6 m7 m8
      (byte_of_bits b) (by omega) (by omega)
  apply Fin.ext
  show (rxBits slave 8 r c % 256).toNat = b.val
  rw [hx]
  simp

theorem rdData_below (slave : Nat → Int) (n : Nat) :
    ∀ (r : Nat) (j c : Int) (d : Int → uint8_t) (i : Int), i < j →
      rdData slave n r j c d i = d i := by
  induction n with
  | zero => intro r j c d i _; rfl
  | succ n ih =>
    intro r j c d i hi
    rw [rdData, ih _ _ _ _ i (by omega), Function.update_noteq (by omega)]

theorem rdData_spec (slave : Nat → Int) (n : Nat) :
    ∀ (r : Nat) (j c : Int) (d : Int → uint8_t) (b : Nat → uint8_t),
      (∀ i, i < n → ∀ k, k < 8 →
        slave (r + 8 * i + k) = bitLevel ((b i).val.testBit (7 - k))) →
      ∀ i, i < n → rdData slave n r j c d (j + (i : Int)) = b i := by
  induction n with
  | zero => intro r j c d b _ i hi; omega
  | succ n ih =>
    intro r j c d b h i hi
    rw [rdData]
    cases i with
    | zero =>
      rw [rdData_below _ _ _ _ _ _ _ (by simp), Nat.cast_zero, add_zero,
        Function.update_same]
      exact toU8_rxBits8 slave r c (b 0) (fun k hk => by simpa using h 0 (by omega) k hk)
    | succ i =>
      have e : j + ((i + 1 : Nat) : Int) = j + 1 + (i : Int) := by push_cast; ring
      rw [e]
      refine ih (r + 8) (j + 1) _ _ (fun i => b (i + 1)) (fun i' hi' k hk => ?_) i (by omega)
      have := h (i' + 1) (by omega) k hk
      have e2 : r + 8 + 8 * i' + k = r + 8 * (i' + 1) + k := by ring
      rw [e2]; exact this

/-! ## Read transactions -/

theorem rd_loop (slave : Nat → Int) (m : Nat) :
    ∀ (y : Sys) (j : Int), y.inst.state = State.RD_WORD → y.inst.phase = 0 →
      y.inst.bit_cntr = 8 → y.inst.byte_cntr = j → y.inst.read_len = j + (m : Int) + 1 →
      0 ≤ j → j + (m : Int) + 1 < 2147483648 →
      (ticks slave (36 * (m + 1)) y).inst.state = State.STOP ∧
      (ticks slave (36 * (m + 1)) y).inst.phase = 0 ∧
      (ticks slave (36 * (m + 1)) y).inst.busy_flag = y.inst.busy_flag ∧
      (ticks slave (36 * (m + 1)) y).inst.data =
        rdData slave (m + 1) y.reads j y.inst.current_byte y.inst.data ∧
      trace slave (36 * (m + 1)) y = rdBytesObs y.inst.busy_flag m j := by
  induction m with
  | zero =>
    intro y j hs hp hb hj hr h0 hlt
    obtain ⟨h1, h2⟩ := rd_word_byte slave 7 (by norm_num) y hs hp (by rw [hb]; norm_num)
    have e32 : 4 * (7 + 1) = 32 := rfl
    have e8 : 7 + 1 = 8 := rfl
    rw [e32] at h1 h2
    rw [e8] at h1
    have hwrap : wrapInt (j + 1) = j + 1 := wrapInt_of_range (by omega) (by omega)
    have hif : ¬ (j + 1 < y.inst.read_len) := by rw [hr]; simp
    rw [hj, hwrap, if_neg hif] at h1
    rw [hj] at h2
    obtain ⟨k1, k2⟩ := wr_nack_block slave (ticks slave 32 y) (by rw [h1])
      (by rw [h1]; exact hp)
    have hbusy : (ticks slave 32 y).inst.busy_flag = y.inst.busy_flag := by rw [h1]
    have hph : (ticks slave 32 y).inst.phase = 0 := by rw [h1]; exact hp
    have hdata : (ticks slave 32 y).inst.data =
        Function.update y.inst.data j (toU8 (rxBits slave 8 y.reads y.inst.current_byte)) := by
      rw [h1]
    have e36 : 36 * (0 + 1) = 32 + 4 := rfl
    rw [e36, ticks_add, trace_add, k1, k2, h2, hbusy]
    refine ⟨rfl, hph, rfl, ?_, rfl⟩
    show (ticks slave 32 y).inst.data = _
    rw [hdata]; rfl
  | succ m ih =>
    intro y j hs hp hb hj hr h0 hlt
    obtain ⟨h1, h2⟩ := rd_word_byte slave 7 (by norm_num) y hs hp (by rw [hb]; norm_num)
    have e32 : 4 * (7 + 1) = 32 := rfl
    have e8 : 7 + 1 = 8 := rfl
    rw [e32] at h1 h2
    rw [e8] at h1
    have hwrap : wrapInt (j + 1) = j + 1 :=
      wrapInt_of_range (by omega) (by push_cast at hlt; omega)
    have hif : j + 1 < y.inst.read_len := by rw [hr]; push_cast; omega
    rw [hj, hwrap, if_pos hif] at h1
    rw [hj] at h2
    obtain ⟨k1, k2⟩ := wr_ack_block slave (ticks slave 32 y) (by rw [h1])
      (by rw [h1]; exact hp)
    have hbusy : (ticks slave 32 y).inst.busy_flag = y.inst.busy_flag := by rw [h1]
    have hph : (ticks slave 32 y).inst.phase = 0 := by rw [h1]; exact hp
    have hrl : (ticks slave 32 y).inst.read_len = y.inst.read_len := by rw [h1]
    have hbc : (ticks slave 32 y).inst.byte_cntr = j + 1 := by rw [h1]
    have hcb : (ticks slave 32 y).inst.current_byte =
        rxBits slave 8 y.reads y.inst.current_byte := by rw [h1]
    have hrd : (ticks slave 32 y).reads = y.reads + 8 := by rw [h1]
    have hdata : (ticks slave 32 y).inst.data =
        Function.update y.inst.data j (toU8 (rxBits slave 8 y.reads y.inst.current_byte)) := by
      rw [h1]
    have q1 : (ticks slave 4 (ticks slave 32 y)).inst.busy_flag = y.inst.busy_flag := by
      rw [k1]; exact hbusy
    have q2 : (ticks slave 4 (ticks slave 32 y)).inst.data =
        Function.update y.inst.data j (toU8 (rxBits slave 8 y.reads y.inst.current_byte)) := by
      rw [k1]; exact hdata
    have q3 : (ticks slave 4 (ticks slave 32 y)).inst.current_byte =
        rxBits slave 8 y.reads y.inst.current_byte := by rw [k1]; exact hcb
    have q4 : (ticks slave 4 (ticks slave 32 y)).reads = y.reads + 8 := by
      rw [k1]; exact hrd
    obtain ⟨r1, r2, r3, r4, r5⟩ := ih (ticks slave 4 (ticks slave 32 y)) (j + 1)
      (by rw [k1]) (by rw [k1]; exact hph) (by rw [k1]) (by rw [k1]; exact hbc)
      (by rw [k1]; show (ticks slave 32 y).inst.read_len = _
          rw [hrl, hr]; push_cast; ring)
      (by omega) (by push_cast at hlt; omega)
    have e36 : 36 * (m + 1 + 1) = 32 + (4 + 36 * (m + 1)) := by ring
    rw [e36, ticks_add, ticks_add, trace_add, trace_add]
    refine ⟨r1, r2, r3.trans q1, ?_, ?_⟩
    · rw [r4, q2, q3, q4]; rfl
    · rw [r5, q1, h2, k2, hbusy]
      simp [rdBytesObs]

theorem read_transaction (slave : Nat → Int) (m : Nat) (hm : (m : Int) + 1 < 2147483648)
    (y : Sys) (hs : y.inst.state = State.IDLE) (hf : y.inst.start_flag ≠ 0)
    (hw : y.inst.write_len ≤ 0) (hr : y.inst.read_len = (m : Int) + 1)
    (hack : slave y.reads = 0) :
    (ticks slave (45 + 36 * (m + 1)) y).inst.state = State.IDLE ∧
    (ticks slave (45 + 36 * (m + 1)) y).inst.busy_flag = 0 ∧
    (ticks slave (45 + 36 * (m + 1)) y).inst.data =
      rdData slave (m + 1) (y.reads + 1) 0 0 y.inst.data ∧
    trace slave (45 + 36 * (m + 1)) y =
      startObs y.inst.phase y.inst.busy_flag ++
        (wrWordObs y.inst.busy_flag 8 y.inst.addr_rw ++
          (rdAckObs y.inst.busy_flag [Event.sda_read, Event.scl_drive_low] ++
            (rdBytesObs y.inst.busy_flag m 0 ++ stopObs y.inst.busy_flag))) := by
  have ht := idle_start_tick slave y hs hf
  have o1 : observe slave y = ⟨State.IDLE, y.inst.phase, y.inst.busy_flag, []⟩ := by
    simp [observe, hs, ht]
  have a1 : (ticks slave 1 y).inst.state = State.START := by rw [ticks_one, ht]
  have a2 : (ticks slave 1 y).inst.phase = 0 := by rw [ticks_one, ht]
  have a3 : (ticks slave 1 y).inst.busy_flag = y.inst.busy_flag := by rw [ticks_one, ht]
  have a4 : (ticks slave 1 y).inst.data = y.inst.data := by rw [ticks_one, ht]
  have a5 : (ticks slave 1 y).inst.write_len = y.inst.write_len := by rw [ticks_one, ht]
  have a6 : (ticks slave 1 y).inst.read_len = y.inst.read_len := by rw [ticks_one, ht]
  have a7 : (ticks slave 1 y).inst.addr_rw = y.inst.addr_rw := by rw [ticks_one, ht]
  have a8 : (ticks slave 1 y).inst.byte_cntr = 0 := by rw [ticks_one, ht]
  have a9 : (ticks slave 1 y).reads = y.reads := by rw [ticks_one, ht]
  obtain ⟨b1, b2⟩ := start_block slave (ticks slave 1 y) a1 a2
  have c1 : (ticks slave 4 (ticks slave 1 y)).inst.state = State.WR_WORD := by rw [b1]
  have c2 : (ticks slave 4 (ticks slave 1 y)).inst.phase = 0 := by rw [b1]; exact a2
  have c3 : (ticks slave 4 (ticks slave 1 y)).inst.busy_flag = y.inst.busy_flag := by
    rw [b1]; exact a3
  have c4 : (ticks slave 4 (ticks slave 1 y)).inst.data = y.inst.data := by rw [b1]; exact a4
  have c5 : (ticks slave 4 (ticks slave 1 y)).inst.write_len = y.inst.write_len := by
    rw [b1]; exact a5
  have c6 : (ticks slave 4 (ticks slave 1 y)).inst.read_len = y.inst.read_len := by
    rw [b1]; exact a6
  have c7 : (ticks slave 4 (ticks slave 1 y)).inst.current_byte = y.inst.addr_rw := by
    rw [b1]; exact a7
  have c8 : (ticks slave 4 (ticks slave 1 y)).inst.byte_cntr = 0 := by rw [b1]; exact a8
  have c9 : (ticks slave 4 (ticks slave 1 y)).inst.bit_cntr = 8 := by rw [b1]
  have c10 : (ticks slave 4 (ticks slave 1 y)).reads = y.reads := by rw [b1]; exact a9
  obtain ⟨d1, d2⟩ := wr_word_byte slave 7 (by norm_num) (ticks slave 4 (ticks slave 1 y)) c1 c2
    (by rw [c9]; norm_num)
  have e32 : 4 * (7 + 1) = 32 := rfl
  rw [e32] at d1 d2
  rw [c3, c7] at d2
  have f1 : (ticks slave 32 (ticks slave 4 (ticks slave 1 y))).inst.state = State.RD_ACK := by
    rw [d1]
  have f2 : (ticks slave 32 (ticks slave 4 (ticks slave 1 y))).inst.phase = 0 := by
    rw [d1]; exact c2
  have f3 : (ticks slave 32 (ticks slave 4 (ticks slave 1 y))).inst.busy_flag =
      y.inst.busy_flag := by rw [d1]; exact c3
  have f4 : (ticks slave 32 (ticks slave 4 (ticks slave 1 y))).inst.data = y.inst.data := by
    rw [d1]; exact c4
  have f5 : (ticks slave 32 (ticks slave 4 (ticks slave 1 y))).inst.write_len =
      y.inst.write_len := by rw [d1]; exact c5
  have f6 : (ticks slave 32 (ticks slave 4 (ticks slave 1 y))).inst.read_len =
      y.inst.read_len := by rw [d1]; exact c6
  have f8 : (ticks slave 32 (ticks slave 4 (ticks slave 1 y))).inst.byte_cntr = 0 := by
    rw [d1]; exact c8
  have f10 : (ticks slave 32 (ticks slave 4 (ticks slave 1 y))).reads = y.reads := by
    rw [d1]; exact c10
  obtain ⟨g1, g2⟩ := rd_ack_receive slave (ticks slave 32 (ticks slave 4 (ticks slave 1 y)))
    f1 f2 (by rw [f10]; exact hack) (by rw [f8, f5]; omega) (by rw [f8, f6, hr]; omega)
  rw [f3] at g2
  rw [f10] at g1
  have i1 : (ticks slave 4 (ticks slave 32 (ticks slave 4 (ticks slave 1 y)))).inst.state =
      State.RD_WORD := by rw [g1]
  have i2 : (ticks slave 4 (ticks slave 32 (ticks slave 4 (ticks slave 1 y)))).inst.phase =
      0 := by rw [g1]; exact f2
  have i3 : (ticks slave 4 (ticks slave 32 (ticks slave 4 (ticks slave 1 y)))).inst.busy_flag =
      y.inst.busy_flag := by rw [g1]; exact f3
  have i4 : (ticks slave 4 (ticks slave 32 (ticks slave 4 (ticks slave 1 y)))).inst.data =
      y.inst.data := by rw [g1]; exact f4
  have i6 : (ticks slave 4 (ticks slave 32 (ticks slave 4 (ticks slave 1 y)))).inst.read_len =
      (0 : Int) + (m : Int) + 1 := by
    rw [g1]; show (ticks slave 32 (ticks slave 4 (ticks slave 1 y))).inst.read_len = _
    rw [f6, hr]; ring
  have i7 : (ticks slave 4 (ticks slave 32 (ticks slave 4 (ticks slave 1 y)))).inst.current_byte
      = 0 := by rw [g1]
  have i8 : (ticks slave 4 (ticks slave 32 (ticks slave 4 (ticks slave 1 y)))).inst.byte_cntr =
      0 := by rw [g1]; exact f8
  have i9 : (ticks slave 4 (ticks slave 32 (ticks slave 4 (ticks slave 1 y)))).inst.bit_cntr =
      8 := by rw [g1]
  have i10 : (ticks slave 4 (ticks slave 32 (ticks slave 4 (ticks slave 1 y)))).reads =
      y.reads + 1 := by rw [g1]
  obtain ⟨l1, l2, l3, l4, l5⟩ := rd_loop slave m _ 0 i1 i2 i9 i8 i6 (le_refl 0) (by omega)
  rw [i4, i7, i10] at l4
  rw [i3] at l5
  obtain ⟨s1, s2⟩ := stop_block slave _ l1 l2
  have e : 45 + 36 * (m + 1) = 1 + (4 + (32 + (4 + (36 * (m + 1) + 4)))) := by ring
  rw [e, ticks_add, ticks_add, ticks_add, ticks_add, ticks_add, trace_add, trace_add,
    trace_add, trace_add, trace_add, s1, s2, l5, g2, d2, b2, trace_one, o1, l3, i3, a3]
  refine ⟨rfl, rfl, l4, ?_⟩
  simp [startObs, stopObs, rdAckObs]

theorem nack_transaction (slave : Nat → Int) (y : Sys)
    (hs : y.inst.state = State.IDLE) (hf : y.inst.start_flag ≠ 0)
    (hnack : slave y.reads ≠ 0) :
    (ticks slave 45 y).inst.state = State.IDLE ∧
    (ticks slave 45 y).inst.busy_flag = 0 ∧
    (ticks slave 45 y).inst.data = y.inst.data ∧
    trace slave 45 y =
      startObs y.inst.phase y.inst.busy_flag ++
        (wrWordObs y.inst.busy_flag 8 y.inst.addr_rw ++
          (rdAckObs y.inst.busy_flag [Event.sda_read, Event.scl_drive_low] ++
            stopObs y.inst.busy_flag)) := by
  have ht := idle_start_tick slave y hs hf
  have o1 : observe slave y = ⟨State.IDLE, y.inst.phase, y.inst.busy_flag, []⟩ := by
    simp [observe, hs, ht]
  have a1 : (ticks slave 1 y).inst.state = State.START := by rw [ticks_one, ht]
  have a2 : (ticks slave 1 y).inst.phase = 0 := by rw [ticks_one, ht]
  have a3 : (ticks slave 1 y).inst.busy_flag = y.inst.busy_flag := by rw [ticks_one, ht]
  have a4 : (ticks slave 1 y).inst.data = y.inst.data := by rw [ticks_one, ht]
  have a7 : (ticks slave 1 y).inst.addr_rw = y.inst.addr_rw := by rw [ticks_one, ht]
  have a9 : (ticks slave 1 y).reads = y.reads := by rw [ticks_one, ht]
  obtain ⟨b1, b2⟩ := start_block slave (ticks slave 1 y) a1 a2
  have c1 : (ticks slave 4 (ticks slave 1 y)).inst.state = State.WR_WORD := by rw [b1]
  have c2 : (ticks slave 4 (ticks slave 1 y)).inst.phase = 0 := by rw [b1]; exact a2
  have c3 : (ticks slave 4 (ticks slave 1 y)).inst.busy_flag = y.inst.busy_flag := by
    rw [b1]; exact a3
  have c4 : (ticks slave 4 (ticks slave 1 y)).inst.data = y.inst.data := by rw [b1]; exact a4
  have c7 : (ticks slave 4 (ticks slave 1 y)).inst.current_byte = y.inst.addr_rw := by
    rw [b1]; exact a7
  have c9 : (ticks slave 4 (ticks slave 1 y)).inst.bit_cntr = 8 := by rw [b1]
  have c10 : (ticks slave 4 (ticks slave 1 y)).reads = y.reads := by rw [b1]; exact a9
  obtain ⟨d1, d2⟩ := wr_word_byte slave 7 (by norm_num) (ticks slave 4 (ticks slave 1 y)) c1 c2
    (by rw [c9]; norm_num)
  have e32 : 4 * (7 + 1) = 32 := rfl
  rw [e32] at d1 d2
  rw [c3, c7] at d2
  have f1 : (ticks slave 32 (ticks slave 4 (ticks slave 1 y))).inst.state = State.RD_ACK := by
    rw [d1]
  have f2 : (ticks slave 32 (ticks slave 4 (ticks slave 1 y))).inst.phase = 0 := by
    rw [d1]; exact c2
  have f3 : (ticks slave 32 (ticks slave 4 (ticks slave 1 y))).inst.busy_flag =
      y.inst.busy_flag := by rw [d1]; exact c3
  have f4 : (ticks slave 32 (ticks slave 4 (ticks slave 1 y))).inst.data = y.inst.data := by
    rw [d1]; exact c4
  have f10 : (ticks slave 32 (ticks slave 4 (ticks slave 1 y))).reads = y.reads := by
    rw [d1]; exact c10
  obtain ⟨g1, g2⟩ := rd_ack_nack slave (ticks slave 32 (ticks slave 4 (ticks slave 1 y)))
    f1 f2 (by rw [f10]; exact hnack)
  rw [f3] at g2
  have i1 : (ticks slave 4 (ticks slave 32 (ticks slave 4 (ticks slave 1 y)))).inst.state =
      State.STOP := by rw [g1]
  have i2 : (ticks slave 4 (ticks slave 32 (ticks slave 4 (ticks slave 1 y)))).inst.phase =
      0 := by rw [g1]; exact f2
  have i3 : (ticks slave 4 (ticks slave 32 (ticks slave 4 (ticks slave 1 y)))).inst.busy_flag =
      y.inst.busy_flag := by rw [g1]; exact f3
  have i4 : (ticks slave 4 (ticks slave 32 (ticks slave 4 (ticks slave 1 y)))).inst.data =
      y.inst.data := by rw [g1]; exact f4
  obtain ⟨s1, s2⟩ := stop_block slave _ i1 i2
  have e : 45 = 1 + (4 + (32 + (4 + 4))) := rfl
  rw [e, ticks_add, ticks_add, ticks_add, ticks_add, trace_add, trace_add, trace_add,
    trace_add, s1, s2, g2, d2, b2, trace_one, o1, i3, a3]
  refine ⟨rfl, rfl, i4, ?_⟩
  simp [startObs, stopObs, rdAckObs]

theorem armRead_params (y : Sys) (addr : uint8_t) (data : Int → uint8_t) (len : Int)
    (mode : bb_i2c_master_mode) :
    (armRead y addr data len mode).inst.write_len = 0 ∧
    (armRead y addr data len mode).inst.read_len = len ∧
    (armRead y addr data len mode).inst.data = data ∧
    (armRead y addr data len mode).reads = y.reads := by
  obtain ⟨⟨k1, k2, k3, k4, k5, a, d, wl, rl, sf, bf, st, ph, cb, bc, bitc⟩, sda, scl, r⟩ := y
  exact ⟨(rfl : (0 : Int) = 0), (rfl : len = len), (rfl : data = data), (rfl : r = r)⟩

theorem rdWordObs_busy (busy : Int) (j : Int) (n : Nat) :
    ∀ o ∈ rdWordObs busy j n, o.busy = busy := by
  induction n with
  | zero => intro o ho; exact (cycleObs_mem ho).2
  | succ n ih =>
    intro o ho
    rw [rdWordObs, List.mem_append] at ho
    rcases ho with h | h
    · exact (cycleObs_mem h).2
    · exact ih o h

theorem rdBytesObs_busy (busy : Int) (m : Nat) (j : Int) :
    ∀ o ∈ rdBytesObs busy m j, o.busy = busy := by
  induction m generalizing j with
  | zero =>
    intro o ho
    rw [rdBytesObs, List.mem_append] at ho
    rcases ho with h | h
    · exact rdWordObs_busy _ _ _ o h
    · exact (cycleObs_mem h).2
  | succ m ih =>
    intro o ho
    rw [rdBytesObs, List.mem_append, List.mem_append] at ho
    rcases ho with (h | h) | h
    · exact rdWordObs_busy _ _ _ o h
    · exact (cycleObs_mem h).2
    · exact ih _ o h

/-- C1. A read of `N ≥ 1` bytes armed on an idle channel, against a slave that returns 0 at
the address `RD_ACK` sample and then, at the successive `RD_WORD` samples, the bits of
`b 0`, ..., `b (N - 1)`, most significant first, ends after `45 + 36 N` ticks (busy set
before each of them, clear after the last, state `IDLE`) with `data i = b i` for every
`i < N`: the bytes after the first included, for which the shift register is not cleared. -/
theorem C1_read_round_trip (slave : Nat → Int) (N : Nat) (hN1 : 1 ≤ N)
    (hN : (N : Int) < 2147483648) (y : Sys) (hs : y.inst.state = State.IDLE)
    (addr : uint8_t) (buf : Int → uint8_t) (mode : bb_i2c_master_mode) (b : Nat → uint8_t)
    (hack : slave y.reads = 0)
    (hbits : ∀ i, i < N → ∀ k, k < 8 →
      slave (y.reads + 1 + 8 * i + k) = bitLevel ((b i).val.testBit (7 - k))) :
    (∀ i, i < N →
      (ticks slave (45 + 36 * N) (armRead y addr buf (N : Int) mode)).inst.data (i : Int) =
        b i) ∧
    (ticks slave (45 + 36 * N) (armRead y addr buf (N : Int) mode)).inst.busy_flag = 0 ∧
    (ticks slave (45 + 36 * N) (armRead y addr buf (N : Int) mode)).inst.state = State.IDLE ∧
    (∀ k, k < 45 + 36 * N →
      (ticks slave k (armRead y addr buf (N : Int) mode)).inst.busy_flag ≠ 0) := by
  obtain ⟨m, rfl⟩ : ∃ m, N = m + 1 := ⟨N - 1, by omega⟩
  obtain ⟨f1, f2, f3, _, _, _⟩ := armRead_facts y addr buf ((m + 1 : Nat) : Int) mode
  obtain ⟨g1, g2, g3, g4⟩ := armRead_params y addr buf ((m + 1 : Nat) : Int) mode
  obtain ⟨t1, t2, t3, t4⟩ := read_transaction slave m (by push_cast at hN; omega)
    (armRead y addr buf ((m + 1 : Nat) : Int) mode) (f1.trans hs) (by rw [f2]; decide)
    (by rw [g1]) (by rw [g2]; push_cast; ring) (by rw [g4]; exact hack)
  rw [g3, g4] at t3
  rw [f3] at t4
  refine ⟨?_, t2, t1, ?_⟩
  · intro i hi
    rw [t3]
    have := rdData_spec slave (m + 1) (y.reads + 1) 0 0 buf b hbits i hi
    rw [zero_add] at this
    exact this
  · intro k hk
    have hm := observe_mem_trace slave _ k hk (armRead y addr buf ((m + 1 : Nat) : Int) mode)
    rw [t4, List.mem_append, List.mem_append, List.mem_append, List.mem_append] at hm
    have hb : (observe slave (ticks slave k
        (armRead y addr buf ((m + 1 : Nat) : Int) mode))).busy = 1 := by
      rcases hm with h | h | h | h | h
      · exact startObs_busy _ _ _ h
      · exact wrWordObs_busy _ _ _ _ h
      · exact (cycleObs_mem h).2
      · exact rdBytesObs_busy _ _ _ _ h
      · exact (cycleObs_mem h).2
    have hb' : (ticks slave k
        (armRead y addr buf ((m + 1 : Nat) : Int) mode)).inst.busy_flag = 1 := hb
    rw [hb']; decide

/-- C1, witness: address `0x50`, slave bytes `[0x12, 0x34]`. -/
theorem C1_read_round_trip_witness :
    (ticks (fun k => ([0, 0, 0, 0, 1, 0, 0, 1, 0, 0, 0, 1, 1, 0, 1, 0, 0] : List Int).getD k 1)
        (45 + 36 * 2)
        (armRead ⟨⟨0, 0, 0, 0, 0, 0, fun _ => 0, 0, 0, 0, 0, State.IDLE, 2, 0, 0, 0⟩,
          true, true, 0⟩ 0x50 (fun _ => 0xFF) ((2 : Nat) : Int) 0)).inst.data ((0 : Nat) : Int) =
      ([0x12, 0x34] : List uint8_t).getD 0 0 ∧
    (ticks (fun k => ([0, 0, 0, 0, 1, 0, 0, 1, 0, 0, 0, 1, 1, 0, 1, 0, 0] : List Int).getD k 1)
        (45 + 36 * 2)
        (armRead ⟨⟨0, 0, 0, 0, 0, 0, fun _ => 0, 0, 0, 0, 0, State.IDLE, 2, 0, 0, 0⟩,
          true, true, 0⟩ 0x50 (fun _ => 0xFF) ((2 : Nat) : Int) 0)).inst.data ((1 : Nat) : Int) =
      ([0x12, 0x34] : List uint8_t).getD 1 0 :=
  ⟨(C1_read_round_trip
    (fun k => ([0, 0, 0, 0, 1, 0, 0, 1, 0, 0, 0, 1, 1, 0, 1, 0, 0] : List Int).getD k 1)
    2 (by decide) (by decide)
    ⟨⟨0, 0, 0, 0, 0, 0, fun _ => 0, 0, 0, 0, 0, State.IDLE, 2, 0, 0, 0⟩, true, true, 0⟩ rfl
    0x50 (fun _ => 0xFF) 0 (fun i => ([0x12, 0x34] : List uint8_t).getD i 0) rfl
    (by decide)).1 0 (by decide),
   (C1_read_round_trip
    (fun k => ([0, 0, 0, 0, 1, 0, 0, 1, 0, 0, 0, 1, 1, 0, 1, 0, 0] : List Int).getD k 1)
    2 (by decide) (by decide)
    ⟨⟨0, 0, 0, 0, 0, 0, fun _ => 0, 0, 0, 0, 0, State.IDLE, 2, 0, 0, 0⟩, true, true, 0⟩ rfl
    0x50 (fun _ => 0xFF) 0 (fun i => ([0x12, 0x34] : List uint8_t).getD i 0) rfl
    (by decide)).1 1 (by decide)⟩

theorem wrWordObs_no_access (busy : Int) (k : Nat) (c : Int) :
    ∀ o ∈ wrWordObs busy k c, ∀ i, Event.data_store i ∉ o.events ∧
      Event.data_load i ∉ o.events := by
  induction k generalizing c with
  | zero => intro o ho; simp [wrWordObs] at ho
  | succ k ih =>
    intro o ho i
    rw [wrWordObs, List.mem_append] at ho
    rcases ho with h | h
    · simp only [cycleObs, List.mem_cons, List.mem_singleton, List.not_mem_nil, or_false] at h
      rcases h with h | h | h | h
      · rw [h]; simp [txEvent]; split <;> simp
      · rw [h]; simp
      · rw [h]; simp
      · rw [h]; simp
    · exact ih _ o h i

/-- C5. In a read of any length armed on an idle channel whose address byte is not
acknowledged (a non-zero sample at the first `RD_ACK` phase 3), the states run are `IDLE`,
`START`, `WR_WORD`, `RD_ACK` and then directly `STOP`, never `RD_WORD`; no tick accesses the
buffer, which after the 45 ticks holds what it held at arming; the channel is then back in
`IDLE` with the busy flag clear. -/
theorem C5_address_nack_buffer_untouched (slave : Nat → Int) (y : Sys)
    (hs : y.inst.state = State.IDLE) (addr : uint8_t) (buf : Int → uint8_t) (len : Int)
    (mode : bb_i2c_master_mode) (hnack : slave y.reads ≠ 0) :
    (trace slave 45 (armRead y addr buf len mode)).map Obs.state =
      State.IDLE :: List.replicate 4 State.START ++ List.replicate 32 State.WR_WORD ++
        List.replicate 4 State.RD_ACK ++ List.replicate 4 State.STOP ∧
    (∀ k, k < 45 → (ticks slave k (armRead y addr buf len mode)).inst.state ≠ State.RD_WORD) ∧
    (∀ o ∈ trace slave 45 (armRead y addr buf len mode), ∀ i,
      Event.data_store i ∉ o.events ∧ Event.data_load i ∉ o.events) ∧
    (ticks slave 45 (armRead y addr buf len mode)).inst.data = buf ∧
    (ticks slave 45 (armRead y addr buf len mode)).inst.state = State.IDLE ∧
    (ticks slave 45 (armRead y addr buf len mode)).inst.busy_flag = 0 := by
  obtain ⟨f1, f2, f3, _, _, _⟩ := armRead_facts y addr buf len mode
  obtain ⟨_, _, g3, g4⟩ := armRead_params y addr buf len mode
  obtain ⟨t1, t2, t3, t4⟩ := nack_transaction slave (armRead y addr buf len mode)
    (f1.trans hs) (by rw [f2]; decide) (by rw [g4]; exact hnack)
  have hst : (trace slave 45 (armRead y addr buf len mode)).map Obs.state =
      State.IDLE :: List.replicate 4 State.START ++ List.replicate 32 State.WR_WORD ++
        List.replicate 4 State.RD_ACK ++ List.replicate 4 State.STOP := by
    rw [t4, List.map_append, List.map_append, List.map_append, wrWordObs_states]
    simp [startObs, stopObs, rdAckObs, cycleObs]
  refine ⟨hst, ?_, ?_, t3.trans g3, t1, t2⟩
  · intro k hk hrd
    have hm := observe_mem_trace slave 45 k hk (armRead y addr buf len mode)
    have hm2 : (observe slave (ticks slave k (armRead y addr buf len mode))).state ∈
        (trace slave 45 (armRead y addr buf len mode)).map Obs.state :=
      List.mem_map_of_mem _ hm
    have hst2 : (observe slave (ticks slave k (armRead y addr buf len mode))).state =
        State.RD_WORD := hrd
    rw [hst, hst2] at hm2
    simp at hm2
  · intro o ho i
    rw [t4, List.mem_append, List.mem_append, List.mem_append] at ho
    rcases ho with h | h | h | h
    · simp only [startObs, cycleObs, List.mem_cons, List.mem_singleton, List.not_mem_nil,
        or_false] at h
      rcases h with h | h | h | h | h <;> rw [h] <;> simp
    · exact wrWordObs_no_access _ _ _ o h i
    · simp only [rdAckObs, cycleObs, List.mem_cons, List.mem_singleton, List.not_mem_nil,
        or_false] at h
      rcases h with h | h | h | h <;> rw [h] <;> simp
    · simp only [stopObs, cycleObs, List.mem_cons, List.mem_singleton, List.not_mem_nil,
        or_false] at h
      rcases h with h | h | h | h <;> rw [h] <;> simp

/-- C5, witness: a read of 2 bytes from address `0x50` that nobody acknowledges. -/
theorem C5_address_nack_buffer_untouched_witness :
    (ticks (fun _ => 1) 45
      (armRead ⟨⟨0, 0, 0, 0, 0, 0, fun _ => 0, 0, 0, 0, 0, State.IDLE, 1, 0, 0, 0⟩,
        true, true, 0⟩ 0x50 (fun _ => 0x77) 2 0)).inst.data = fun _ => 0x77 :=
  (C5_address_nack_buffer_untouched (fun _ => 1)
    ⟨⟨0, 0, 0, 0, 0, 0, fun _ => 0, 0, 0, 0, 0, State.IDLE, 1, 0, 0, 0⟩, true, true, 0⟩ rfl
    0x50 (fun _ => 0x77) 2 0 (by decide)).2.2.2.1

/-! ## Acknowledge pattern of a read -/

/-- C14, counterexample: a structure whose `phase`, `byte_cntr` and `bit_cntr` are 7, 5 and
3 before `bb_i2c_master_init` still has them at 7, 5 and 3 after it: the counters are not
cleared. -/
theorem C14_init_counterexample :
    ¬ ((bb_i2c_master_init
          ⟨0, 0, 0, 0, 0, 0, fun _ => 0, 0, 0, 1, 1, State.STOP, 7, 0, 5, 3⟩ 1 2 3 4 5).1.phase = 0 ∧
       (bb_i2c_master_init
          ⟨0, 0, 0, 0, 0, 0, fun _ => 0, 0, 0, 1, 1, State.STOP, 7, 0, 5, 3⟩ 1 2 3 4 5).1.byte_cntr
          = 0 ∧
       (bb_i2c_master_init
          ⟨0, 0, 0, 0, 0, 0, fun _ => 0, 0, 0, 1, 1, State.STOP, 7, 0, 5, 3⟩ 1 2 3 4 5).1.bit_cntr
          = 0) := by
  simp [bb_i2c_master_init]

/-- C14, amended. Whatever the structure and the lines were before, `bb_i2c_master_init`
binds the five callbacks, sets `state = IDLE`, clears `start_flag` and `busy_flag`, and calls
`scl_high_z` then `sda_high_z`, after which both lines are released; it leaves `phase`,
`byte_cntr` and `bit_cntr` (and every other field) as they were. -/
theorem C14_init (y : Sys) (c1 c2 c3 c4 c5 : callback_t) :
    ((bb_i2c_master_init y.inst c1 c2 c3 c4 c5).1.sda_drive_low = c1 ∧
      (bb_i2c_master_init y.inst c1 c2 c3 c4 c5).1.sda_high_z = c2 ∧
      (bb_i2c_master_init y.inst c1 c2 c3 c4 c5).1.scl_drive_low = c3 ∧
      (bb_i2c_master_init y.inst c1 c2 c3 c4 c5).1.scl_high_z = c4 ∧
      (bb_i2c_master_init y.inst c1 c2 c3 c4 c5).1.sda_read = c5) ∧
    ((bb_i2c_master_init y.inst c1 c2 c3 c4 c5).1.state = State.IDLE ∧
      (bb_i2c_master_init y.inst c1 c2 c3 c4 c5).1.start_flag = 0 ∧
      (bb_i2c_master_init y.inst c1 c2 c3 c4 c5).1.busy_flag = 0) ∧
    ((bb_i2c_master_init y.inst c1 c2 c3 c4 c5).2 = [Event.scl_high_z, Event.sda_high_z] ∧
      (initSys y c1 c2 c3 c4 c5).sda = true ∧ (initSys y c1 c2 c3 c4 c5).scl = true ∧
      (initSys y c1 c2 c3 c4 c5).inst = (bb_i2c_master_init y.inst c1 c2 c3 c4 c5).1) ∧
    ((bb_i2c_master_init y.inst c1 c2 c3 c4 c5).1.phase = y.inst.phase ∧
      (bb_i2c_master_init y.inst c1 c2 c3 c4 c5).1.byte_cntr = y.inst.byte_cntr ∧
      (bb_i2c_master_init y.inst c1 c2 c3 c4 c5).1.bit_cntr = y.inst.bit_cntr ∧
      (bb_i2c_master_init y.inst c1 c2 c3 c4 c5).1.current_byte = y.inst.current_byte ∧
      (bb_i2c_master_init y.inst c1 c2 c3 c4 c5).1.addr_rw = y.inst.addr_rw ∧
      (bb_i2c_master_init y.inst c1 c2 c3 c4 c5).1.data = y.inst.data ∧
      (bb_i2c_master_init y.inst c1 c2 c3 c4 c5).1.write_len = y.inst.write_len ∧
      (bb_i2c_master_init y.inst c1 c2 c3 c4 c5).1.read_len = y.inst.read_len) := by
  obtain ⟨⟨k1, k2, k3, k4, k5, a, d, wl, rl, sf, bf, st, ph, cb, bc, bitc⟩, sda, scl, r⟩ := y
  simp [bb_i2c_master_init, initSys, drive]

/-- C16. `bb_i2c_master_is_busy` returns a non-zero value exactly when `busy_flag` is set
(it returns the flag), leaves every field of the structure as it was and makes no call
through a callback; a second call returns the same value and again changes nothing. -/
theorem C16_is_busy (inst : bb_i2c_master_t) :
    ((bb_i2c_master_is_busy inst).2 ≠ 0 ↔ inst.busy_flag ≠ 0) ∧
    (bb_i2c_master_is_busy inst).2 = inst.busy_flag ∧
    (bb_i2c_master_is_busy inst).1.1 = inst ∧
    (bb_i2c_master_is_busy inst).1.2 = [] ∧
    bb_i2c_master_is_busy (bb_i2c_master_is_busy inst).1.1 = bb_i2c_master_is_busy inst :=
  ⟨Iff.rfl, rfl, rfl, rfl, rfl⟩

/-- C18, counterexample: an idle channel with a pending start and `bit_cntr = 5` still has
`bit_cntr = 5` after the tick that consumes the start. -/
theorem C18_arming_tick_counterexample :
    (bb_i2c_master_edge_processor
        ⟨0, 0, 0, 0, 0, 0xA0, fun _ => 0, 1, 0, 1, 1, State.IDLE, 2, 0, 9, 5⟩ 0).1.bit_cntr = 5 ∧
    ¬ ((bb_i2c_master_edge_processor
        ⟨0, 0, 0, 0, 0, 0xA0, fun _ => 0, 1, 0, 1, 1, State.IDLE, 2, 0, 9, 5⟩ 0).1.bit_cntr
        = 0) := by
  simp [bb_i2c_master_edge_processor, edge_switch, phase_increment]

/-- C18, amended. In `IDLE` with `start_flag` set, whatever `phase`, `byte_cntr` and
`bit_cntr` are, one tick clears `start_flag`, resets `byte_cntr` to zero, makes no call
through a callback and no buffer access, and leaves `state = START` and `phase = 0`;
`bit_cntr` and every other field keep their value. -/
theorem C18_arming_tick (inst : bb_i2c_master_t) (sda : Int)
    (hs : inst.state = State.IDLE) (hf : inst.start_flag ≠ 0) :
    bb_i2c_master_edge_processor inst sda =
      ({ inst with start_flag := 0, byte_cntr := 0, phase := 0, state := State.START }, []) := by
  obtain ⟨k1, k2, k3, k4, k5, a, d, wl, rl, sf, bf, st, ph, cb, bc, bitc⟩ := inst
  simp only at hs hf
  subst hs
  simp [bb_i2c_master_edge_processor, edge_switch, phase_increment, hf]

/-- C18, witness: the arming tick of a channel left at phase 2 with `bit_cntr = 5`. -/
theorem C18_arming_tick_witness :
    bb_i2c_master_edge_processor
        ⟨0, 0, 0, 0, 0, 0xA0, fun _ => 0, 1, 0, 1, 1, State.IDLE, 2, 0, 9, 5⟩ 0 =
      (⟨0, 0, 0, 0, 0, 0xA0, fun _ => 0, 1, 0, 0, 1, State.START, 0, 0, 0, 5⟩, []) :=
  C18_arming_tick ⟨0, 0, 0, 0, 0, 0xA0, fun _ => 0, 1, 0, 1, 1, State.IDLE, 2, 0, 9, 5⟩ 0 rfl
    (by decide)

/-! ## Phase counter -/

theorem int_land_zero (k : Int) : Int.land k 0 = 0 := by
  cases k with
  | ofNat m =>
    show ((m &&& 0 : Nat) : Int) = 0
    rw [Nat.and_zero]; rfl
  | negSucc m =>
    show ((Nat.ldiff 0 m : Nat) : Int) = 0
    have h : Nat.ldiff 0 m = 0 := by
      apply Nat.eq_of_testBit_eq
      intro i
      rw [Nat.testBit_ldiff]
      simp
    rw [h]; rfl

theorem int_eq_bit (x : Int) : x = Int.bit (decide (x % 2 = 1)) (x / 2) := by
  rw [Int.bit_val]
  by_cases h : x % 2 = 1
  · simp [h]; omega
  · simp [h]; omega

theorem int_land_three (x : Int) : Int.land x 3 = x % 4 := by
  have h3 : (3 : Int) = Int.bit true (Int.bit true 0) := by
    rw [Int.bit_val, Int.bit_val]; simp
  have hx := int_eq_bit x
  have hx2 := int_eq_bit (x / 2)
  have e : Int.land x 3 =
      Int.bit (decide (x % 2 = 1) && true)
        (Int.bit (decide (x / 2 % 2 = 1) && true) (Int.land (x / 2 / 2) 0)) := by
    conv_lhs => rw [hx, hx2, h3]
    rw [Int.land_bit, Int.land_bit]
  rw [e, int_land_zero, Int.bit_val, Int.bit_val]
  by_cases a : x % 2 = 1 <;> by_cases b : x / 2 % 2 = 1 <;> simp [a, b] <;> omega

theorem wrapInt_mod_four (x : Int) : wrapInt x % 4 = x % 4 := by
  unfold wrapInt; omega

theorem next_phase_eq (p : Int) : Int.land (wrapInt (p + 1)) 3 = (p + 1) % 4 := by
  rw [int_land_three, wrapInt_mod_four]

theorem switch_facts_start (inst : bb_i2c_master_t) (sda : Int)
    (hs : inst.state = State.START) :
    (edge_switch inst sda).1.phase = inst.phase ∧
    ((edge_switch inst sda).1.state ≠ inst.state → inst.phase = 3) := by
  obtain ⟨k1, k2, k3, k4, k5, a, d, wl, rl, sf, bf, st, ph, cb, bc, bitc⟩ := inst
  simp only at hs
  subst hs
  by_cases h0 : ph = 0
  · subst h0
    simp [edge_switch]
  by_cases h1 : ph = 1
  · subst h1
    simp [edge_switch]
  by_cases h2 : ph = 2
  · subst h2
    simp [edge_switch]
  by_cases h3 : ph = 3
  · subst h3
    simp [edge_switch]
  simp [edge_switch, h0, h1, h2, h3]

theorem switch_facts_wr_word (inst : bb_i2c_master_t) (sda : Int)
    (hs : inst.state = State.WR_WORD) :
    (edge_switch inst sda).1.phase = inst.phase ∧
    ((edge_switch inst sda).1.state ≠ inst.state → inst.phase = 3) := by
  obtain ⟨k1, k2, k3, k4, k5, a, d, wl, rl, sf, bf, st, ph, cb, bc, bitc⟩ := inst
  simp only at hs
  subst hs
  by_cases h0 : ph = 0
  · subst h0
    simp [edge_switch]
  by_cases h1 : ph = 1
  · subst h1
    simp [edge_switch]
  by_cases h2 : ph = 2
  · subst h2
    simp [edge_switch]
  by_cases h3 : ph = 3
  · subst h3
    by_cases hb : bitc = 0 <;>
      simp [edge_switch, hb]
  simp [edge_switch, h0, h1, h2, h3]

theorem switch_facts_rd_ack (inst : bb_i2c_master_t) (sda : Int)
    (hs : inst.state = State.RD_ACK) :
    (edge_switch inst sda).1.phase = inst.phase ∧
    ((edge_switch inst sda).1.state ≠ inst.state → inst.phase = 3) := by
  obtain ⟨k1, k2, k3, k4, k5, a, d, wl, rl, sf, bf, st, ph, cb, bc, bitc⟩ := inst
  simp only at hs
  subst hs
  by_cases h0 : ph = 0
  · subst h0
    simp [edge_switch]
  by_cases h1 : ph = 1
  · subst h1
    simp [edge_switch]
  by_cases h2 : ph = 2
  · subst h2
    simp [edge_switch]
  by_cases h3 : ph = 3
  · subst h3
    by_cases hn : sda = 0 <;> by_cases hw : bc < wl <;> by_cases hr : bc < rl <;>
      simp [edge_switch, hn, hw, hr]
  simp [edge_switch, h0, h1, h2, h3]

theorem switch_facts_rd_word (inst : bb_i2c_master_t) (sda : Int)
    (hs : inst.state = State.RD_WORD) :
    (edge_switch inst sda).1.phase = inst.phase ∧
    ((edge_switch inst sda).1.state ≠ inst.state → inst.phase = 3) := by
  obtain ⟨k1, k2, k3, k4, k5, a, d, wl, rl, sf, bf, st, ph, cb, bc, bitc⟩ := inst
  simp only at hs
  subst hs
  by_cases h0 : ph = 0
  · subst h0
    simp [edge_switch]
  by_cases h1 : ph = 1
  · subst h1
    simp [edge_switch]
  by_cases h2 : ph = 2
  · subst h2
    simp [edge_switch]
  by_cases h3 : ph = 3
  · subst h3
    by_cases hb : wrapInt (bitc - 1) = 0 <;> by_cases hr : wrapInt (bc + 1) < rl <;>
      simp [edge_switch, hb, hr]
  simp [edge_switch, h0, h1, h2, h3]

theorem switch_facts_wr_ack (inst : bb_i2c_master_t) (sda : Int)
    (hs : inst.state = State.WR_ACK) :
    (edge_switch inst sda).1.phase = inst.phase ∧
    ((edge_switch inst sda).1.state ≠ inst.state → inst.phase = 3) := by
  obtain ⟨k1, k2, k3, k4, k5, a, d, wl, rl, sf, bf, st, ph, cb, bc, bitc⟩ := inst
  simp only at hs
  subst hs
  by_cases h0 : ph = 0
  · subst h0
    simp [edge_switch]
  by_cases h1 : ph = 1
  · subst h1
    simp [edge_switch]
  by_cases h2 : ph = 2
  · subst h2
    simp [edge_switch]
  by_cases h3 : ph = 3
  · subst h3
    simp [edge_switch]
  simp [edge_switch, h0, h1, h2, h3]

theorem switch_facts_wr_nack (inst : bb_i2c_master_t) (sda : Int)
    (hs : inst.state = State.WR_NACK) :
    (edge_switch inst sda).1.phase = inst.phase ∧
    ((edge_switch inst sda).1.state ≠ inst.state → inst.phase = 3) := by
  obtain ⟨k1, k2, k3, k4, k5, a, d, wl, rl, sf, bf, st, ph, cb, bc, bitc⟩ := inst
  simp only at hs
  subst hs
  by_cases h0 : ph = 0
  · subst h0
    simp [edge_switch]
  by_cases h1 : ph = 1
  · subst h1
    simp [edge_switch]
  by_cases h2 : ph = 2
  · subst h2
    simp [edge_switch]
  by_cases h3 : ph = 3
  · subst h3
    simp [edge_switch]
  simp [edge_switch, h0, h1, h2, h3]

theorem switch_facts_stop (inst : bb_i2c_master_t) (sda : Int)
    (hs : inst.state = State.STOP) :
    (edge_switch inst sda).1.phase = inst.phase ∧
    ((edge_switch inst sda).1.state ≠ inst.state → inst.phase = 3) := by
  obtain ⟨k1, k2, k3, k4, k5, a, d, wl, rl, sf, bf, st, ph, cb, bc, bitc⟩ := inst
  simp only at hs
  subst hs
  by_cases h0 : ph = 0
  · subst h0
    simp [edge_switch]
  by_cases h1 : ph = 1
  · subst h1
    simp [edge_switch]
  by_cases h2 : ph = 2
  · subst h2
    simp [edge_switch]
  by_cases h3 : ph = 3
  · subst h3
    simp [edge_switch]
  simp [edge_switch, h0, h1, h2, h3]

theorem switch_facts_idle (inst : bb_i2c_master_t) (sda : Int)
    (hs : inst.state = State.IDLE) :
    (inst.start_flag ≠ 0 → (edge_switch inst sda).1.phase = 3 ∧
      (edge_switch inst sda).1.state = State.START) ∧
    (inst.start_flag = 0 → (edge_switch inst sda).1.phase = inst.phase ∧
      (edge_switch inst sda).1.state = inst.state) := by
  obtain ⟨k1, k2, k3, k4, k5, a, d, wl, rl, sf, bf, st, ph, cb, bc, bitc⟩ := inst
  simp only at hs
  subst hs
  by_cases hf : sf = 0 <;> simp [edge_switch, hf]

theorem switch_facts (inst : bb_i2c_master_t) (sda : Int) (hs : inst.state ≠ State.IDLE) :
    (edge_switch inst sda).1.phase = inst.phase ∧
    ((edge_switch inst sda).1.state ≠ inst.state → inst.phase = 3) := by
  cases h : inst.state
  · exact absurd h hs
  · have t := switch_facts_start inst sda h
    rw [h] at t
    exact t
  · have t := switch_facts_wr_word inst sda h
    rw [h] at t
    exact t
  · have t := switch_facts_rd_word inst sda h
    rw [h] at t
    exact t
  · have t := switch_facts_rd_ack inst sda h
    rw [h] at t
    exact t
  · have t := switch_facts_wr_ack inst sda h
    rw [h] at t
    exact t
  · have t := switch_facts_wr_nack inst sda h
    rw [h] at t
    exact t
  · have t := switch_facts_stop inst sda h
    rw [h] at t
    exact t

theorem processor_fields (inst : bb_i2c_master_t) (sda : Int) :
    (bb_i2c_master_edge_processor inst sda).1.phase =
      Int.land (wrapInt ((edge_switch inst sda).1.phase + 1)) 3 ∧
    (bb_i2c_master_edge_processor inst sda).1.state = (edge_switch inst sda).1.state := by
  simp [bb_i2c_master_edge_processor, phase_increment]

/-- C15. Whatever the channel state and the value of `phase` before, after a tick `phase` is
0, 1, 2 or 3; it is `(phase + 1) mod 4` of the old value on every tick except the `IDLE` tick
that consumes `start_flag`, after which it is 0. A tick that changes `state`, other than
that `IDLE` tick, is a tick made at phase 3, and after every tick that changes `state` the
phase is 0. -/
theorem C15_phase_counter (inst : bb_i2c_master_t) (sda : Int) :
    (0 ≤ (bb_i2c_master_edge_processor inst sda).1.phase ∧
      (bb_i2c_master_edge_processor inst sda).1.phase ≤ 3) ∧
    (inst.state = State.IDLE ∧ inst.start_flag ≠ 0 →
      (bb_i2c_master_edge_processor inst sda).1.phase = 0 ∧
      (bb_i2c_master_edge_processor inst sda).1.state = State.START) ∧
    (¬ (inst.state = State.IDLE ∧ inst.start_flag ≠ 0) →
      (bb_i2c_master_edge_processor inst sda).1.phase = (inst.phase + 1) % 4) ∧
    ((bb_i2c_master_edge_processor inst sda).1.state ≠ inst.state →
      (inst.state = State.IDLE ∧ inst.start_flag ≠ 0) ∨ inst.phase = 3) ∧
    ((bb_i2c_master_edge_processor inst sda).1.state ≠ inst.state →
      (bb_i2c_master_edge_processor inst sda).1.phase = 0) := by
  obtain ⟨p1, p2⟩ := processor_fields inst sda
  have hrange : 0 ≤ (bb_i2c_master_edge_processor inst sda).1.phase ∧
      (bb_i2c_master_edge_processor inst sda).1.phase ≤ 3 := by
    rw [p1, next_phase_eq]; omega
  have harm : inst.state = State.IDLE ∧ inst.start_flag ≠ 0 →
      (bb_i2c_master_edge_processor inst sda).1.phase = 0 ∧
      (bb_i2c_master_edge_processor inst sda).1.state = State.START := by
    intro h
    obtain ⟨q1, q2⟩ := (switch_facts_idle inst sda h.1).1 h.2
    rw [p1, p2, q1, q2]
    exact ⟨next_phase_3, rfl⟩
  have hstep : ¬ (inst.state = State.IDLE ∧ inst.start_flag ≠ 0) →
      (bb_i2c_master_edge_processor inst sda).1.phase = (inst.phase + 1) % 4 ∧
      ((bb_i2c_master_edge_processor inst sda).1.state ≠ inst.state → inst.phase = 3) := by
    intro h
    by_cases hs : inst.state = State.IDLE
    · have hf : inst.start_flag = 0 := by
        by_contra hne
        exact h ⟨hs, hne⟩
      obtain ⟨q1, q2⟩ := (switch_facts_idle inst sda hs).2 hf
      rw [p1, p2, q1, q2, next_phase_eq]
      exact ⟨rfl, fun hne => absurd rfl hne⟩
    · obtain ⟨q1, q2⟩ := switch_facts inst sda hs
      rw [p1, p2, q1, next_phase_eq]
      exact ⟨rfl, q2⟩
  refine ⟨hrange, harm, fun h => (hstep h).1, ?_, ?_⟩
  · intro hne
    by_cases h : inst.state = State.IDLE ∧ inst.start_flag ≠ 0
    · exact Or.inl h
    · exact Or.inr ((hstep h).2 hne)
  · intro hne
    by_cases h : inst.state = State.IDLE ∧ inst.start_flag ≠ 0
    · exact (harm h).1
    · have h3 := (hstep h).2 hne
      rw [(hstep h).1, h3]
      decide

/-! ## Busy invariant -/

/-- C11, amended. In every channel reachable from `bb_i2c_master_init` by ticks and by calls
of `bb_i2c_master_write` / `bb_i2c_master_read` made only while `busy_flag` is clear, each
call taken whole (no tick runs between the store of `start_flag` and the store of
`busy_flag`), `busy_flag` is set whenever `start_flag` is set or `state` is not `IDLE`;
equivalently, when `busy_flag` is clear the state is `IDLE` and no start is pending. -/
theorem C11_busy_invariant (y : Sys) (h : Reachable y) :
    (y.inst.start_flag ≠ 0 ∨ y.inst.state ≠ State.IDLE → y.inst.busy_flag ≠ 0) ∧
    (y.inst.busy_flag = 0 → y.inst.state = State.IDLE ∧ y.inst.start_flag = 0) := by
  have hinv := reachable_inv y h
  refine ⟨?_, ?_⟩
  · intro hor
    rcases hor with hf | hs
    · exact hinv.2.2.1 hf
    · exact (hinv.2.1 hs).1
  · intro hb
    obtain ⟨s, f, _, _⟩ := inv_idle_of_not_busy y hinv hb
    exact ⟨s, f⟩

/-! ## Idle ticks -/

theorem tick_withPhase_armed (slave : Nat → Int) (y : Sys) (p : Int)
    (hs : y.inst.state = State.IDLE) (hf : y.inst.start_flag ≠ 0) :
    tick slave (withPhase y p) = tick slave y := by
  obtain ⟨⟨k1, k2, k3, k4, k5, a, d, wl, rl, sf, bf, st, ph, cb, bc, bitc⟩, sda, scl, r⟩ := y
  simp only at hs hf
  subst hs
  simp [withPhase, tick, bb_i2c_master_edge_processor, edge_switch, phase_increment, drive, hf]

theorem armWrite_withPhase (y : Sys) (p : Int) (addr : uint8_t) (data : Int → uint8_t)
    (len : Int) (mode : bb_i2c_master_mode) :
    armWrite (withPhase y p) addr data len mode = withPhase (armWrite y addr data len mode) p := by
  obtain ⟨⟨k1, k2, k3, k4, k5, a, d, wl, rl, sf, bf, st, ph, cb, bc, bitc⟩, sda, scl, r⟩ := y
  simp only [armWrite, withPhase, write_stores]

theorem armRead_withPhase (y : Sys) (p : Int) (addr : uint8_t) (data : Int → uint8_t)
    (len : Int) (mode : bb_i2c_master_mode) :
    armRead (withPhase y p) addr data len mode = withPhase (armRead y addr data len mode) p := by
  obtain ⟨⟨k1, k2, k3, k4, k5, a, d, wl, rl, sf, bf, st, ph, cb, bc, bitc⟩, sda, scl, r⟩ := y
  simp only [armRead, withPhase, read_stores]

theorem ticks_succ (slave : Nat → Int) (k : Nat) (y : Sys) :
    ticks slave (k + 1) y = ticks slave k (tick slave y).1 := by
  rw [Nat.add_comm, ticks_add, ticks_one]

theorem trace_succ (slave : Nat → Int) (k : Nat) (y : Sys) :
    trace slave (k + 1) y = observe slave y :: trace slave k (tick slave y).1 := by
  rw [Nat.add_comm, trace_add, trace_one, ticks_one]
  rfl

theorem ticks_zero (slave : Nat → Int) (y : Sys) : ticks slave 0 y = y := by
  unfold ticks
  rfl

theorem trace_zero (slave : Nat → Int) (y : Sys) : trace slave 0 y = [] := by
  unfold trace
  rfl

theorem withPhase_fields (y : Sys) (p : Int) :
    (withPhase y p).inst.state = y.inst.state ∧
    (withPhase y p).inst.start_flag = y.inst.start_flag ∧
    (withPhase y p).inst.busy_flag = y.inst.busy_flag ∧
    (withPhase y p).inst.data = y.inst.data ∧
    (withPhase y p).inst.phase = p := by
  obtain ⟨⟨k1, k2, k3, k4, k5, a, d, wl, rl, sf, bf, st, ph, cb, bc, bitc⟩, sda, scl, r⟩ := y
  exact ⟨rfl, rfl, rfl, rfl, rfl⟩

theorem withPhase_withPhase (y : Sys) (p q : Int) :
    withPhase (withPhase y p) q = withPhase y q := by
  obtain ⟨⟨k1, k2, k3, k4, k5, a, d, wl, rl, sf, bf, st, ph, cb, bc, bitc⟩, sda, scl, r⟩ := y
  rfl

theorem withPhase_self (y : Sys) : withPhase y y.inst.phase = y := by
  obtain ⟨⟨k1, k2, k3, k4, k5, a, d, wl, rl, sf, bf, st, ph, cb, bc, bitc⟩, sda, scl, r⟩ := y
  rfl

theorem idle_tick_withPhase (slave : Nat → Int) (y : Sys)
    (hs : y.inst.state = State.IDLE) (hf : y.inst.start_flag = 0) :
    tick slave y = (withPhase y ((y.inst.phase + 1) % 4), []) := by
  rw [idle_noop_tick slave y hs hf, ← next_phase_eq]
  rfl

theorem idle_ticks (slave : Nat → Int) (n : Nat) :
    ∀ y : Sys, y.inst.state = State.IDLE → y.inst.start_flag = 0 →
      (∀ o ∈ trace slave n y, o.events = []) ∧ ∃ p, ticks slave n y = withPhase y p := by
  induction n with
  | zero =>
    intro y _ _
    rw [trace_zero, ticks_zero]
    exact ⟨fun o ho => absurd ho (List.not_mem_nil o), ⟨y.inst.phase, (withPhase_self y).symm⟩⟩
  | succ n ih =>
    intro y hs hf
    have ht := idle_tick_withPhase slave y hs hf
    obtain ⟨w1, w2, _, _, _⟩ := withPhase_fields y ((y.inst.phase + 1) % 4)
    obtain ⟨i1, p, i2⟩ := ih (withPhase y ((y.inst.phase + 1) % 4)) (w1.trans hs) (w2.trans hf)
    rw [trace_succ, ticks_succ, ht]
    refine ⟨?_, ⟨p, ?_⟩⟩
    · intro o ho
      rw [List.mem_cons] at ho
      rcases ho with h | h
      · rw [h]
        show (tick slave y).2 = []
        rw [ht]
      · exact i1 o h
    · rw [i2, withPhase_withPhase]

theorem trace_core_withPhase (slave : Nat → Int) (y : Sys) (p : Int)
    (hs : y.inst.state = State.IDLE) (hf : y.inst.start_flag ≠ 0) (k : Nat) :
    ticks slave (k + 1) (withPhase y p) = ticks slave (k + 1) y ∧
    (trace slave k (withPhase y p)).map Obs.core = (trace slave k y).map Obs.core := by
  have ht := tick_withPhase_armed slave y p hs hf
  obtain ⟨w1, _, w3, _, _⟩ := withPhase_fields y p
  refine ⟨?_, ?_⟩
  · rw [ticks_succ, ticks_succ, ht]
  · cases k with
    | zero => rw [trace_zero, trace_zero]
    | succ k =>
      rw [trace_succ, trace_succ, ht, List.map_cons, List.map_cons]
      have e : (observe slave (withPhase y p)).core = (observe slave y).core := by
        show ((withPhase y p).inst.state, (withPhase y p).inst.busy_flag,
          (tick slave (withPhase y p)).2) = (y.inst.state, y.inst.busy_flag, (tick slave y).2)
        rw [w1, w3, ht]
      rw [e]

/-- C13. A tick in `IDLE` with no start pending makes no call through a callback and no
buffer access, and any number of such ticks changes nothing but `phase`. For two idle
channels that differ only in `phase` and are armed with the same call against the same
slave, the channel after every tick is the same, and so are the state, the busy flag and the
events of every tick: the line operations, the states visited, the tick at which busy clears
and the buffer do not depend on the idle ticks run or skipped before. -/
theorem C13_idle_ticks_may_be_suspended (slave : Nat → Int) (y : Sys)
    (hs : y.inst.state = State.IDLE) :
    (y.inst.start_flag = 0 → ∀ n,
      (∀ o ∈ trace slave n y, o.events = []) ∧ ∃ p, ticks slave n y = withPhase y p) ∧
    (∀ (p : Int) (addr : uint8_t) (data : Int → uint8_t) (len : Int)
      (mode : bb_i2c_master_mode) (k : Nat),
      (ticks slave (k + 1) (armWrite (withPhase y p) addr data len mode) =
          ticks slave (k + 1) (armWrite y addr data len mode) ∧
        (trace slave k (armWrite (withPhase y p) addr data len mode)).map Obs.core =
          (trace slave k (armWrite y addr data len mode)).map Obs.core) ∧
      (ticks slave (k + 1) (armRead (withPhase y p) addr data len mode) =
          ticks slave (k + 1) (armRead y addr data len mode) ∧
        (trace slave k (armRead (withPhase y p) addr data len mode)).map Obs.core =
          (trace slave k (armRead y addr data len mode)).map Obs.core)) := by
  refine ⟨fun hf n => idle_ticks slave n y hs hf, ?_⟩
  intro p addr data len mode k
  obtain ⟨f1, f2, _, _, _, _⟩ := armWrite_facts y addr data len mode
  obtain ⟨g1, g2, _, _, _, _⟩ := armRead_facts y addr data len mode
  rw [armWrite_withPhase, armRead_withPhase]
  exact ⟨trace_core_withPhase slave _ p (f1.trans hs) (by rw [f2]; decide) k,
    trace_core_withPhase slave _ p (g1.trans hs) (by rw [g2]; decide) k⟩

/-- C13, witness: the write of Scenario A armed at phase 3 and at phase 0. -/
theorem C13_idle_ticks_may_be_suspended_witness :
    ticks (fun _ => 0) (80 + 1)
        (armWrite (withPhase
          ⟨⟨0, 0, 0, 0, 0, 0, fun _ => 0, 0, 0, 0, 0, State.IDLE, 0, 0, 0, 0⟩, true, true, 0⟩ 3)
          0x50 (fun _ => 0xAA) 1 0) =
      ticks (fun _ => 0) (80 + 1)
        (armWrite
          ⟨⟨0, 0, 0, 0, 0, 0, fun _ => 0, 0, 0, 0, 0, State.IDLE, 0, 0, 0, 0⟩, true, true, 0⟩
          0x50 (fun _ => 0xAA) 1 0) :=
  ((C13_idle_ticks_may_be_suspended (fun _ => 0)
    ⟨⟨0, 0, 0, 0, 0, 0, fun _ => 0, 0, 0, 0, 0, State.IDLE, 0, 0, 0, 0⟩, true, true, 0⟩ rfl).2
    3 0x50 (fun _ => 0xAA) 1 0 80).1.1

/-! ## SDA moves only while SCL is held low -/

theorem low_tick_idle (slave : Nat → Int) (y : Sys) (hs : y.inst.state = State.IDLE)
    (h : Low y) : Low (tick slave y).1 ∧ SdaQuiet slave y := by
  obtain ⟨⟨k1, k2, k3, k4, k5, a, d, wl, rl, sf, bf, st, ph, cb, bc, bitc⟩, sda, scl, r⟩ := y
  simp only at hs
  subst hs
  simp only [Low] at h
  obtain ⟨i1, i2⟩ := h
  by_cases hf : sf = 0
  · simp [Low, SdaQuiet, tick, bb_i2c_master_edge_processor, edge_switch, phase_increment, drive,
    hf]
  · simp [Low, SdaQuiet, tick, bb_i2c_master_edge_processor, edge_switch, phase_increment, drive,
    hf]

theorem low_tick_start (slave : Nat → Int) (y : Sys) (hs : y.inst.state = State.START)
    (h : Low y) : Low (tick slave y).1 ∧ SdaQuiet slave y := by
  obtain ⟨⟨k1, k2, k3, k4, k5, a, d, wl, rl, sf, bf, st, ph, cb, bc, bitc⟩, sda, scl, r⟩ := y
  simp only at hs
  subst hs
  simp only [Low] at h
  obtain ⟨i1, i2⟩ := h
  simp only [ne_eq, not_false_eq_true, reduceCtorEq, forall_const] at i1 i2
  by_cases h0 : ph = 0
  · subst h0
    simp_all [Low, SdaQuiet, tick, bb_i2c_master_edge_processor, edge_switch, phase_increment,
      drive]
  by_cases h1 : ph = 1
  · subst h1
    simp_all [Low, SdaQuiet, tick, bb_i2c_master_edge_processor, edge_switch, phase_increment,
      drive]
  by_cases h2 : ph = 2
  · subst h2
    simp_all [Low, SdaQuiet, tick, bb_i2c_master_edge_processor, edge_switch, phase_increment,
      drive]
  by_cases h3 : ph = 3
  · subst h3
    simp_all [Low, SdaQuiet, tick, bb_i2c_master_edge_processor, edge_switch, phase_increment,
      drive]
  exfalso
  omega

theorem low_tick_wr_word (slave : Nat → Int) (y : Sys) (hs : y.inst.state = State.WR_WORD)
    (h : Low y) : Low (tick slave y).1 ∧ SdaQuiet slave y := by
  obtain ⟨⟨k1, k2, k3, k4, k5, a, d, wl, rl, sf, bf, st, ph, cb, bc, bitc⟩, sda, scl, r⟩ := y
  simp only at hs
  subst hs
  simp only [Low] at h
  obtain ⟨i1, i2⟩ := h
  simp only [ne_eq, not_false_eq_true, reduceCtorEq, forall_const] at i1 i2
  by_cases h0 : ph = 0
  · subst h0
    by_cases hc : Int.land cb 128 = 0 <;>
      simp_all [Low, SdaQuiet, tick, bb_i2c_master_edge_processor, edge_switch, phase_increment,
        drive]
  by_cases h1 : ph = 1
  · subst h1
    simp_all [Low, SdaQuiet, tick, bb_i2c_master_edge_processor, edge_switch, phase_increment,
      drive]
  by_cases h2 : ph = 2
  · subst h2
    simp_all [Low, SdaQuiet, tick, bb_i2c_master_edge_processor, edge_switch, phase_increment,
      drive]
  by_cases h3 : ph = 3
  · subst h3
    by_cases hb : bitc = 0 <;>
      simp_all [Low, SdaQuiet, tick, bb_i2c_master_edge_processor, edge_switch, phase_increment,
        drive]
  exfalso
  omega

theorem low_tick_rd_ack (slave : Nat → Int) (y : Sys) (hs : y.inst.state = State.RD_ACK)
    (h : Low y) : Low (tick slave y).1 ∧ SdaQuiet slave y := by
  obtain ⟨⟨k1, k2, k3, k4, k5, a, d, wl, rl, sf, bf, st, ph, cb, bc, bitc⟩, sda, scl, r⟩ := y
  simp only at hs
  subst hs
  simp only [Low] at h
  obtain ⟨i1, i2⟩ := h
  simp only [ne_eq, not_false_eq_true, reduceCtorEq, forall_const] at i1 i2
  by_cases h0 : ph = 0
  · subst h0
    simp_all [Low, SdaQuiet, tick, bb_i2c_master_edge_processor, edge_switch, phase_increment,
      drive]
  by_cases h1 : ph = 1
  · subst h1
    simp_all [Low, SdaQuiet, tick, bb_i2c_master_edge_processor, edge_switch, phase_increment,
      drive]
  by_cases h2 : ph = 2
  · subst h2
    simp_all [Low, SdaQuiet, tick, bb_i2c_master_edge_processor, edge_switch, phase_increment,
      drive]
  by_cases h3 : ph = 3
  · subst h3
    by_cases hn : slave r = 0 <;> by_cases hw : bc < wl <;> by_cases hr : bc < rl <;>
      simp [Low, SdaQuiet, tick, bb_i2c_master_edge_processor, edge_switch, phase_increment,
        drive, hn, hw,
        hr]
  exfalso
  omega

theorem low_tick_rd_word (slave : Nat → Int) (y : Sys) (hs : y.inst.state = State.RD_WORD)
    (h : Low y) : Low (tick slave y).1 ∧ SdaQuiet slave y := by
  obtain ⟨⟨k1, k2, k3, k4, k5, a, d, wl, rl, sf, bf, st, ph, cb, bc, bitc⟩, sda, scl, r⟩ := y
  simp only at hs
  subst hs
  simp only [Low] at h
  obtain ⟨i1, i2⟩ := h
  simp only [ne_eq, not_false_eq_true, reduceCtorEq, forall_const] at i1 i2
  by_cases h0 : ph = 0
  · subst h0
    simp_all [Low, SdaQuiet, tick, bb_i2c_master_edge_processor, edge_switch, phase_increment,
      drive]
  by_cases h1 : ph = 1
  · subst h1
    simp_all [Low, SdaQuiet, tick, bb_i2c_master_edge_processor, edge_switch, phase_increment,
      drive]
  by_cases h2 : ph = 2
  · subst h2
    simp_all [Low, SdaQuiet, tick, bb_i2c_master_edge_processor, edge_switch, phase_increment,
      drive]
  by_cases h3 : ph = 3
  · subst h3
    by_cases hb : wrapInt (bitc - 1) = 0 <;> by_cases hr : wrapInt (bc + 1) < rl <;>
      simp [Low, SdaQuiet, tick, bb_i2c_master_edge_processor, edge_switch, phase_increment,
        drive, hb,
        hr]
  exfalso
  omega

theorem low_tick_wr_ack (slave : Nat → Int) (y : Sys) (hs : y.inst.state = State.WR_ACK)
    (h : Low y) : Low (tick slave y).1 ∧ SdaQuiet slave y := by
  obtain ⟨⟨k1, k2, k3, k4, k5, a, d, wl, rl, sf, bf, st, ph, cb, bc, bitc⟩, sda, scl, r⟩ := y
  simp only at hs
  subst hs
  simp only [Low] at h
  obtain ⟨i1, i2⟩ := h
  simp only [ne_eq, not_false_eq_true, reduceCtorEq, forall_const] at i1 i2
  by_cases h0 : ph = 0
  · subst h0
    simp_all [Low, SdaQuiet, tick, bb_i2c_master_edge_processor, edge_switch, phase_increment,
      drive]
  by_cases h1 : ph = 1
  · subst h1
    simp_all [Low, SdaQuiet, tick, bb_i2c_master_edge_processor, edge_switch, phase_increment,
      drive]
  by_cases h2 : ph = 2
  · subst h2
    simp_all [Low, SdaQuiet, tick, bb_i2c_master_edge_processor, edge_switch, phase_increment,
      drive]
  by_cases h3 : ph = 3
  · subst h3
    simp_all [Low, SdaQuiet, tick, bb_i2c_master_edge_processor, edge_switch, phase_increment,
      drive]
  exfalso
  omega

theorem low_tick_wr_nack (slave : Nat → Int) (y : Sys) (hs : y.inst.state = State.WR_NACK)
    (h : Low y) : Low (tick slave y).1 ∧ SdaQuiet slave y := by
  obtain ⟨⟨k1, k2, k3, k4, k5, a, d, wl, rl, sf, bf, st, ph, cb, bc, bitc⟩, sda, scl, r⟩ := y
  simp only at hs
  subst hs
  simp only [Low] at h
  obtain ⟨i1, i2⟩ := h
  simp only [ne_eq, not_false_eq_true, reduceCtorEq, forall_const] at i1 i2
  by_cases h0 : ph = 0
  · subst h0
    simp_all [Low, SdaQuiet, tick, bb_i2c_master_edge_processor, edge_switch, phase_increment,
      drive]
  by_cases h1 : ph = 1
  · subst h1
    simp_all [Low, SdaQuiet, tick, bb_i2c_master_edge_processor, edge_switch, phase_increment,
      drive]
  by_cases h2 : ph = 2
  · subst h2
    simp_all [Low, SdaQuiet, tick, bb_i2c_master_edge_processor, edge_switch, phase_increment,
      drive]
  by_cases h3 : ph = 3
  · subst h3
    simp_all [Low, SdaQuiet, tick, bb_i2c_master_edge_processor, edge_switch, phase_increment,
      drive]
  exfalso
  omega

theorem low_tick_stop (slave : Nat → Int) (y : Sys) (hs : y.inst.state = State.STOP)
    (h : Low y) : Low (tick slave y).1 ∧ SdaQuiet slave y := by
  obtain ⟨⟨k1, k2, k3, k4, k5, a, d, wl, rl, sf, bf, st, ph, cb, bc, bitc⟩, sda, scl, r⟩ := y
  simp only at hs
  subst hs
  simp only [Low] at h
  obtain ⟨i1, i2⟩ := h
  simp only [ne_eq, not_false_eq_true, reduceCtorEq, forall_const] at i1 i2
  by_cases h0 : ph = 0
  · subst h0
    simp_all [Low, SdaQuiet, tick, bb_i2c_master_edge_processor, edge_switch, phase_increment,
      drive]
  by_cases h1 : ph = 1
  · subst h1
    simp_all [Low, SdaQuiet, tick, bb_i2c_master_edge_processor, edge_switch, phase_increment,
      drive]
  by_cases h2 : ph = 2
  · subst h2
    simp_all [Low, SdaQuiet, tick, bb_i2c_master_edge_processor, edge_switch, phase_increment,
      drive]
  by_cases h3 : ph = 3
  · subst h3
    simp_all [Low, SdaQuiet, tick, bb_i2c_master_edge_processor, edge_switch, phase_increment,
      drive]
  exfalso
  omega

theorem low_tick (slave : Nat → Int) (y : Sys) (h : Low y) :
    Low (tick slave y).1 ∧ SdaQuiet slave y := by
  cases hs : y.inst.state
  · exact low_tick_idle slave y hs h
  · exact low_tick_start slave y hs h
  · exact low_tick_wr_word slave y hs h
  · exact low_tick_rd_word slave y hs h
  · exact low_tick_rd_ack slave y hs h
  · exact low_tick_wr_ack slave y hs h
  · exact low_tick_wr_nack slave y hs h
  · exact low_tick_stop slave y hs h

theorem low_init (y : Sys) (c1 c2 c3 c4 c5 : callback_t) : Low (initSys y c1 c2 c3 c4 c5) := by
  obtain ⟨⟨k1, k2, k3, k4, k5, a, d, wl, rl, sf, bf, st, ph, cb, bc, bitc⟩, sda, scl, r⟩ := y
  simp [Low, initSys, bb_i2c_master_init, drive]

theorem low_armWrite (y : Sys) (addr : uint8_t) (data : Int → uint8_t) (len : Int)
    (mode : bb_i2c_master_mode) (h : Low y) : Low (armWrite y addr data len mode) := by
  obtain ⟨f1, _, _, f4, _, f6⟩ := armWrite_facts y addr data len mode
  unfold Low
  rw [f1, f4, f6]
  exact h

theorem low_armRead (y : Sys) (addr : uint8_t) (data : Int → uint8_t) (len : Int)
    (mode : bb_i2c_master_mode) (h : Low y) : Low (armRead y addr data len mode) := by
  obtain ⟨f1, _, _, f4, _, f6⟩ := armRead_facts y addr data len mode
  unfold Low
  rw [f1, f4, f6]
  exact h

theorem lastSclOp_foldl (es : List Event) : ∀ (y : Sys) (acc : Option Event),
    acc = some (sclOp y.scl) →
    es.foldl (fun acc e =>
      if e = Event.scl_drive_low ∨ e = Event.scl_high_z then some e else acc) acc =
      some (sclOp (es.foldl drive y).scl) := by
  induction es with
  | nil => intro y acc h; exact h
  | cons e es ih =>
    intro y acc h
    rw [List.foldl_cons, List.foldl_cons]
    apply ih
    cases e <;> simp [drive, sclOp, h]

theorem lastSclOp_tick (slave : Nat → Int) (y : Sys) (h : List Event)
    (hl : lastSclOp h = some (sclOp y.scl)) :
    lastSclOp (h ++ (tick slave y).2) = some (sclOp (tick slave y).1.scl) := by
  unfold lastSclOp
  rw [List.foldl_append]
  exact lastSclOp_foldl _ { y with inst := (bb_i2c_master_edge_processor y.inst
    (slave y.reads)).1 } _ hl

theorem lastSclOp_init (y : Sys) (c1 c2 c3 c4 c5 : callback_t) :
    lastSclOp (bb_i2c_master_init y.inst c1 c2 c3 c4 c5).2 =
      some (sclOp (initSys y c1 c2 c3 c4 c5).scl) := by
  obtain ⟨⟨k1, k2, k3, k4, k5, a, d, wl, rl, sf, bf, st, ph, cb, bc, bitc⟩, sda, scl, r⟩ := y
  simp [lastSclOp, sclOp, initSys, bb_i2c_master_init, drive]

theorem good_tick (slave : Nat → Int) (y : Sys) (h : List Event)
    (g : Low y ∧ lastSclOp h = some (sclOp y.scl)) :
    Low (tick slave y).1 ∧
      lastSclOp (h ++ (tick slave y).2) = some (sclOp (tick slave y).1.scl) :=
  ⟨(low_tick slave y g.1).1, lastSclOp_tick slave y h g.2⟩

theorem good_write (y : Sys) (h : List Event) (addr : uint8_t) (data : Int → uint8_t)
    (len : Int) (mode : bb_i2c_master_mode) (g : Low y ∧ lastSclOp h = some (sclOp y.scl)) :
    Low (armWrite y addr data len mode) ∧
      lastSclOp h = some (sclOp (armWrite y addr data len mode).scl) := by
  refine ⟨low_armWrite y addr data len mode g.1, ?_⟩
  rw [(armWrite_facts y addr data len mode).2.2.2.2.2]
  exact g.2

theorem good_read (y : Sys) (h : List Event) (addr : uint8_t) (data : Int → uint8_t)
    (len : Int) (mode : bb_i2c_master_mode) (g : Low y ∧ lastSclOp h = some (sclOp y.scl)) :
    Low (armRead y addr data len mode) ∧
      lastSclOp h = some (sclOp (armRead y addr data len mode).scl) := by
  refine ⟨low_armRead y addr data len mode g.1, ?_⟩
  rw [(armRead_facts y addr data len mode).2.2.2.2.2]
  exact g.2

theorem good_call (p : Sys × List Event) (c : Call)
    (g : Low p.1 ∧ lastSclOp p.2 = some (sclOp p.1.scl)) :
    Low (call p c).1 ∧ lastSclOp (call p c).2 = some (sclOp (call p c).1.scl) := by
  obtain ⟨y, h⟩ := p
  cases c with
  | tick slave => exact good_tick slave y h g
  | write addr data len mode => exact good_write y h addr data len mode g
  | read addr data len mode => exact good_read y h addr data len mode g

theorem run_low (cs : List Call) : ∀ p : Sys × List Event,
    Low p.1 ∧ lastSclOp p.2 = some (sclOp p.1.scl) →
    Low (cs.foldl call p).1 ∧
      lastSclOp (cs.foldl call p).2 = some (sclOp (cs.foldl call p).1.scl) := by
  induction cs with
  | nil => intro p h; exact h
  | cons c cs ih =>
    intro p h
    rw [List.foldl_cons]
    exact ih _ (good_call p c h)

/-- C19. After `bb_i2c_master_init` on any structure and any sequence of ticks (against any
slave) and of calls of `bb_i2c_master_write` and `bb_i2c_master_read`, made whether the
channel is busy or not: if the next tick issues `sda_drive_low` or `sda_high_z` and it is not
the tick of `START` phase 2 or of `STOP` phase 2, then the last operation on SCL issued so
far is `scl_drive_low` (the master holds SCL low), and that SDA operation is the only event
of its tick. -/
theorem C19_sda_moves_while_scl_low (y : Sys) (c1 c2 c3 c4 c5 : callback_t) (cs : List Call)
    (slave : Nat → Int) (e : Event)
    (he : e ∈ (tick slave (run y c1 c2 c3 c4 c5 cs).1).2)
    (hsda : e = Event.sda_drive_low ∨ e = Event.sda_high_z)
    (hx : ¬ (((run y c1 c2 c3 c4 c5 cs).1.inst.state = State.START ∨
        (run y c1 c2 c3 c4 c5 cs).1.inst.state = State.STOP) ∧
      (run y c1 c2 c3 c4 c5 cs).1.inst.phase = 2)) :
    lastSclOp (run y c1 c2 c3 c4 c5 cs).2 = some Event.scl_drive_low ∧
    (run y c1 c2 c3 c4 c5 cs).1.scl = false ∧
    (tick slave (run y c1 c2 c3 c4 c5 cs).1).2 = [e] := by
  obtain ⟨g1, g2⟩ := run_low cs (initSys y c1 c2 c3 c4 c5,
    (bb_i2c_master_init y.inst c1 c2 c3 c4 c5).2) ⟨low_init y c1 c2 c3 c4 c5,
      lastSclOp_init y c1 c2 c3 c4 c5⟩
  obtain ⟨q1, q2⟩ := (low_tick slave (run y c1 c2 c3 c4 c5 cs).1 g1).2 e he hsda hx
  refine ⟨?_, q1, q2⟩
  have g3 : lastSclOp (run y c1 c2 c3 c4 c5 cs).2 =
      some (sclOp (run y c1 c2 c3 c4 c5 cs).1.scl) := g2
  rw [g3, q1]
  rfl

/-- C19, witness: after initialisation, a write to address 0x50 and five ticks, the tick of
`WR_WORD` phase 0 releases SDA for the first address bit while the last SCL operation is
`scl_drive_low`. -/
theorem C19_sda_moves_while_scl_low_witness :
    lastSclOp (run ⟨⟨0, 0, 0, 0, 0, 0, fun _ => 0, 0, 0, 0, 0, State.STOP, 7, 0, 0, 0⟩,
        false, false, 0⟩ 1 2 3 4 5
      [Call.write 0x50 (fun _ => 0xAA) 1 0, Call.tick (fun _ => 0), Call.tick (fun _ => 0),
        Call.tick (fun _ => 0), Call.tick (fun _ => 0), Call.tick (fun _ => 0)]).2 =
      some Event.scl_drive_low :=
  (C19_sda_moves_while_scl_low
    ⟨⟨0, 0, 0, 0, 0, 0, fun _ => 0, 0, 0, 0, 0, State.STOP, 7, 0, 0, 0⟩, false, false, 0⟩
    1 2 3 4 5
    [Call.write 0x50 (fun _ => 0xAA) 1 0, Call.tick (fun _ => 0), Call.tick (fun _ => 0),
      Call.tick (fun _ => 0), Call.tick (fun _ => 0), Call.tick (fun _ => 0)]
    (fun _ => 0) Event.sda_high_z
    (by with_unfolding_all decide)
    (Or.inr rfl)
    (by with_unfolding_all decide)).1

/-! ## Transactions against an arbitrary slave -/

theorem rd_ack_stop (slave : Nat → Int) (y : Sys)
    (hs : y.inst.state = State.RD_ACK) (hp : y.inst.phase = 0)
    (h : slave y.reads ≠ 0 ∨
      (¬ y.inst.byte_cntr < y.inst.write_len ∧ ¬ y.inst.byte_cntr < y.inst.read_len)) :
    ticks slave 4 y =
      { y with inst := { y.inst with state := State.STOP },
               sda := true, scl := false, reads := y.reads + 1 } ∧
    trace slave 4 y =
      cycleObs State.RD_ACK y.inst.busy_flag [Event.sda_high_z] [Event.scl_high_z] []
        [Event.sda_read, Event.scl_drive_low] := by
  by_cases hn : slave y.reads = 0
  · rcases h with h | h
    · exact absurd hn h
    · exact rd_ack_done slave y hs hp hn h.1 h.2
  · exact rd_ack_nack slave y hs hp hn

theorem wr_byte_stop (slave : Nat → Int) (y : Sys) (j : Int)
    (hs : y.inst.state = State.WR_WORD) (hp : y.inst.phase = 0) (hb : y.inst.bit_cntr = 8)
    (h : slave y.reads ≠ 0 ∨
      (¬ y.inst.byte_cntr < y.inst.write_len ∧ ¬ y.inst.byte_cntr < y.inst.read_len)) :
    (ticks slave (36 * (0 + 1)) y).inst.state = State.STOP ∧
    (ticks slave (36 * (0 + 1)) y).inst.phase = 0 ∧
    (ticks slave (36 * (0 + 1)) y).inst.busy_flag = y.inst.busy_flag ∧
    (ticks slave (36 * (0 + 1)) y).inst.data = y.inst.data ∧
    trace slave (36 * (0 + 1)) y =
      wrBytesObs y.inst.busy_flag y.inst.data 0 j y.inst.current_byte := by
  obtain ⟨h1, h2⟩ := wr_word_byte slave 7 (by norm_num) y hs hp (by rw [hb]; norm_num)
  have e32 : 4 * (7 + 1) = 32 := rfl
  rw [e32] at h1 h2
  have h' : slave (ticks slave 32 y).reads ≠ 0 ∨
      (¬ (ticks slave 32 y).inst.byte_cntr < (ticks slave 32 y).inst.write_len ∧
        ¬ (ticks slave 32 y).inst.byte_cntr < (ticks slave 32 y).inst.read_len) := by
    rw [h1]
    exact h
  obtain ⟨k1, k2⟩ := rd_ack_stop slave (ticks slave 32 y) (by rw [h1])
    (by rw [h1]; exact hp) h'
  have e36 : 36 * (0 + 1) = 32 + 4 := rfl
  rw [e36, ticks_add, trace_add, k1, k2, h2]
  refine ⟨rfl, ?_, ?_, ?_, ?_⟩
  · rw [h1]; exact hp
  · rw [h1]
  · rw [h1]
  · rw [h1]; rfl

theorem wr_loop_any (slave : Nat → Int) (m : Nat) :
    ∀ (y : Sys) (j : Int), y.inst.state = State.WR_WORD → y.inst.phase = 0 →
      y.inst.bit_cntr = 8 → y.inst.byte_cntr = j → y.inst.write_len ≤ j + (m : Int) →
      y.inst.write_len < 2147483648 → y.inst.read_len ≤ j → 0 ≤ j →
      ∃ i : Nat, i ≤ m ∧
        (ticks slave (36 * (i + 1)) y).inst.state = State.STOP ∧
        (ticks slave (36 * (i + 1)) y).inst.phase = 0 ∧
        (ticks slave (36 * (i + 1)) y).inst.busy_flag = y.inst.busy_flag ∧
        (ticks slave (36 * (i + 1)) y).inst.data = y.inst.data ∧
        trace slave (36 * (i + 1)) y =
          wrBytesObs y.inst.busy_flag y.inst.data i j y.inst.current_byte := by
  induction m with
  | zero =>
    intro y j hs hp hb hj hw hlt hr h0
    refine ⟨0, le_refl 0, wr_byte_stop slave y j hs hp hb (Or.inr ⟨?_, ?_⟩)⟩
    · rw [hj]; push_cast at hw; omega
    · rw [hj]; omega
  | succ m ih =>
    intro y j hs hp hb hj hw hlt hr h0
    by_cases hc : slave y.reads = 0 ∧ y.inst.byte_cntr < y.inst.write_len
    · obtain ⟨hack, hlw⟩ := hc
      obtain ⟨h1, h2⟩ := wr_word_byte slave 7 (by norm_num) y hs hp (by rw [hb]; norm_num)
      have e32 : 4 * (7 + 1) = 32 := rfl
      rw [e32] at h1 h2
      have hw' : (ticks slave 32 y).inst.byte_cntr < (ticks slave 32 y).inst.write_len := by
        rw [h1]; exact hlw
      have ha' : slave (ticks slave 32 y).reads = 0 := by rw [h1]; exact hack
      obtain ⟨k1, k2⟩ := rd_ack_load slave (ticks slave 32 y) (by rw [h1])
        (by rw [h1]; exact hp) ha' hw'
      have hbc : (ticks slave 32 y).inst.byte_cntr = j := by rw [h1]; exact hj
      have hwrap : wrapInt (j + 1) = j + 1 :=
        wrapInt_of_range (by omega) (by rw [hj] at hlw; omega)
      have hdata : (ticks slave 32 y).inst.data = y.inst.data := by rw [h1]
      have hbusy : (ticks slave 32 y).inst.busy_flag = y.inst.busy_flag := by rw [h1]
      have hwl : (ticks slave 32 y).inst.write_len = y.inst.write_len := by rw [h1]
      have hrl : (ticks slave 32 y).inst.read_len = y.inst.read_len := by rw [h1]
      have hph : (ticks slave 32 y).inst.phase = 0 := by rw [h1]; exact hp
      rw [hbc, hwrap, hdata] at k1
      rw [hbc, hbusy] at k2
      obtain ⟨i, hi, r1, r2, r3, r4, r5⟩ := ih (ticks slave 4 (ticks slave 32 y)) (j + 1)
        (by rw [k1]) (by rw [k1]; exact hph) (by rw [k1]) (by rw [k1])
        (by rw [k1]; show (ticks slave 32 y).inst.write_len ≤ _
            rw [hwl]; push_cast at hw; omega)
        (by rw [k1]; show (ticks slave 32 y).inst.write_len < _
            rw [hwl]; exact hlt)
        (by rw [k1]; show (ticks slave 32 y).inst.read_len ≤ _
            rw [hrl]; omega)
        (by omega)
      have e36 : 36 * (i + 1 + 1) = 32 + (4 + 36 * (i + 1)) := by ring
      have q3 : (ticks slave 4 (ticks slave 32 y)).inst.busy_flag = y.inst.busy_flag := by
        rw [k1]; exact hbusy
      have q4 : (ticks slave 4 (ticks slave 32 y)).inst.data = y.inst.data := by
        rw [k1]; exact hdata
      have q5 : (ticks slave 4 (ticks slave 32 y)).inst.current_byte =
          ((y.inst.data j).val : Int) := by rw [k1]
      refine ⟨i + 1, Nat.succ_le_succ hi, ?_⟩
      rw [e36, ticks_add, ticks_add, trace_add, trace_add]
      refine ⟨r1, r2, r3.trans q3, r4.trans q4, ?_⟩
      rw [r5, q3, q4, q5, h2, k2]
      simp [wrBytesObs, rdAckObs]
    · refine ⟨0, Nat.zero_le _, wr_byte_stop slave y j hs hp hb ?_⟩
      by_cases hn : slave y.reads = 0
      · refine Or.inr ⟨fun hlw => hc ⟨hn, hlw⟩, ?_⟩
        rw [hj]; omega
      · exact Or.inl hn

theorem short_transaction (slave : Nat → Int) (y : Sys)
    (hs : y.inst.state = State.IDLE) (hf : y.inst.start_flag ≠ 0)
    (hw : y.inst.write_len < 2147483648) (hr : y.inst.read_len ≤ 0) :
    ∃ i : Nat, (i : Int) ≤ max y.inst.write_len 0 ∧
      (ticks slave (45 + 36 * i) y).inst.state = State.IDLE ∧
      (ticks slave (45 + 36 * i) y).inst.busy_flag = 0 ∧
      (ticks slave (45 + 36 * i) y).inst.data = y.inst.data ∧
      trace slave (45 + 36 * i) y =
        startObs y.inst.phase y.inst.busy_flag ++
          (wrBytesObs y.inst.busy_flag y.inst.data i 0 y.inst.addr_rw ++
            stopObs y.inst.busy_flag) := by
  have ht := idle_start_tick slave y hs hf
  have o1 : observe slave y = ⟨State.IDLE, y.inst.phase, y.inst.busy_flag, []⟩ := by
    simp [observe, hs, ht]
  have a1 : (ticks slave 1 y).inst.state = State.START := by rw [ticks_one, ht]
  have a2 : (ticks slave 1 y).inst.phase = 0 := by rw [ticks_one, ht]
  have a3 : (ticks slave 1 y).inst.busy_flag = y.inst.busy_flag := by rw [ticks_one, ht]
  have a4 : (ticks slave 1 y).inst.data = y.inst.data := by rw [ticks_one, ht]
  have a5 : (ticks slave 1 y).inst.write_len = y.inst.write_len := by rw [ticks_one, ht]
  have a6 : (ticks slave 1 y).inst.read_len = y.inst.read_len := by rw [ticks_one, ht]
  have a7 : (ticks slave 1 y).inst.addr_rw = y.inst.addr_rw := by rw [ticks_one, ht]
  have a8 : (ticks slave 1 y).inst.byte_cntr = 0 := by rw [ticks_one, ht]
  obtain ⟨b1, b2⟩ := start_block slave (ticks slave 1 y) a1 a2
  have c1 : (ticks slave 4 (ticks slave 1 y)).inst.state = State.WR_WORD := by rw [b1]
  have c2 : (ticks slave 4 (ticks slave 1 y)).inst.phase = 0 := by rw [b1]; exact a2
  have c3 : (ticks slave 4 (ticks slave 1 y)).inst.busy_flag = y.inst.busy_flag := by
    rw [b1]; exact a3
  have c4 : (ticks slave 4 (ticks slave 1 y)).inst.data = y.inst.data := by rw [b1]; exact a4
  have c5 : (ticks slave 4 (ticks slave 1 y)).inst.write_len = y.inst.write_len := by
    rw [b1]; exact a5
  have c6 : (ticks slave 4 (ticks slave 1 y)).inst.read_len ≤ 0 := by
    rw [b1]; show (ticks slave 1 y).inst.read_len ≤ 0
    rw [a6]; exact hr
  have c7 : (ticks slave 4 (ticks slave 1 y)).inst.current_byte = y.inst.addr_rw := by
    rw [b1]; exact a7
  have c8 : (ticks slave 4 (ticks slave 1 y)).inst.byte_cntr = 0 := by rw [b1]; exact a8
  have c9 : (ticks slave 4 (ticks slave 1 y)).inst.bit_cntr = 8 := by rw [b1]
  have hm : ((max y.inst.write_len 0).toNat : Int) = max y.inst.write_len 0 :=
    Int.toNat_of_nonneg (le_max_right _ _)
  obtain ⟨i, hi, d1, d2, d3, d4, d5⟩ := wr_loop_any slave (max y.inst.write_len 0).toNat
    (ticks slave 4 (ticks slave 1 y)) 0 c1 c2 c9 c8
    (by rw [c5, hm, zero_add]; exact le_max_left _ _) (by rw [c5]; exact hw) c6 (le_refl 0)
  rw [c3, c4, c7] at d5
  obtain ⟨s1, s2⟩ := stop_block slave _ d1 d2
  have e : 45 + 36 * i = 1 + (4 + (36 * (i + 1) + 4)) := by ring
  refine ⟨i, ?_, ?_⟩
  · rw [← hm]; exact Int.ofNat_le.mpr hi
  rw [e, ticks_add, ticks_add, ticks_add, trace_add, trace_add, trace_add, s1, s2, d5, b2,
    trace_one, o1, d3, c3, a3]
  refine ⟨rfl, rfl, ?_, ?_⟩
  · exact d4.trans c4
  · simp [startObs, stopObs]

theorem read_any (slave : Nat → Int) (y : Sys)
    (hs : y.inst.state = State.IDLE) (hf : y.inst.start_flag ≠ 0)
    (hw : y.inst.write_len ≤ 0) (hr : y.inst.read_len < 2147483648) :
    ∃ (k : Nat) (tail : List Obs),
      (ticks slave k y).inst.state = State.IDLE ∧
      (ticks slave k y).inst.busy_flag = 0 ∧
      trace slave k y =
        startObs y.inst.phase y.inst.busy_flag ++
          (wrWordObs y.inst.busy_flag 8 y.inst.addr_rw ++
            (rdAckObs y.inst.busy_flag [Event.sda_read, Event.scl_drive_low] ++
              (tail ++ stopObs y.inst.busy_flag))) ∧
      ((k = 45 ∧ tail = [] ∧ (ticks slave k y).inst.data = y.inst.data) ∨
        ∃ m : Nat, y.inst.read_len = (m : Int) + 1 ∧ k = 45 + 36 * (m + 1) ∧
          tail = rdBytesObs y.inst.busy_flag m 0) := by
  by_cases hn : slave y.reads = 0
  · by_cases hl : y.inst.read_len ≤ 0
    · obtain ⟨i, hi, t1, t2, t3, t4⟩ := short_transaction slave y hs hf (by omega) hl
      have hi0 : i = 0 := by
        have : max y.inst.write_len 0 = 0 := max_eq_right hw
        omega
      subst hi0
      refine ⟨45, [], t1, t2, ?_, Or.inl ⟨rfl, rfl, t3⟩⟩
      have e : 45 + 36 * 0 = 45 := rfl
      rw [e] at t4
      rw [t4]
      simp [wrBytesObs]
    · obtain ⟨m, hm⟩ : ∃ m : Nat, y.inst.read_len = (m : Int) + 1 :=
        ⟨(y.inst.read_len - 1).toNat, by omega⟩
      obtain ⟨t1, t2, _, t4⟩ := read_transaction slave m (by omega) y hs hf hw hm hn
      exact ⟨45 + 36 * (m + 1), rdBytesObs y.inst.busy_flag m 0, t1, t2, t4,
        Or.inr ⟨m, hm, rfl, rfl⟩⟩
  · obtain ⟨t1, t2, t3, t4⟩ := nack_transaction slave y hs hf hn
    refine ⟨45, [], t1, t2, ?_, Or.inl ⟨rfl, rfl, t3⟩⟩
    rw [t4]
    simp

theorem foldl_drive_inst (es : List Event) : ∀ y : Sys, (es.foldl drive y).inst = y.inst := by
  induction es with
  | nil => intro y; rfl
  | cons e es ih =>
    intro y
    rw [List.foldl_cons, ih]
    cases e <;> rfl

theorem tick_inst (slave : Nat → Int) (y : Sys) :
    (tick slave y).1.inst = (bb_i2c_master_edge_processor y.inst (slave y.reads)).1 := by
  unfold tick
  exact foldl_drive_inst _ _

theorem switch_start_flag (inst : bb_i2c_master_t) (sda : Int) (h : inst.start_flag = 0) :
    (edge_switch inst sda).1.start_flag = 0 := by
  obtain ⟨k1, k2, k3, k4, k5, a, d, wl, rl, sf, bf, st, ph, cb, bc, bitc⟩ := inst
  simp only at h
  subst h
  cases st <;> simp only [edge_switch] <;> split_ifs <;> rfl

theorem tick_start_flag (slave : Nat → Int) (y : Sys) (h : y.inst.start_flag = 0) :
    (tick slave y).1.inst.start_flag = 0 := by
  rw [tick_inst]
  exact switch_start_flag y.inst (slave y.reads) h

theorem ticks_start_flag (slave : Nat → Int) (n : Nat) :
    ∀ y : Sys, y.inst.start_flag = 0 → (ticks slave n y).inst.start_flag = 0 := by
  induction n with
  | zero => intro y h; rw [ticks_zero]; exact h
  | succ n ih =>
    intro y h
    rw [ticks_succ]
    exact ih _ (tick_start_flag slave y h)

theorem armed_start_flag (slave : Nat → Int) (y : Sys)
    (hs : y.inst.state = State.IDLE) (hf : y.inst.start_flag ≠ 0) (k : Nat) :
    (ticks slave (k + 1) y).inst.start_flag = 0 := by
  rw [ticks_succ]
  apply ticks_start_flag
  rw [idle_start_tick slave y hs hf]

theorem idle_trace (slave : Nat → Int) (n : Nat) :
    ∀ y : Sys, y.inst.state = State.IDLE → y.inst.start_flag = 0 →
      ∀ o ∈ trace slave n y, o.state = State.IDLE ∧ o.events = [] := by
  induction n with
  | zero =>
    intro y _ _ o ho
    rw [trace_zero] at ho
    exact absurd ho (List.not_mem_nil o)
  | succ n ih =>
    intro y hs hf o ho
    have ht := idle_tick_withPhase slave y hs hf
    obtain ⟨w1, w2, _, _, _⟩ := withPhase_fields y ((y.inst.phase + 1) % 4)
    rw [trace_succ, List.mem_cons] at ho
    rcases ho with h | h
    · rw [h]
      refine ⟨hs, ?_⟩
      show (tick slave y).2 = []
      rw [ht]
    · rw [ht] at h
      exact ih _ (w1.trans hs) (w2.trans hf) o h

theorem trace_mem_cases (slave : Nat → Int) (k n : Nat) (y : Sys) (o : Obs)
    (h : o ∈ trace slave n y) :
    o ∈ trace slave k y ∨ o ∈ trace slave (n - k) (ticks slave k y) := by
  by_cases hk : n ≤ k
  · left
    have e : k = n + (k - n) := by omega
    rw [e, trace_add]
    exact List.mem_append_left _ h
  · have e : n = k + (n - k) := by omega
    rw [e, trace_add, List.mem_append] at h
    exact h

theorem after_transaction (slave : Nat → Int) (y : Sys)
    (hs : y.inst.state = State.IDLE) (hf : y.inst.start_flag ≠ 0) (k : Nat) (hk : 1 ≤ k)
    (he : (ticks slave k y).inst.state = State.IDLE) (n : Nat) :
    ∀ o ∈ trace slave n (ticks slave k y), o.state = State.IDLE ∧ o.events = [] := by
  have e : k = (k - 1) + 1 := by omega
  have hz : (ticks slave k y).inst.start_flag = 0 := by
    rw [e]
    exact armed_start_flag slave y hs hf (k - 1)
  exact idle_trace slave n _ he hz

/-! ## Every transaction returns to IDLE -/

theorem busy_before (slave : Nat → Int) (k : Nat) (y : Sys) (b : Int)
    (hb : ∀ o ∈ trace slave k y, o.busy = b) :
    ∀ k1, k1 < k → (ticks slave k1 y).inst.busy_flag = b :=
  fun k1 hk => hb _ (observe_mem_trace slave k k1 hk y)

theorem stopObs_busy (busy : Int) : ∀ o ∈ stopObs busy, o.busy = busy :=
  fun _ h => (cycleObs_mem h).2

theorem rdAckObs_busy (busy : Int) (e3 : List Event) : ∀ o ∈ rdAckObs busy e3, o.busy = busy :=
  fun _ h => (cycleObs_mem h).2

theorem short_shape_busy (phase busy : Int) (data : Int → uint8_t) (i : Nat) (c : Int) :
    ∀ o ∈ startObs phase busy ++ (wrBytesObs busy data i 0 c ++ stopObs busy),
      o.busy = busy := by
  intro o ho
  rw [List.mem_append, List.mem_append] at ho
  rcases ho with h | h | h
  · exact startObs_busy _ _ _ h
  · exact wrBytesObs_busy _ _ _ _ _ _ h
  · exact stopObs_busy _ _ h

theorem read_shape_busy (phase busy : Int) (c : Int) (tail : List Obs)
    (ht : ∀ o ∈ tail, o.busy = busy) :
    ∀ o ∈ startObs phase busy ++ (wrWordObs busy 8 c ++
        (rdAckObs busy [Event.sda_read, Event.scl_drive_low] ++ (tail ++ stopObs busy))),
      o.busy = busy := by
  intro o ho
  rw [List.mem_append, List.mem_append, List.mem_append, List.mem_append] at ho
  rcases ho with h | h | h | h | h
  · exact startObs_busy _ _ _ h
  · exact wrWordObs_busy _ _ _ _ h
  · exact rdAckObs_busy _ _ _ h
  · exact ht _ h
  · exact stopObs_busy _ _ h

theorem read_tail_busy (busy : Int) (rl : Int) (k : Nat) (tail : List Obs)
    (h : (k = 45 ∧ tail = []) ∨
      ∃ m : Nat, rl = (m : Int) + 1 ∧ k = 45 + 36 * (m + 1) ∧ tail = rdBytesObs busy m 0) :
    (∀ o ∈ tail, o.busy = busy) ∧ 45 ≤ k ∧ (k : Int) ≤ 45 + 36 * max rl 0 := by
  rcases h with ⟨h1, h2⟩ | ⟨m, h1, h2, h3⟩
  · subst h1 h2
    refine ⟨fun o ho => absurd ho (List.not_mem_nil o), le_refl _, ?_⟩
    have : (0 : Int) ≤ max rl 0 := le_max_right _ _
    push_cast
    omega
  · subst h2 h3
    refine ⟨rdBytesObs_busy _ _ _, by omega, ?_⟩
    have : rl ≤ max rl 0 := le_max_left _ _
    push_cast
    omega

/-- C12. For every length `len` that an `int` holds (negative and zero included), every
address, buffer and mode, and every slave (every sequence of values returned by `sda_read`),
a transaction armed by `bb_i2c_master_write` or by `bb_i2c_master_read` on a channel in
`IDLE` has a number of ticks `k` with `45 ≤ k ≤ 45 + 36 * max len 0` such that the busy flag
is set after each of the first `k - 1` ticks (and before the first), and after tick `k` the
busy flag is clear and the state is `IDLE`. -/
theorem C12_transaction_returns_to_idle (slave : Nat → Int) (y : Sys)
    (hs : y.inst.state = State.IDLE) (addr : uint8_t) (data : Int → uint8_t) (len : Int)
    (mode : bb_i2c_master_mode) (hlen : len < 2147483648) :
    (∃ k : Nat, 45 ≤ k ∧ (k : Int) ≤ 45 + 36 * max len 0 ∧
      (∀ k1, k1 < k → (ticks slave k1 (armWrite y addr data len mode)).inst.busy_flag ≠ 0) ∧
      (ticks slave k (armWrite y addr data len mode)).inst.busy_flag = 0 ∧
      (ticks slave k (armWrite y addr data len mode)).inst.state = State.IDLE) ∧
    (∃ k : Nat, 45 ≤ k ∧ (k : Int) ≤ 45 + 36 * max len 0 ∧
      (∀ k1, k1 < k → (ticks slave k1 (armRead y addr data len mode)).inst.busy_flag ≠ 0) ∧
      (ticks slave k (armRead y addr data len mode)).inst.busy_flag = 0 ∧
      (ticks slave k (armRead y addr data len mode)).inst.state = State.IDLE) := by
  constructor
  · obtain ⟨f1, f2, f3, _, _, _⟩ := armWrite_facts y addr data len mode
    obtain ⟨g1, g2, _, _⟩ := armWrite_params y addr data len mode
    obtain ⟨i, hi, t1, t2, _, t4⟩ := short_transaction slave (armWrite y addr data len mode)
      (f1.trans hs) (by rw [f2]; decide) (by rw [g1]; exact hlen) (by rw [g2])
    rw [g1] at hi
    refine ⟨45 + 36 * i, by omega, by push_cast; omega, ?_, t2, t1⟩
    intro k1 hk
    have hb := busy_before slave _ _ (armWrite y addr data len mode).inst.busy_flag
      (by rw [t4]; exact short_shape_busy _ _ _ _ _) k1 hk
    rw [hb, f3]
    decide
  · obtain ⟨f1, f2, f3, _, _, _⟩ := armRead_facts y addr data len mode
    obtain ⟨g1, g2, _, _⟩ := armRead_params y addr data len mode
    obtain ⟨k, tail, t1, t2, t3, t4⟩ := read_any slave (armRead y addr data len mode)
      (f1.trans hs) (by rw [f2]; decide) (by rw [g1]) (by rw [g2]; exact hlen)
    rw [g2] at t4
    obtain ⟨u1, u2, u3⟩ := read_tail_busy (armRead y addr data len mode).inst.busy_flag len k
      tail (by
        rcases t4 with ⟨a, b, _⟩ | h
        · exact Or.inl ⟨a, b⟩
        · exact Or.inr h)
    refine ⟨k, u2, u3, ?_, t2, t1⟩
    intro k1 hk
    have hb := busy_before slave _ _ (armRead y addr data len mode).inst.busy_flag
      (by rw [t3]; exact read_shape_busy _ _ _ _ u1) k1 hk
    rw [hb, f3]
    decide

/-- C12, witness: a write of two bytes armed on an idle channel against a slave that
acknowledges nothing. -/
theorem C12_transaction_returns_to_idle_witness :
    ∃ k : Nat, 45 ≤ k ∧ (k : Int) ≤ 45 + 36 * max 2 0 ∧
      (∀ k1, k1 < k → (ticks (fun _ => 1) k1 (armWrite
        ⟨⟨0, 0, 0, 0, 0, 0, fun _ => 0, 0, 0, 0, 0, State.IDLE, 2, 0, 0, 0⟩, true, true, 0⟩
        0x50 (fun _ => 0xAA) 2 0)).inst.busy_flag ≠ 0) ∧
      (ticks (fun _ => 1) k (armWrite
        ⟨⟨0, 0, 0, 0, 0, 0, fun _ => 0, 0, 0, 0, 0, State.IDLE, 2, 0, 0, 0⟩, true, true, 0⟩
        0x50 (fun _ => 0xAA) 2 0)).inst.busy_flag = 0 ∧
      (ticks (fun _ => 1) k (armWrite
        ⟨⟨0, 0, 0, 0, 0, 0, fun _ => 0, 0, 0, 0, 0, State.IDLE, 2, 0, 0, 0⟩, true, true, 0⟩
        0x50 (fun _ => 0xAA) 2 0)).inst.state = State.IDLE :=
  (C12_transaction_returns_to_idle (fun _ => 1)
    ⟨⟨0, 0, 0, 0, 0, 0, fun _ => 0, 0, 0, 0, 0, State.IDLE, 2, 0, 0, 0⟩, true, true, 0⟩ rfl
    0x50 (fun _ => 0xAA) 2 0 (by decide)).1

/-! ## Shape of the transactions armed through the two entry points -/

theorem wrWordObs_mem (busy : Int) (k : Nat) (c : Int) :
    ∀ o ∈ wrWordObs busy k c, o.state = State.WR_WORD := by
  induction k generalizing c with
  | zero => intro o ho; simp [wrWordObs] at ho
  | succ k ih =>
    intro o ho
    rw [wrWordObs, List.mem_append] at ho
    rcases ho with h | h
    · exact (cycleObs_mem h).1
    · exact ih _ o h

theorem cycleObs_events {st : State} {busy : Int} {e0 e1 e2 e3 : List Event} {o : Obs}
    (h : o ∈ cycleObs st busy e0 e1 e2 e3) :
    o.events = e0 ∨ o.events = e1 ∨ o.events = e2 ∨ o.events = e3 := by
  simp only [cycleObs, List.mem_cons, List.mem_singleton, List.not_mem_nil, or_false] at h
  rcases h with h | h | h | h <;> rw [h] <;> simp

theorem rdWordObs_mem (busy : Int) (j : Int) (n : Nat) :
    ∀ o ∈ rdWordObs busy j n, o.state = State.RD_WORD ∧ ∀ i, Event.data_load i ∉ o.events := by
  induction n with
  | zero =>
    intro o ho
    rw [rdWordObs] at ho
    refine ⟨(cycleObs_mem ho).1, fun i => ?_⟩
    rcases cycleObs_events ho with h | h | h | h <;> rw [h] <;> simp
  | succ n ih =>
    intro o ho
    rw [rdWordObs, List.mem_append] at ho
    rcases ho with h | h
    · refine ⟨(cycleObs_mem h).1, fun i => ?_⟩
      rcases cycleObs_events h with h | h | h | h <;> rw [h] <;> simp
    · exact ih o h

theorem rdBytesObs_mem (busy : Int) (m : Nat) (j : Int) :
    ∀ o ∈ rdBytesObs busy m j,
      (o.state = State.RD_WORD ∨ o.state = State.WR_ACK ∨ o.state = State.WR_NACK) ∧
      ∀ i, Event.data_load i ∉ o.events := by
  induction m generalizing j with
  | zero =>
    intro o ho
    rw [rdBytesObs, List.mem_append] at ho
    rcases ho with h | h
    · exact ⟨Or.inl (rdWordObs_mem _ _ _ o h).1, (rdWordObs_mem _ _ _ o h).2⟩
    · refine ⟨Or.inr (Or.inr (cycleObs_mem h).1), fun i => ?_⟩
      rcases cycleObs_events h with h | h | h | h <;> rw [h] <;> simp
  | succ m ih =>
    intro o ho
    rw [rdBytesObs, List.mem_append, List.mem_append] at ho
    rcases ho with (h | h) | h
    · exact ⟨Or.inl (rdWordObs_mem _ _ _ o h).1, (rdWordObs_mem _ _ _ o h).2⟩
    · refine ⟨Or.inr (Or.inl (cycleObs_mem h).1), fun i => ?_⟩
      rcases cycleObs_events h with h | h | h | h <;> rw [h] <;> simp
    · exact ih _ o h

theorem wrBytesObs_mem (busy : Int) (data : Int → uint8_t) (m : Nat) (j c : Int) :
    ∀ o ∈ wrBytesObs busy data m j c,
      (o.state = State.WR_WORD ∨ o.state = State.RD_ACK) ∧
      ∀ i, Event.data_store i ∉ o.events := by
  induction m generalizing j c with
  | zero =>
    intro o ho
    rw [wrBytesObs, List.mem_append] at ho
    rcases ho with h | h
    · exact ⟨Or.inl (wrWordObs_mem _ _ _ o h), fun i => (wrWordObs_no_access _ _ _ o h i).1⟩
    · refine ⟨Or.inr (cycleObs_mem h).1, fun i => ?_⟩
      rcases cycleObs_events h with h | h | h | h <;> rw [h] <;> simp
  | succ m ih =>
    intro o ho
    rw [wrBytesObs, List.mem_append, List.mem_append] at ho
    rcases ho with (h | h) | h
    · exact ⟨Or.inl (wrWordObs_mem _ _ _ o h), fun i => (wrWordObs_no_access _ _ _ o h i).1⟩
    · refine ⟨Or.inr (cycleObs_mem h).1, fun i => ?_⟩
      rcases cycleObs_events h with h | h | h | h <;> rw [h] <;> simp
    · exact ih _ _ o h

theorem startObs_mem (phase busy : Int) :
    ∀ o ∈ startObs phase busy, (o.state = State.IDLE ∨ o.state = State.START) ∧
      ∀ i, Event.data_store i ∉ o.events ∧ Event.data_load i ∉ o.events := by
  intro o ho
  rw [startObs, List.mem_cons] at ho
  rcases ho with h | h
  · rw [h]
    exact ⟨Or.inl rfl, fun i => by simp⟩
  · refine ⟨Or.inr (cycleObs_mem h).1, fun i => ?_⟩
    rcases cycleObs_events h with h | h | h | h <;> rw [h] <;> simp

theorem stopObs_mem (busy : Int) :
    ∀ o ∈ stopObs busy, o.state = State.STOP ∧
      ∀ i, Event.data_store i ∉ o.events ∧ Event.data_load i ∉ o.events := by
  intro o ho
  refine ⟨(cycleObs_mem ho).1, fun i => ?_⟩
  rcases cycleObs_events ho with h | h | h | h <;> rw [h] <;> simp

theorem rdAckObs_mem (busy : Int) :
    ∀ o ∈ rdAckObs busy [Event.sda_read, Event.scl_drive_low], o.state = State.RD_ACK ∧
      ∀ i, Event.data_store i ∉ o.events ∧ Event.data_load i ∉ o.events := by
  intro o ho
  refine ⟨(cycleObs_mem ho).1, fun i => ?_⟩
  rcases cycleObs_events ho with h | h | h | h <;> rw [h] <;> simp

theorem short_shape_mem (phase busy : Int) (data : Int → uint8_t) (i : Nat) (c : Int) :
    ∀ o ∈ startObs phase busy ++ (wrBytesObs busy data i 0 c ++ stopObs busy),
      (o.state ≠ State.RD_WORD ∧ o.state ≠ State.WR_ACK ∧ o.state ≠ State.WR_NACK) ∧
      ∀ t, Event.data_store t ∉ o.events := by
  intro o ho
  rw [List.mem_append, List.mem_append] at ho
  rcases ho with h | h | h
  · obtain ⟨a, b⟩ := startObs_mem _ _ o h
    refine ⟨?_, fun t => (b t).1⟩
    rcases a with a | a <;> rw [a] <;> decide
  · obtain ⟨a, b⟩ := wrBytesObs_mem _ _ _ _ _ o h
    refine ⟨?_, b⟩
    rcases a with a | a <;> rw [a] <;> decide
  · obtain ⟨a, b⟩ := stopObs_mem _ o h
    refine ⟨?_, fun t => (b t).1⟩
    rw [a]
    decide

theorem read_shape_mem (phase busy : Int) (c : Int) (tail : List Obs)
    (ht : ∀ o ∈ tail, o.state ≠ State.WR_WORD ∧ ∀ t, Event.data_load t ∉ o.events) :
    ∀ o ∈ startObs phase busy ++ (wrWordObs busy 8 c ++
        (rdAckObs busy [Event.sda_read, Event.scl_drive_low] ++ (tail ++ stopObs busy))),
      ∀ t, Event.data_load t ∉ o.events := by
  intro o ho
  rw [List.mem_append, List.mem_append, List.mem_append, List.mem_append] at ho
  rcases ho with h | h | h | h | h
  · exact fun t => ((startObs_mem _ _ o h).2 t).2
  · exact fun t => (wrWordObs_no_access _ _ _ o h t).2
  · exact fun t => ((rdAckObs_mem _ o h).2 t).2
  · exact (ht o h).2
  · exact fun t => ((stopObs_mem _ o h).2 t).2

theorem filter_transmit_nil (l : List Obs) (h : ∀ o ∈ l, o.state ≠ State.WR_WORD) :
    l.filter isTransmit = [] := by
  rw [List.filter_eq_nil_iff]
  intro o ho
  simp [isTransmit, h o ho]

theorem filter_transmit_self (l : List Obs) (h : ∀ o ∈ l, o.state = State.WR_WORD) :
    l.filter isTransmit = l := by
  rw [List.filter_eq_self]
  intro o ho
  simp [isTransmit, h o ho]

theorem read_shape_transmit (phase busy : Int) (c : Int) (tail : List Obs)
    (ht : ∀ o ∈ tail, o.state ≠ State.WR_WORD ∧ ∀ t, Event.data_load t ∉ o.events) :
    (startObs phase busy ++ (wrWordObs busy 8 c ++
        (rdAckObs busy [Event.sda_read, Event.scl_drive_low] ++
          (tail ++ stopObs busy)))).filter isTransmit = wrWordObs busy 8 c := by
  rw [List.filter_append, List.filter_append, List.filter_append, List.filter_append,
    filter_transmit_self _ (wrWordObs_mem busy 8 c),
    filter_transmit_nil tail (fun o ho => (ht o ho).1),
    filter_transmit_nil (startObs phase busy) (fun o ho => by
      rcases (startObs_mem _ _ o ho).1 with a | a <;> rw [a] <;> decide),
    filter_transmit_nil (rdAckObs busy _) (fun o ho => by
      rw [(rdAckObs_mem _ o ho).1]; decide),
    filter_transmit_nil (stopObs busy) (fun o ho => by
      rw [(stopObs_mem _ o ho).1]; decide)]
  simp

theorem read_tail_mem (busy : Int) (rl : Int) (k : Nat) (tail : List Obs)
    (h : (k = 45 ∧ tail = []) ∨
      ∃ m : Nat, rl = (m : Int) + 1 ∧ k = 45 + 36 * (m + 1) ∧ tail = rdBytesObs busy m 0) :
    ∀ o ∈ tail, o.state ≠ State.WR_WORD ∧ ∀ t, Event.data_load t ∉ o.events := by
  rcases h with ⟨_, h2⟩ | ⟨m, _, _, h3⟩
  · subst h2
    exact fun o ho => absurd ho (List.not_mem_nil o)
  · subst h3
    intro o ho
    obtain ⟨a, b⟩ := rdBytesObs_mem _ _ _ o ho
    refine ⟨?_, b⟩
    rcases a with a | a | a <;> rw [a] <;> decide

theorem idle_filter_transmit (l : List Obs)
    (h : ∀ o ∈ l, o.state = State.IDLE ∧ o.events = []) : l.filter isTransmit = [] :=
  filter_transmit_nil l (fun o ho => by rw [(h o ho).1]; decide)

/-- C17. On a channel in `IDLE`, for every address, buffer, length `len` that an `int` holds,
mode and slave: after `bb_i2c_master_write`, no tick, however many are run, is made in
`RD_WORD`, `WR_ACK` or `WR_NACK`, and no tick stores into the buffer; after
`bb_i2c_master_read`, no tick loads a byte of the buffer, and once the busy flag has
cleared the ticks made in `WR_WORD` are exactly the 32 ticks that send the address byte
`addr_rw`, however many ticks follow. -/
theorem C17_no_write_then_read (slave : Nat → Int) (y : Sys)
    (hs : y.inst.state = State.IDLE) (addr : uint8_t) (data : Int → uint8_t) (len : Int)
    (mode : bb_i2c_master_mode) (hlen : len < 2147483648) :
    (∀ n, ∀ o ∈ trace slave n (armWrite y addr data len mode),
      (o.state ≠ State.RD_WORD ∧ o.state ≠ State.WR_ACK ∧ o.state ≠ State.WR_NACK) ∧
      ∀ t, Event.data_store t ∉ o.events) ∧
    (∀ n, ∀ o ∈ trace slave n (armRead y addr data len mode),
      ∀ t, Event.data_load t ∉ o.events) ∧
    (∃ k : Nat, (ticks slave k (armRead y addr data len mode)).inst.busy_flag = 0 ∧
      ∀ n, (trace slave (k + n) (armRead y addr data len mode)).filter isTransmit =
        wrWordObs 1 8 (armRead y addr data len mode).inst.addr_rw) := by
  refine ⟨?_, ?_⟩
  · obtain ⟨f1, f2, f3, _, _, _⟩ := armWrite_facts y addr data len mode
    obtain ⟨g1, g2, _, _⟩ := armWrite_params y addr data len mode
    obtain ⟨i, hi, t1, t2, _, t4⟩ := short_transaction slave (armWrite y addr data len mode)
      (f1.trans hs) (by rw [f2]; decide) (by rw [g1]; exact hlen) (by rw [g2])
    intro n o ho
    rcases trace_mem_cases slave (45 + 36 * i) n _ o ho with h | h
    · rw [t4] at h
      exact short_shape_mem _ _ _ _ _ o h
    · obtain ⟨a, b⟩ := after_transaction slave (armWrite y addr data len mode) (f1.trans hs)
        (by rw [f2]; decide) (45 + 36 * i) (by omega) t1 _ o h
      rw [a, b]
      exact ⟨by decide, fun t => List.not_mem_nil _⟩
  · obtain ⟨f1, f2, f3, _, _, _⟩ := armRead_facts y addr data len mode
    obtain ⟨g1, g2, _, _⟩ := armRead_params y addr data len mode
    obtain ⟨k, tail, t1, t2, t3, t4⟩ := read_any slave (armRead y addr data len mode)
      (f1.trans hs) (by rw [f2]; decide) (by rw [g1]) (by rw [g2]; exact hlen)
    have t5 : (k = 45 ∧ tail = []) ∨
        ∃ m : Nat, (armRead y addr data len mode).inst.read_len = (m : Int) + 1 ∧
          k = 45 + 36 * (m + 1) ∧
          tail = rdBytesObs (armRead y addr data len mode).inst.busy_flag m 0 := by
      rcases t4 with ⟨a, b, _⟩ | h
      · exact Or.inl ⟨a, b⟩
      · exact Or.inr h
    have hk : 1 ≤ k := (read_tail_busy _ _ k tail t5).2.1.trans' (by decide)
    have hm := read_tail_mem _ _ k tail t5
    have hidle := after_transaction slave (armRead y addr data len mode) (f1.trans hs)
      (by rw [f2]; decide) k hk t1
    refine ⟨?_, ⟨k, t2, ?_⟩⟩
    · intro n o ho
      rcases trace_mem_cases slave k n _ o ho with h | h
      · rw [t3] at h
        exact read_shape_mem _ _ _ tail hm o h
      · rw [(hidle _ o h).2]
        exact fun t => List.not_mem_nil _
    · intro n
      rw [trace_add, List.filter_append, t3, read_shape_transmit _ _ _ tail hm,
        idle_filter_transmit _ (hidle n), List.append_nil, f3]

/-- C17, witness: a read of two bytes armed on an idle channel against a slave that answers
zero to every sample. -/
theorem C17_no_write_then_read_witness :
    ∃ k : Nat, (ticks (fun _ => 0) k (armRead
        ⟨⟨0, 0, 0, 0, 0, 0, fun _ => 0, 0, 0, 0, 0, State.IDLE, 2, 0, 0, 0⟩, true, true, 0⟩
        0x50 (fun _ => 0) 2 0)).inst.busy_flag = 0 ∧
      ∀ n, (trace (fun _ => 0) (k + n) (armRead
        ⟨⟨0, 0, 0, 0, 0, 0, fun _ => 0, 0, 0, 0, 0, State.IDLE, 2, 0, 0, 0⟩, true, true, 0⟩
        0x50 (fun _ => 0) 2 0)).filter isTransmit =
        wrWordObs 1 8 (armRead
          ⟨⟨0, 0, 0, 0, 0, 0, fun _ => 0, 0, 0, 0, 0, State.IDLE, 2, 0, 0, 0⟩, true, true, 0⟩
          0x50 (fun _ => 0) 2 0).inst.addr_rw :=
  (C17_no_write_then_read (fun _ => 0)
    ⟨⟨0, 0, 0, 0, 0, 0, fun _ => 0, 0, 0, 0, 0, State.IDLE, 2, 0, 0, 0⟩, true, true, 0⟩ rfl
    0x50 (fun _ => 0) 2 0 (by decide)).2.2

/-! ## Buffer accesses stay in range -/

theorem accesses_append (a b : List Obs) : accesses (a ++ b) = accesses a ++ accesses b := by
  simp [accesses, List.flatMap_append]

theorem accesses_cycle (st : State) (busy : Int) (e0 e1 e2 e3 : List Event) :
    accesses (cycleObs st busy e0 e1 e2 e3) =
      e0.filterMap accessIndex? ++ (e1.filterMap accessIndex? ++
        (e2.filterMap accessIndex? ++ e3.filterMap accessIndex?)) := by
  simp [accesses, cycleObs, List.flatMap_cons]

theorem accesses_wrWordObs (busy : Int) (k : Nat) (c : Int) :
    accesses (wrWordObs busy k c) = [] := by
  induction k generalizing c with
  | zero => rfl
  | succ k ih =>
    rw [wrWordObs, accesses_append, ih, accesses_cycle]
    unfold txEvent
    split <;> rfl

theorem accesses_rdWordObs (busy : Int) (j : Int) (n : Nat) :
    accesses (rdWordObs busy j n) = [j] := by
  induction n with
  | zero => rw [rdWordObs, accesses_cycle]; rfl
  | succ n ih => rw [rdWordObs, accesses_append, ih, accesses_cycle]; rfl

theorem range_shift (j : Int) (m : Nat) :
    (List.range (m + 1)).map (fun t : Nat => j + (t : Int)) =
      j :: (List.range m).map (fun t : Nat => j + 1 + (t : Int)) := by
  rw [List.range_succ_eq_map, List.map_cons, List.map_map]
  congr 1
  · simp
  · apply List.map_congr_left
    intro t _
    simp only [Function.comp_apply, Nat.succ_eq_add_one]
    push_cast
    ring

theorem accesses_wrBytesObs (busy : Int) (data : Int → uint8_t) (m : Nat) (j c : Int) :
    accesses (wrBytesObs busy data m j c) =
      (List.range m).map (fun t : Nat => j + (t : Int)) := by
  induction m generalizing j c with
  | zero =>
    rw [wrBytesObs, accesses_append, accesses_wrWordObs, rdAckObs, accesses_cycle]
    rfl
  | succ m ih =>
    rw [wrBytesObs, accesses_append, accesses_append, accesses_wrWordObs, rdAckObs,
      accesses_cycle, ih, range_shift]
    rfl

theorem accesses_rdBytesObs (busy : Int) (m : Nat) (j : Int) :
    accesses (rdBytesObs busy m j) =
      (List.range (m + 1)).map (fun t : Nat => j + (t : Int)) := by
  induction m generalizing j with
  | zero =>
    rw [rdBytesObs, accesses_append, accesses_rdWordObs, accesses_cycle]
    simp [accessIndex?, List.range_succ]
  | succ m ih =>
    rw [rdBytesObs, accesses_append, accesses_append, accesses_rdWordObs, accesses_cycle, ih,
      range_shift j (m + 1)]
    rfl

theorem accesses_idle (l : List Obs) (h : ∀ o ∈ l, o.state = State.IDLE ∧ o.events = []) :
    accesses l = [] := by
  induction l with
  | nil => rfl
  | cons o l ih =>
    have e : o :: l = [o] ++ l := rfl
    rw [e, accesses_append, ih (fun p hp => h p (List.mem_cons_of_mem _ hp))]
    simp [accesses, (h o (List.mem_cons_self _ _)).2]

theorem range_zero_add (i : Nat) :
    (List.range i).map (fun t : Nat => (0 : Int) + (t : Int)) =
      (List.range i).map (fun t : Nat => (t : Int)) :=
  List.map_congr_left (fun t _ => zero_add _)

theorem accesses_short_shape (phase busy : Int) (data : Int → uint8_t) (i : Nat) (c : Int) :
    accesses (startObs phase busy ++ (wrBytesObs busy data i 0 c ++ stopObs busy)) =
      (List.range i).map (fun t : Nat => (t : Int)) := by
  have e : startObs phase busy = [⟨State.IDLE, phase, busy, []⟩] ++
      cycleObs State.START busy [] [] [Event.sda_drive_low] [Event.scl_drive_low] := rfl
  rw [accesses_append, accesses_append, accesses_wrBytesObs, stopObs, accesses_cycle, e,
    accesses_append, accesses_cycle, range_zero_add]
  simp [accesses, accessIndex?]

theorem accesses_read_shape (phase busy : Int) (c : Int) (tail : List Obs) :
    accesses (startObs phase busy ++ (wrWordObs busy 8 c ++
        (rdAckObs busy [Event.sda_read, Event.scl_drive_low] ++ (tail ++ stopObs busy)))) =
      accesses tail := by
  have e : startObs phase busy = [⟨State.IDLE, phase, busy, []⟩] ++
      cycleObs State.START busy [] [] [Event.sda_drive_low] [Event.scl_drive_low] := rfl
  rw [accesses_append, accesses_append, accesses_append, accesses_append, accesses_wrWordObs,
    rdAckObs, stopObs, accesses_cycle, accesses_cycle, e, accesses_append, accesses_cycle]
  simp [accesses, accessIndex?]

theorem accesses_before (slave : Nat → Int) (k : Nat) (y : Sys) (l : List Int)
    (h : ∀ n, accesses (trace slave (k + n) y) = l) :
    ∀ n, ∃ rest, accesses (trace slave n y) ++ rest = l := by
  intro n
  by_cases hk : n ≤ k
  · have e : k + 0 = n + (k - n) := by omega
    have h0 := h 0
    rw [e, trace_add, accesses_append] at h0
    exact ⟨_, h0⟩
  · have e : n = k + (n - k) := by omega
    refine ⟨[], ?_⟩
    rw [List.append_nil, e]
    exact h (n - k)

theorem write_accesses (slave : Nat → Int) (y : Sys)
    (hs : y.inst.state = State.IDLE) (hf : y.inst.start_flag ≠ 0)
    (hw : y.inst.write_len < 2147483648) (hr : y.inst.read_len ≤ 0) :
    ∃ k i : Nat, (i : Int) ≤ max y.inst.write_len 0 ∧ k = 45 + 36 * i ∧
      (ticks slave k y).inst.state = State.IDLE ∧
      (ticks slave k y).inst.busy_flag = 0 ∧
      trace slave k y =
        startObs y.inst.phase y.inst.busy_flag ++
          (wrBytesObs y.inst.busy_flag y.inst.data i 0 y.inst.addr_rw ++
            stopObs y.inst.busy_flag) ∧
      ∀ n, accesses (trace slave (k + n) y) = (List.range i).map (fun t : Nat => (t : Int)) := by
  obtain ⟨i, hi, t1, t2, _, t4⟩ := short_transaction slave y hs hf hw hr
  refine ⟨45 + 36 * i, i, hi, rfl, t1, t2, t4, ?_⟩
  intro n
  rw [trace_add, accesses_append, t4, accesses_short_shape,
    accesses_idle _ (after_transaction slave y hs hf (45 + 36 * i) (by omega) t1 n),
    List.append_nil]

theorem read_accesses (slave : Nat → Int) (y : Sys)
    (hs : y.inst.state = State.IDLE) (hf : y.inst.start_flag ≠ 0)
    (hw : y.inst.write_len ≤ 0) (hr : y.inst.read_len < 2147483648) :
    ∃ k i : Nat, (i : Int) ≤ max y.inst.read_len 0 ∧
      (ticks slave k y).inst.state = State.IDLE ∧
      (ticks slave k y).inst.busy_flag = 0 ∧
      ∀ n, accesses (trace slave (k + n) y) = (List.range i).map (fun t : Nat => (t : Int)) := by
  obtain ⟨k, tail, t1, t2, t3, t4⟩ := read_any slave y hs hf hw hr
  have t5 : (k = 45 ∧ tail = []) ∨
      ∃ m : Nat, y.inst.read_len = (m : Int) + 1 ∧ k = 45 + 36 * (m + 1) ∧
        tail = rdBytesObs y.inst.busy_flag m 0 := by
    rcases t4 with ⟨a, b, _⟩ | h
    · exact Or.inl ⟨a, b⟩
    · exact Or.inr h
  have hk : 1 ≤ k := (read_tail_busy _ _ k tail t5).2.1.trans' (by decide)
  have hidle := after_transaction slave y hs hf k hk t1
  have key : ∃ i : Nat, (i : Int) ≤ max y.inst.read_len 0 ∧
      accesses tail = (List.range i).map (fun t : Nat => (t : Int)) := by
    rcases t5 with ⟨_, h2⟩ | ⟨m, h1, _, h3⟩
    · exact ⟨0, le_max_right _ _, by rw [h2]; rfl⟩
    · refine ⟨m + 1, ?_, ?_⟩
      · rw [h1]; push_cast; exact le_max_left _ _
      · rw [h3, accesses_rdBytesObs, range_zero_add]
  obtain ⟨i, hi, ha⟩ := key
  refine ⟨k, i, hi, t1, t2, ?_⟩
  intro n
  rw [trace_add, accesses_append, t3, accesses_read_shape, ha, accesses_idle _ (hidle n),
    List.append_nil]

theorem address_only (slave : Nat → Int) (y : Sys)
    (hs : y.inst.state = State.IDLE) (hf : y.inst.start_flag ≠ 0)
    (hw : y.inst.write_len ≤ 0) (hr : y.inst.read_len ≤ 0) :
    trace slave 45 y =
      startObs y.inst.phase y.inst.busy_flag ++
        (wrWordObs y.inst.busy_flag 8 y.inst.addr_rw ++
          (rdAckObs y.inst.busy_flag [Event.sda_read, Event.scl_drive_low] ++
            stopObs y.inst.busy_flag)) ∧
    (ticks slave 45 y).inst.busy_flag = 0 ∧
    (ticks slave 45 y).inst.state = State.IDLE ∧
    ∀ n, accesses (trace slave n y) = [] := by
  obtain ⟨k, i, hi, hk, t1, t2, t4, t5⟩ := write_accesses slave y hs hf (by omega) hr
  have hi0 : i = 0 := by
    have : max y.inst.write_len 0 = 0 := max_eq_right hw
    omega
  subst hi0
  have hk0 : k = 45 := hk
  subst hk0
  refine ⟨?_, t2, t1, ?_⟩
  · rw [t4]
    simp [wrBytesObs]
  · intro n
    obtain ⟨rest, hrest⟩ := accesses_before slave 45 y _ t5 n
    exact (List.append_eq_nil.1 hrest).1

/-- C20. On a channel in `IDLE`, for every address, buffer, length `len` that an `int` holds,
mode and slave: the indices at which the ticks after `bb_i2c_master_write` load from the
buffer, and at which the ticks after `bb_i2c_master_read` store into it, are, in the order
of the accesses, `0, 1, ..., i - 1` for some `i ≤ max len 0`: all of them once the busy flag
has cleared, however many ticks follow, and a beginning of that list before. So every index
accessed is in `0 .. len - 1`, none is accessed twice and they come in increasing order.
With `len ≤ 0` the buffer is never accessed and the 45 ticks of the transaction are the
`IDLE` tick, `START`, the address byte, the acknowledge slot and `STOP`. -/
theorem C20_buffer_accesses_in_range (slave : Nat → Int) (y : Sys)
    (hs : y.inst.state = State.IDLE) (addr : uint8_t) (data : Int → uint8_t) (len : Int)
    (mode : bb_i2c_master_mode) (hlen : len < 2147483648) :
    (∃ k i : Nat, (i : Int) ≤ max len 0 ∧
      (ticks slave k (armWrite y addr data len mode)).inst.busy_flag = 0 ∧
      (∀ n, accesses (trace slave (k + n) (armWrite y addr data len mode)) =
        (List.range i).map (fun t : Nat => (t : Int))) ∧
      (∀ n, ∃ rest, accesses (trace slave n (armWrite y addr data len mode)) ++ rest =
        (List.range i).map (fun t : Nat => (t : Int)))) ∧
    (∃ k i : Nat, (i : Int) ≤ max len 0 ∧
      (ticks slave k (armRead y addr data len mode)).inst.busy_flag = 0 ∧
      (∀ n, accesses (trace slave (k + n) (armRead y addr data len mode)) =
        (List.range i).map (fun t : Nat => (t : Int))) ∧
      (∀ n, ∃ rest, accesses (trace slave n (armRead y addr data len mode)) ++ rest =
        (List.range i).map (fun t : Nat => (t : Int)))) ∧
    (len ≤ 0 →
      (trace slave 45 (armWrite y addr data len mode) =
          startObs y.inst.phase 1 ++
            (wrWordObs 1 8 (armWrite y addr data len mode).inst.addr_rw ++
              (rdAckObs 1 [Event.sda_read, Event.scl_drive_low] ++ stopObs 1)) ∧
        (ticks slave 45 (armWrite y addr data len mode)).inst.busy_flag = 0 ∧
        (ticks slave 45 (armWrite y addr data len mode)).inst.state = State.IDLE ∧
        ∀ n, accesses (trace slave n (armWrite y addr data len mode)) = []) ∧
      (trace slave 45 (armRead y addr data len mode) =
          startObs y.inst.phase 1 ++
            (wrWordObs 1 8 (armRead y addr data len mode).inst.addr_rw ++
              (rdAckObs 1 [Event.sda_read, Event.scl_drive_low] ++ stopObs 1)) ∧
        (ticks slave 45 (armRead y addr data len mode)).inst.busy_flag = 0 ∧
        (ticks slave 45 (armRead y addr data len mode)).inst.state = State.IDLE ∧
        ∀ n, accesses (trace slave n (armRead y addr data len mode)) = [])) := by
  obtain ⟨f1, f2, f3, f4, _, _⟩ := armWrite_facts y addr data len mode
  obtain ⟨g1, g2, _, _⟩ := armWrite_params y addr data len mode
  obtain ⟨p1, p2, p3, p4, _, _⟩ := armRead_facts y addr data len mode
  obtain ⟨q1, q2, _, _⟩ := armRead_params y addr data len mode
  have hfw : (armWrite y addr data len mode).inst.start_flag ≠ 0 := by rw [f2]; decide
  have hfr : (armRead y addr data len mode).inst.start_flag ≠ 0 := by rw [p2]; decide
  refine ⟨?_, ?_, ?_⟩
  · obtain ⟨k, i, hi, _, _, t2, _, t5⟩ := write_accesses slave
      (armWrite y addr data len mode) (f1.trans hs) hfw (by rw [g1]; exact hlen) (by rw [g2])
    rw [g1] at hi
    exact ⟨k, i, hi, t2, t5, accesses_before slave k _ _ t5⟩
  · obtain ⟨k, i, hi, _, t2, t5⟩ := read_accesses slave
      (armRead y addr data len mode) (p1.trans hs) hfr (by rw [q1]) (by rw [q2]; exact hlen)
    rw [q2] at hi
    exact ⟨k, i, hi, t2, t5, accesses_before slave k _ _ t5⟩
  · intro hl
    have aw := address_only slave (armWrite y addr data len mode) (f1.trans hs) hfw
      (by rw [g1]; exact hl) (by rw [g2])
    have ar := address_only slave (armRead y addr data len mode) (p1.trans hs) hfr
      (by rw [q1]) (by rw [q2]; exact hl)
    rw [f3, f4] at aw
    rw [p3, p4] at ar
    exact ⟨aw, ar⟩

/-- C20, witness: a write of two bytes armed on an idle channel against a slave that
acknowledges the address and the first byte only. -/
theorem C20_buffer_accesses_in_range_witness :
    ∃ k i : Nat, (i : Int) ≤ max 2 0 ∧
      (ticks (fun r => if r < 2 then 0 else 1) k (armWrite
        ⟨⟨0, 0, 0, 0, 0, 0, fun _ => 0, 0, 0, 0, 0, State.IDLE, 2, 0, 0, 0⟩, true, true, 0⟩
        0x50 (fun _ => 0xAA) 2 0)).inst.busy_flag = 0 ∧
      (∀ n, accesses (trace (fun r => if r < 2 then 0 else 1) (k + n) (armWrite
        ⟨⟨0, 0, 0, 0, 0, 0, fun _ => 0, 0, 0, 0, 0, State.IDLE, 2, 0, 0, 0⟩, true, true, 0⟩
        0x50 (fun _ => 0xAA) 2 0)) = (List.range i).map (fun t : Nat => (t : Int))) ∧
      (∀ n, ∃ rest, accesses (trace (fun r => if r < 2 then 0 else 1) n (armWrite
        ⟨⟨0, 0, 0, 0, 0, 0, fun _ => 0, 0, 0, 0, 0, State.IDLE, 2, 0, 0, 0⟩, true, true, 0⟩
        0x50 (fun _ => 0xAA) 2 0)) ++ rest = (List.range i).map (fun t : Nat => (t : Int))) :=
  (C20_buffer_accesses_in_range (fun r => if r < 2 then 0 else 1)
    ⟨⟨0, 0, 0, 0, 0, 0, fun _ => 0, 0, 0, 0, 0, State.IDLE, 2, 0, 0, 0⟩, true, true, 0⟩ rfl
    0x50 (fun _ => 0xAA) 2 0 (by decide)).1

/-! ## The two calls with their wait -/

theorem finishArm_halfArmWrite (y : Sys) (addr : uint8_t) (data : Int → uint8_t) (len : Int)
    (mode : bb_i2c_master_mode) :
    finishArm (halfArmWrite y addr data len) = armWrite y addr data len mode := by
  obtain ⟨⟨k1, k2, k3, k4, k5, a, d, wl, rl, sf, bf, st, ph, cb, bc, bitc⟩, sda, scl, r⟩ := y
  simp only [finishArm, halfArmWrite, armWrite, busy_store, write_request, write_stores]

theorem finishArm_halfArmRead (y : Sys) (addr : uint8_t) (data : Int → uint8_t) (len : Int)
    (mode : bb_i2c_master_mode) :
    finishArm (halfArmRead y addr data len) = armRead y addr data len mode := by
  obtain ⟨⟨k1, k2, k3, k4, k5, a, d, wl, rl, sf, bf, st, ph, cb, bc, bitc⟩, sda, scl, r⟩ := y
  simp only [finishArm, halfArmRead, armRead, busy_store, read_request, read_stores]

theorem reachable_ticks (slave : Nat → Int) (k : Nat) :
    ∀ y : Sys, Reachable y → Reachable (ticks slave k y) := by
  induction k with
  | zero => intro y h; rw [ticks_zero]; exact h
  | succ k ih =>
    intro y h
    rw [ticks_succ]
    exact ih _ (Reachable.tick slave y h)

/-- C11, counterexample: after `bb_i2c_master_init`, with `busy_flag` clear, a call of
`bb_i2c_master_write` has stored `start_flag = 1` and not yet `busy_flag = 1` when a tick
runs. The tick consumes the start: it leaves `state = START` with `busy_flag` still clear,
so the state is not `IDLE` and busy is false. -/
theorem C11_busy_invariant_counterexample :
    (initSys ⟨⟨0, 0, 0, 0, 0, 0, fun _ => 0, 0, 0, 1, 1, State.STOP, 7, 0, 0, 0⟩, false, false, 0⟩
        1 2 3 4 5).inst.busy_flag = 0 ∧
    (tick (fun _ => 0) (halfArmWrite
      (initSys ⟨⟨0, 0, 0, 0, 0, 0, fun _ => 0, 0, 0, 1, 1, State.STOP, 7, 0, 0, 0⟩, false, false, 0⟩
        1 2 3 4 5) 0x50 (fun _ => 0xAA) 1)).1.inst.state = State.START ∧
    (tick (fun _ => 0) (halfArmWrite
      (initSys ⟨⟨0, 0, 0, 0, 0, 0, fun _ => 0, 0, 0, 1, 1, State.STOP, 7, 0, 0, 0⟩, false, false, 0⟩
        1 2 3 4 5) 0x50 (fun _ => 0xAA) 1)).1.inst.busy_flag = 0 ∧
    ¬ ((tick (fun _ => 0) (halfArmWrite
      (initSys ⟨⟨0, 0, 0, 0, 0, 0, fun _ => 0, 0, 0, 1, 1, State.STOP, 7, 0, 0, 0⟩, false, false, 0⟩
        1 2 3 4 5) 0x50 (fun _ => 0xAA) 1)).1.inst.state ≠ State.IDLE →
      (tick (fun _ => 0) (halfArmWrite
      (initSys ⟨⟨0, 0, 0, 0, 0, 0, fun _ => 0, 0, 0, 1, 1, State.STOP, 7, 0, 0, 0⟩, false, false, 0⟩
        1 2 3 4 5) 0x50 (fun _ => 0xAA) 1)).1.inst.busy_flag ≠ 0) := by
  decide!

/-- C11, witness: after `bb_i2c_master_init` and a write of one byte to address 0x50, the
busy flag is set while the start is pending (no tick yet) and in the middle of the address
byte (10 ticks later, in `WR_WORD`); once the busy flag has cleared, 45 ticks after the
call against a slave that does not acknowledge, the state is `IDLE` and no start is
pending. -/
theorem C11_busy_invariant_witness :
    ((armWrite
      (initSys ⟨⟨0, 0, 0, 0, 0, 0, fun _ => 0, 0, 0, 1, 1, State.STOP, 7, 0, 0, 0⟩, false, false, 0⟩
        1 2 3 4 5) 0x50 (fun _ => 0xAA) 1 1).inst.start_flag = 1 ∧
      (armWrite
      (initSys ⟨⟨0, 0, 0, 0, 0, 0, fun _ => 0, 0, 0, 1, 1, State.STOP, 7, 0, 0, 0⟩, false, false, 0⟩
        1 2 3 4 5) 0x50 (fun _ => 0xAA) 1 1).inst.busy_flag ≠ 0) ∧
    ((ticks (fun _ => 1) 10 (armWrite
      (initSys ⟨⟨0, 0, 0, 0, 0, 0, fun _ => 0, 0, 0, 1, 1, State.STOP, 7, 0, 0, 0⟩, false, false, 0⟩
        1 2 3 4 5) 0x50 (fun _ => 0xAA) 1 1)).inst.state = State.WR_WORD ∧
      (ticks (fun _ => 1) 10 (armWrite
      (initSys ⟨⟨0, 0, 0, 0, 0, 0, fun _ => 0, 0, 0, 1, 1, State.STOP, 7, 0, 0, 0⟩, false, false, 0⟩
        1 2 3 4 5) 0x50 (fun _ => 0xAA) 1 1)).inst.busy_flag ≠ 0) ∧
    ((ticks (fun _ => 1) 45 (armWrite
      (initSys ⟨⟨0, 0, 0, 0, 0, 0, fun _ => 0, 0, 0, 1, 1, State.STOP, 7, 0, 0, 0⟩, false, false, 0⟩
        1 2 3 4 5) 0x50 (fun _ => 0xAA) 1 1)).inst.busy_flag = 0 ∧
      (ticks (fun _ => 1) 45 (armWrite
      (initSys ⟨⟨0, 0, 0, 0, 0, 0, fun _ => 0, 0, 0, 1, 1, State.STOP, 7, 0, 0, 0⟩, false, false, 0⟩
        1 2 3 4 5) 0x50 (fun _ => 0xAA) 1 1)).inst.state = State.IDLE ∧
      (ticks (fun _ => 1) 45 (armWrite
      (initSys ⟨⟨0, 0, 0, 0, 0, 0, fun _ => 0, 0, 0, 1, 1, State.STOP, 7, 0, 0, 0⟩, false, false, 0⟩
        1 2 3 4 5) 0x50 (fun _ => 0xAA) 1 1)).inst.start_flag = 0) :=
  ⟨⟨by decide!,
      (C11_busy_invariant _
        (Reachable.write _ 0x50 (fun _ => 0xAA) 1 1 (Reachable.init _ 1 2 3 4 5)
          (by decide!))).1 (Or.inl (by decide!))⟩,
    ⟨by decide!,
      (C11_busy_invariant _
        (reachable_ticks (fun _ => 1) 10 _
          (Reachable.write _ 0x50 (fun _ => 0xAA) 1 1 (Reachable.init _ 1 2 3 4 5)
            (by decide!)))).1 (Or.inr (by decide!))⟩,
    ⟨by decide!,
      (C11_busy_invariant _
        (reachable_ticks (fun _ => 1) 45 _
          (Reachable.write _ 0x50 (fun _ => 0xAA) 1 1 (Reachable.init _ 1 2 3 4 5)
            (by decide!)))).2 (by decide!)⟩⟩

end BbI2cMaster
